import Mathlib

/-! # OrbAlmStore: a shallow embedding of `ext/lib/GNSSEph/OrbAlmStore.cpp`

The definitions come first, the lemmas and theorems about them after.

The store keeps almanac records in two indexes.  `std::map` and `std::multimap`
are embedded as key-ordered association lists, exceptions as `Except`, and the
mutable object as an explicit state that every operation takes and returns.
-/

namespace gpstk

/-- A `CommonTime` value: a point of a totally ordered time line. -/
abbrev CommonTime := Int

/-- A `SatID` value: a totally ordered satellite identifier. -/
abbrev SatID := Nat

/-- The fields of `OrbAlm` that `OrbAlmStore.cpp` reads (`ctToe`, `beginValid`,
`healthy`); `params` stands for the remaining orbit parameters of the record. -/
structure OrbAlm where
  ctToe : CommonTime
  beginValid : CommonTime
  healthy : Bool
  params : Nat
deriving DecidableEq, Repr

/-- The type `OrbAlmMap` (a `std::multimap<CommonTime, OrbAlm*>`): the entries in
iteration order, which the container keeps ascending by key. -/
abbrev OrbAlmMap := List (CommonTime × OrbAlm)

/-- The type `SubjectAlmMap`, also `UniqueAlmMap` (a `std::map<SatID, OrbAlmMap>`). -/
abbrev SubjectAlmMap := List (SatID × OrbAlmMap)

/-- The type `XmitAlmMap` (a `std::map<SatID, UniqueAlmMap>`). -/
abbrev XmitAlmMap := List (SatID × SubjectAlmMap)

/-- The data members of `OrbAlmStore`. -/
structure OrbAlmStore where
  subjectAlmMap : SubjectAlmMap
  xmitAlmMap : XmitAlmMap
  initialTime : CommonTime
  finalTime : CommonTime
deriving DecidableEq, Repr

/-- What a call can end in other than a returned value: the thrown
`InvalidRequest`, or the read of an iterator that was never assigned. -/
inductive Failure where
  | InvalidRequest
  | uninitialisedIterator
deriving DecidableEq, Repr

/-! ## `std::map` and `std::multimap` primitives -/

/-- The lookup `std::map::find`: a search along the ascending keys; `none` is `end()`. -/
def mapFind {V : Type} (k : SatID) : List (SatID × V) → Option V
  | [] => none
  | e :: rest =>
    if k < e.1 then none
    else if k = e.1 then some e.2
    else mapFind k rest

/-- Writing through the reference that `std::map::operator[]` returns: the value
under `k` becomes `v`, the key being created in its ordered place when absent. -/
def mapSet {V : Type} (k : SatID) (v : V) : List (SatID × V) → List (SatID × V)
  | [] => [(k, v)]
  | e :: rest =>
    if k < e.1 then (k, v) :: e :: rest
    else if k = e.1 then (k, v) :: rest
    else e :: mapSet k v rest

/-- The insertion `std::multimap::insert`: the new entry goes to the upper bound of
its key, after every entry whose key is not greater. -/
def multimapInsert (k : CommonTime) (v : OrbAlm) : OrbAlmMap → OrbAlmMap
  | [] => [(k, v)]
  | e :: rest =>
    if e.1 ≤ k then e :: multimapInsert k v rest
    else (k, v) :: e :: rest

/-! ## `OrbAlmStore::findOrbAlm` -/

/-- The `for` loop of `findOrbAlm` over the entries not yet visited, with the
loop variables `first` and `previt` (`none` while `previt` is unassigned).  The
result is the record the function returns, `none` when the iterator it
dereferences was never assigned. -/
def findOrbAlmLoop (t : CommonTime) : OrbAlmMap → Bool → Option OrbAlm → Option OrbAlm
  | [], _, previt => previt
  | cit :: rest, first, previt =>
    let testp := cit.2
    if first then
      if testp.beginValid ≥ t then some cit.2
      else findOrbAlmLoop t rest false (some cit.2)
    else
      if testp.beginValid ≥ t then previt
      else findOrbAlmLoop t rest false (some cit.2)

/-- The method `OrbAlmStore::findOrbAlm(subjID, t)`. -/
def findOrbAlm (s : OrbAlmStore) (subjID : SatID) (t : CommonTime) : Except Failure OrbAlm :=
  match mapFind subjID s.subjectAlmMap with
  | none => .error Failure.InvalidRequest
  | some em =>
    match em with
    | [cit] => .ok cit.2
    | _ =>
      match findOrbAlmLoop t em true none with
      | some r => .ok r
      | none => .error Failure.uninitialisedIterator

/-! ## `OrbAlmStore::addOrbAlm` -/

/-- The two members the store calls whose code is not in `OrbAlmStore.cpp`: the
virtual `OrbAlm::isSameData` (`isSameData alm oe` is `alm->isSameData(oe)`) and
`OrbAlmStore::updateInitialFinal`, which is given a record and rewrites the pair
`(initialTime, finalTime)`.  Both are parameters of the embedding. -/
structure Collaborators where
  isSameData : OrbAlm → OrbAlm → Bool
  updateInitialFinal : OrbAlm → CommonTime × CommonTime → CommonTime × CommonTime

/-- The scan of `oem.equal_range(alm->ctToe)` for the first candidate `oe` with
`alm->isSameData(oe)`: that record together with the map after `oem.erase(it)`,
or `none` when the loop ends without a match. -/
def firstSameData (env : Collaborators) (alm : OrbAlm) : OrbAlmMap → Option (OrbAlm × OrbAlmMap)
  | [] => none
  | it :: rest =>
    if it.1 = alm.ctToe ∧ env.isSameData alm it.2 = true then some (it.2, rest)
    else
      match firstSameData env alm rest with
      | some (oe, erased) => some (oe, it :: erased)
      | none => none

/-- The method `OrbAlmStore::addOrbAlmToOrbAlmMap(alm, oem)`, on the map and the pair
`(initialTime, finalTime)`: the returned flag, the map and the pair afterwards. -/
def addOrbAlmToOrbAlmMap (env : Collaborators) (alm : OrbAlm) (oem : OrbAlmMap)
    (span : CommonTime × CommonTime) : Bool × OrbAlmMap × (CommonTime × CommonTime) :=
  let et := alm.ctToe
  match firstSameData env alm oem with
  | some (oe, erased) =>
    if oe.beginValid ≤ alm.beginValid then (false, oem, span)
    else (true, multimapInsert et alm erased, env.updateInitialFinal alm span)
  | none => (true, multimapInsert et alm oem, span)

/-- The first block of `addOrbAlm`: the work on `subjectAlmMap[subjID]`, done when
`isXmitHealthy` holds; the value of `test1` and the store afterwards. -/
def addOrbAlmSubject (env : Collaborators) (alm : OrbAlm) (subjID : SatID)
    (isXmitHealthy : Bool) (s : OrbAlmStore) : Bool × OrbAlmStore :=
  if isXmitHealthy then
    let oem := (mapFind subjID s.subjectAlmMap).getD []
    let r := addOrbAlmToOrbAlmMap env alm oem (s.initialTime, s.finalTime)
    (r.1, { s with subjectAlmMap := mapSet subjID r.2.1 s.subjectAlmMap,
                   initialTime := r.2.2.1, finalTime := r.2.2.2 })
  else (false, s)

/-- The second block of `addOrbAlm`: the work on `xmitAlmMap[xmitID][subjID]`; the
value of `test2` and the store afterwards. -/
def addOrbAlmXmit (env : Collaborators) (alm : OrbAlm) (xmitID subjID : SatID)
    (s : OrbAlmStore) : Bool × OrbAlmStore :=
  let uam := (mapFind xmitID s.xmitAlmMap).getD []
  let oemX := (mapFind subjID uam).getD []
  let r := addOrbAlmToOrbAlmMap env alm oemX (s.initialTime, s.finalTime)
  (r.1, { s with xmitAlmMap := mapSet xmitID (mapSet subjID r.2.1 uam) s.xmitAlmMap,
                 initialTime := r.2.2.1, finalTime := r.2.2.2 })

/-- The method `OrbAlmStore::addOrbAlm(alm, xmitID, subjID, isXmitHealthy)`: the
returned flag and the store afterwards. -/
def addOrbAlm (env : Collaborators) (alm : OrbAlm) (xmitID subjID : SatID)
    (isXmitHealthy : Bool) (s : OrbAlmStore) : Bool × OrbAlmStore :=
  let r1 := addOrbAlmSubject env alm subjID isXmitHealthy s
  let r2 := addOrbAlmXmit env alm xmitID subjID r1.2
  (r1.1 || r2.1, r2.2)

/-! ## `OrbAlmStore::edit`, `clear` and the size queries -/

/-- The body that `edit` runs on each `OrbAlmMap`: `erase(begin(), lower_bound(tmin))`
drops the leading entries with key before `tmin`, then `erase(upper_bound(tmax), end())`
keeps the leading entries with key not after `tmax`. -/
def editOrbAlmMap (tmin tmax : CommonTime) (eMap : OrbAlmMap) : OrbAlmMap :=
  (eMap.dropWhile (fun emi => decide (emi.1 < tmin))).takeWhile (fun emi => decide (emi.1 ≤ tmax))

/-- The method `OrbAlmStore::edit(tmin, tmax)`. -/
def edit (tmin tmax : CommonTime) (s : OrbAlmStore) : OrbAlmStore :=
  { subjectAlmMap := s.subjectAlmMap.map (fun i => (i.1, editOrbAlmMap tmin tmax i.2))
    xmitAlmMap := s.xmitAlmMap.map
      (fun i => (i.1, i.2.map (fun it2 => (it2.1, editOrbAlmMap tmin tmax it2.2))))
    initialTime := tmin
    finalTime := tmax }

/-- The method `OrbAlmStore::clear()`. -/
def clear (s : OrbAlmStore) : OrbAlmStore :=
  { s with subjectAlmMap := [], xmitAlmMap := [] }

/-- The range of the `unsigned` counters of the size queries. -/
def unsignedRange : Nat := 2 ^ 32

/-- The statement `counter += i->second.size()` run over the sub-maps of one
`std::map<SatID, OrbAlmMap>`, in `unsigned` arithmetic. -/
def countEntries (counter : Nat) (m : SubjectAlmMap) : Nat :=
  m.foldl (fun c i => (c + i.2.length) % unsignedRange) counter

/-- The method `OrbAlmStore::size(choice)`. -/
def size (choice : Nat) (s : OrbAlmStore) : Nat :=
  let counter := 0
  let counter :=
    if choice = 0 ∨ choice = 1 then countEntries counter s.subjectAlmMap else counter
  if choice = 0 ∨ choice = 2 then
    s.xmitAlmMap.foldl (fun c i2 => countEntries c i2.2) counter
  else counter

/-- The method `OrbAlmStore::sizeSubjAlm(subjID)`. -/
def sizeSubjAlm (s : OrbAlmStore) (subjID : SatID) : Nat :=
  match mapFind subjID s.subjectAlmMap with
  | some oem => oem.length % unsignedRange
  | none => 0

/-- The method `OrbAlmStore::sizeXmitAlm(xmitID)`. -/
def sizeXmitAlm (s : OrbAlmStore) (xmitID : SatID) : Nat :=
  match mapFind xmitID s.xmitAlmMap with
  | some uam => countEntries 0 uam
  | none => 0

/-- A store with no record in either index and the given time span. -/
def emptyStore (initialTime finalTime : CommonTime) : OrbAlmStore :=
  { subjectAlmMap := [], xmitAlmMap := [], initialTime := initialTime, finalTime := finalTime }

/-- The stores that calls of `addOrbAlm`, `edit` and `clear` produce from an empty one. -/
inductive Reachable (env : Collaborators) : OrbAlmStore → Prop where
  | init (initialTime finalTime : CommonTime) : Reachable env (emptyStore initialTime finalTime)
  | addOrbAlm (s : OrbAlmStore) (alm : OrbAlm) (xmitID subjID : SatID) (isXmitHealthy : Bool) :
      Reachable env s → Reachable env (addOrbAlm env alm xmitID subjID isXmitHealthy s).2
  | edit (s : OrbAlmStore) (tmin tmax : CommonTime) :
      Reachable env s → Reachable env (edit tmin tmax s)
  | clear (s : OrbAlmStore) : Reachable env s → Reachable env (clear s)

/-! ## The queries `getXvt` and `isHealthy` -/

/-- The method `OrbAlmStore::validSatSystem(subjID)` of the base class. -/
def validSatSystem (_subjID : SatID) : Bool :=
  true

/-- How `getXvt` and `isHealthy` end when they return no value: with what `findOrbAlm`
ended in, passed on as it is; with the `InvalidRequest` that `getXvt` throws for a record
whose `healthy` is false; or with the `InvalidRequest` that `isHealthy` throws for a
satellite that `validSatSystem` rejects. -/
inductive QueryFailure where
  | lookup (e : Failure)
  | unhealthy
  | invalidSatSystem
deriving DecidableEq, Repr

/-- Modelled from the spec: `OrbAlm::isHealthy()`, whose code is in a header outside
`OrbAlmStore.cpp`, gives the health flag of the record. -/
def OrbAlm.isHealthy (alm : OrbAlm) : Bool :=
  alm.healthy

/-- The method `OrbAlmStore::getXvt(subjID, t)`; `svXvt alm t` is `alm->svXvt(t)`, the orbit
computation of the record, a parameter of the embedding. -/
def getXvt {Xvt : Type} (svXvt : OrbAlm → CommonTime → Xvt) (s : OrbAlmStore)
    (subjID : SatID) (t : CommonTime) : Except QueryFailure Xvt :=
  match findOrbAlm s subjID t with
  | .error ir => .error (QueryFailure.lookup ir)
  | .ok alm =>
    if !alm.healthy then .error QueryFailure.unhealthy
    else
      let sv := svXvt alm t
      .ok sv

/-- The method `OrbAlmStore::isHealthy(subjID, t)`. -/
def isHealthy (s : OrbAlmStore) (subjID : SatID) (t : CommonTime) : Except QueryFailure Bool :=
  if !validSatSystem subjID then .error QueryFailure.invalidSatSystem
  else
    match findOrbAlm s subjID t with
    | .error ir => .error (QueryFailure.lookup ir)
    | .ok alm => .ok alm.isHealthy

/-- The method `OrbAlmStore::getOrbAlmMap(subjID)`; both of its throws are `InvalidRequest`. -/
def getOrbAlmMap (s : OrbAlmStore) (subjID : SatID) : Except Failure OrbAlmMap :=
  if !validSatSystem subjID then .error Failure.InvalidRequest
  else
    match mapFind subjID s.subjectAlmMap with
    | none => .error Failure.InvalidRequest
    | some oem => .ok oem

/-! ## Sequences of `addOrbAlm` calls -/

/-- The arguments of one `addOrbAlm` call. -/
structure AddCall where
  alm : OrbAlm
  xmitID : SatID
  subjID : SatID
  isXmitHealthy : Bool
deriving DecidableEq, Repr

/-- The store after the `addOrbAlm` calls of the list, made in that order. -/
def addOrbAlmCalls (env : Collaborators) (calls : List AddCall) (s : OrbAlmStore) : OrbAlmStore :=
  calls.foldl (fun st c => (addOrbAlm env c.alm c.xmitID c.subjID c.isXmitHealthy st).2) s

/-- The records that the calls hand to `subjectAlmMap[subjID]`, in call order. -/
def addedToSubject (calls : List AddCall) (subjID : SatID) : List OrbAlm :=
  (calls.filter (fun c => c.isXmitHealthy && decide (c.subjID = subjID))).map (fun c => c.alm)

/-- The records that the calls hand to `xmitAlmMap[xmitID][subjID]`, in call order. -/
def addedToXmit (calls : List AddCall) (xmitID subjID : SatID) : List OrbAlm :=
  (calls.filter (fun c => decide (c.xmitID = xmitID) && decide (c.subjID = subjID))).map
    (fun c => c.alm)

/-- The sub-map after the records of the list were handed to `addOrbAlmToOrbAlmMap` one
after the other. -/
def addAllToMap (env : Collaborators) (rs : List OrbAlm) (oem : OrbAlmMap) : OrbAlmMap :=
  rs.foldl (fun m r => (addOrbAlmToOrbAlmMap env r m (0, 0)).2.1) oem

/-! ## `OrbAlmStore::dumpXmitAlm` -/

/-- The first loop of `dumpXmitAlm` on the `UniqueAlmMap` of one transmitter: every entry
of every sub-map is inserted, under its key, into the multimap `tempMap` (a `clone()` of a
record is the record). -/
def dumpTempMap (uam : SubjectAlmMap) : OrbAlmMap :=
  uam.foldl (fun tempMap it2 =>
    it2.2.foldl (fun tempMap it3 => multimapInsert it3.1 it3.2 tempMap) tempMap) []

/-- The second loop of `dumpXmitAlm`: every record of `tempMap` is inserted into
`tempMap2` under its `beginValid`. -/
def dumpTempMap2 (tempMap : OrbAlmMap) : OrbAlmMap :=
  tempMap.foldl (fun tempMap2 cit => multimapInsert cit.2.beginValid cit.2 tempMap2) []

/-- The method `OrbAlmStore::dumpXmitAlm(s, detail)`, as the records it hands to `dump` or
`dumpTerse`: for each transmitter, in the order of `xmitAlmMap`, the records in the order of
the third loop, over `tempMap2`.  The text written around the records is not part of the
embedding; with `detail == 0` and with a negative `detail` no record is written. -/
def dumpXmitAlm (detail : Int) (s : OrbAlmStore) : List (SatID × List OrbAlm) :=
  if detail = 0 then []
  else if detail ≥ 1 then
    s.xmitAlmMap.map (fun it => (it.1, (dumpTempMap2 (dumpTempMap it.2)).map Prod.snd))
  else []

/-! ## Properties of the maps of a store -/

/-- Every `OrbAlmMap` of the store, in the subject index and in the transmit index,
satisfies `P`. -/
def EverySubMap (P : OrbAlmMap → Prop) (s : OrbAlmStore) : Prop :=
  (∀ i ∈ s.subjectAlmMap, P i.2) ∧ (∀ i ∈ s.xmitAlmMap, ∀ it2 ∈ i.2, P it2.2)

/-- The order that `std::multimap` keeps: the keys ascend along the iteration. -/
def keysAscending (m : OrbAlmMap) : Prop :=
  m.Pairwise (fun a b => a.1 ≤ b.1)

/-- Every entry is stored under the `ctToe` of its own record. -/
def keyedByEpoch (m : OrbAlmMap) : Prop :=
  ∀ e ∈ m, e.1 = e.2.ctToe

/-- No record of the map has an epoch time before `tmin` or after `tmax`. -/
def epochsWithin (tmin tmax : CommonTime) (m : OrbAlmMap) : Prop :=
  ∀ e ∈ m, ¬ e.2.ctToe < tmin ∧ ¬ e.2.ctToe > tmax

/-- The relation `isSameData` is an equivalence relation on records. -/
def IsSameDataEquivalence (env : Collaborators) : Prop :=
  (∀ a, env.isSameData a a = true) ∧
  (∀ a b, env.isSameData a b = true → env.isSameData b a = true) ∧
  (∀ a b c, env.isSameData a b = true → env.isSameData b c = true → env.isSameData a c = true)

/-- No two entries of the map share a key and carry the same data. -/
def noSameDataTwice (env : Collaborators) (m : OrbAlmMap) : Prop :=
  m.Pairwise (fun a b =>
    a.1 = b.1 → env.isSameData a.2 b.2 = false ∧ env.isSameData b.2 a.2 = false)

/-- The keys of a `std::map` are distinct and ascend along the iteration. -/
def keysStrictlyAscending {V : Type} (m : List (SatID × V)) : Prop :=
  m.Pairwise (fun a b => a.1 < b.1)

/-- The entries of the map whose key lies in `[tmin, tmax]`, in the order of the map. -/
def keepWithin (tmin tmax : CommonTime) (m : OrbAlmMap) : OrbAlmMap :=
  m.filter (fun e => decide (tmin ≤ e.1 ∧ e.1 ≤ tmax))

/-- The discard case of `addOrbAlmToOrbAlmMap`: the first entry of the same epoch and the
same data has a `beginValid` not later than the one of the new record. -/
def isDiscarded (env : Collaborators) (alm : OrbAlm) (oem : OrbAlmMap) : Prop :=
  ∃ oe erased, firstSameData env alm oem = some (oe, erased) ∧ oe.beginValid ≤ alm.beginValid

/-- The number of records over all the sub-maps of one `std::map<SatID, OrbAlmMap>`. -/
def totalEntries (m : SubjectAlmMap) : Nat :=
  (m.map (fun i => i.2.length)).sum

/-- The number of records over all the sub-maps of the transmit index. -/
def totalXmitEntries (m : XmitAlmMap) : Nat :=
  (m.map (fun i => totalEntries i.2)).sum

/-- The map `em` holds, under the epoch of `r`, one of the `added` records that has the
epoch and the data of `r` and whose `beginValid` is the least among the `added` records
of that epoch and data. -/
def isEarliestKept (env : Collaborators) (added : List OrbAlm) (em : OrbAlmMap) (r : OrbAlm) :
    Prop :=
  ∃ e, (r.ctToe, e) ∈ em ∧ e ∈ added ∧ e.ctToe = r.ctToe ∧ env.isSameData e r = true ∧
    ∀ r' ∈ added, r'.ctToe = r.ctToe → env.isSameData r' r = true →
      e.beginValid ≤ r'.beginValid

/-- No two entries of the map have records of one epoch time that carry the same data. -/
def oneRecordPerEpochAndData (env : Collaborators) (m : OrbAlmMap) : Prop :=
  m.Pairwise (fun a b => a.2.ctToe = b.2.ctToe →
    env.isSameData a.2 b.2 = false ∧ env.isSameData b.2 a.2 = false)

/-- The record that the index reading of the scan names: with `k` the least index of an
entry whose `beginValid >= t`, the first entry when `k` is the first index, the entry just
before `k` otherwise, and the last entry when no entry has `beginValid >= t`. -/
def beforeFirstLate (t : CommonTime) (em : OrbAlmMap) : Option OrbAlm :=
  match em.findIdx? (fun e => decide (e.2.beginValid ≥ t)) with
  | none => em.getLast?.map Prod.snd
  | some 0 => em.head?.map Prod.snd
  | some (k + 1) => em[k]?.map Prod.snd

/-- Every entry of the subject index has, for the same subject and some transmitter, an
entry of the transmit index with its key and its data. -/
def subjectWithinXmit (env : Collaborators) (s : OrbAlmStore) : Prop :=
  ∀ k, ∀ e ∈ (mapFind k s.subjectAlmMap).getD [],
    ∃ x, ∃ e' ∈ (mapFind k ((mapFind x s.xmitAlmMap).getD [])).getD [],
      e'.1 = e.1 ∧ env.isSameData e.2 e'.2 = true

/-- The entries stored in the transmit index for subject `k`, over all transmitters. -/
def xmitEntriesOf (k : SatID) (m : XmitAlmMap) : OrbAlmMap :=
  (m.map (fun i => (mapFind k i.2).getD [])).flatten

/-! ## The string functions of `RC2.0/src/String.hpp`

A `std::string` is the list of its characters.  A `size_type` result that may be
`npos` is an `Option Nat`, `none` standing for `npos`.  `Ascii::isSpace`, whose code is in
a header outside the file, is the parameter `isSpace`. -/

/-- How a string function ends when it returns no value: `std::out_of_range` thrown by
`substr`, `append` or `erase` for a position past the end, the failed `poco_assert`, the
bound that the embedding puts on a loop (which the theorems show is never reached), or
`std::length_error` thrown by `resize` for a length above `max_size()`. -/
inductive StringFailure where
  | outOfRange
  | assertion
  | loopBound
  | lengthError
deriving DecidableEq, Repr

/-- The conversion `int(n)` of a `size_type` value to the 32-bit `int`. -/
def toInt (n : Nat) : Int :=
  if n % 2 ^ 32 < 2 ^ 31 then ((n % 2 ^ 32 : Nat) : Int) else ((n % 2 ^ 32 : Nat) : Int) - 2 ^ 32

/-- The result of an arithmetic operation on the 32-bit `int`, of which `i` is the exact
value: `i` itself when it is in the range of `int`, and its two's complement wrap-around,
which is what the machine computes, when it is not. -/
def wrapInt (i : Int) : Int :=
  (i + 2 ^ 31) % 2 ^ 32 - 2 ^ 31

/-- The conversion of an `int` to the 64-bit `size_type`. -/
def toSizeType (i : Int) : Nat :=
  (i % 2 ^ 64).toNat

/-- The first loop of `trim`: `while (first <= last && Ascii::isSpace(str[first])) ++first;`,
run for at most the given number of rounds; the value of `first` afterwards. -/
def trimFirstLoop (isSpace : Char → Bool) (str : List Char) (last : Int) : Nat → Int → Int
  | 0, first => first
  | fuel + 1, first =>
    if first ≤ last ∧ isSpace (str.getD (toSizeType first) ' ') = true then
      trimFirstLoop isSpace str last fuel (wrapInt (first + 1))
    else first

/-- The second loop of `trim`: `while (last >= first && Ascii::isSpace(str[last])) --last;`,
run for at most the given number of rounds; the value of `last` afterwards. -/
def trimLastLoop (isSpace : Char → Bool) (str : List Char) (first : Int) : Nat → Int → Int
  | 0, last => last
  | fuel + 1, last =>
    if last ≥ first ∧ isSpace (str.getD (toSizeType last) ' ') = true then
      trimLastLoop isSpace str first fuel (wrapInt (last - 1))
    else last

/-- The constructor call `S(str, pos, n)` for `pos <= str.size()`: at most `n` characters
of `str` from position `pos` on. -/
def substr (str : List Char) (pos n : Nat) : List Char :=
  (str.drop pos).take n

/-- The function `gpstk::trim(str)`.  Each loop is given `str.size() + 1` rounds; a loop
that needs more has read `str` outside its characters. -/
def trim (isSpace : Char → Bool) (str : List Char) : List Char :=
  let first : Int := 0
  let last : Int := wrapInt (toInt str.length - 1)
  let first := trimFirstLoop isSpace str last (str.length + 1) first
  let last := trimLastLoop isSpace str first (str.length + 1) last
  substr str (toSizeType first) (toSizeType (wrapInt (wrapInt (last - first) + 1)))

/-- The search of `from.find(c)` over the characters not yet visited, `pos` being the
position of the first of them. -/
def findCharFrom (c : Char) : List Char → Nat → Option Nat
  | [], _ => none
  | x :: rest, pos => if x = c then some pos else findCharFrom c rest (pos + 1)

/-- The call `s.find(c)` of `std::string`: the first position of `c` in `s`. -/
def findChar (s : List Char) (c : Char) : Option Nat :=
  findCharFrom c s 0

/-- The function `gpstk::translate(str, from, to)`. -/
def translate (str from' to' : List Char) : List Char :=
  str.foldl (fun result it =>
    match findChar from' it with
    | none => result ++ [it]
    | some pos => if h : pos < to'.length then result ++ [to'[pos]] else result) []

/-- The image of one character under `translate`, as its comment states it: the character
itself when it does not occur in `from`, the character of `to` at the first position
where it occurs in `from` when `to` has that position, and nothing otherwise. -/
def translateChar (from' to' : List Char) (c : Char) : List Char :=
  if c ∈ from' then
    if h : from'.indexOf c < to'.length then [to'[from'.indexOf c]] else []
  else [c]

/-- The search of `str.find(from, start)` over the positions not yet tried: the list is
`str` from position `pos` on. -/
def findSubFrom (from' : List Char) : List Char → Nat → Option Nat
  | [], pos => if from' = [] then some pos else none
  | c :: rest, pos =>
    if from'.isPrefixOf (c :: rest) = true then some pos
    else findSubFrom from' rest (pos + 1)

/-- The call `str.find(from, start)` of `std::string`: the first position at or after
`start` where `from` occurs in `str`. -/
def findSub (str from' : List Char) (start : Nat) : Option Nat :=
  if start ≤ str.length then findSubFrom from' (str.drop start) start else none

/-- The call `result.append(str, pos, n)` of `std::string`, which throws for a position
past the end of `str`. -/
def appendSub (result str : List Char) (pos n : Nat) : Except StringFailure (List Char) :=
  if pos > str.length then .error StringFailure.outOfRange
  else .ok (result ++ substr str pos n)

/-- The `do ... while (pos != S::npos)` loop of `replaceInPlace`, run for at most the given
number of rounds, on the variables `result` and `start`. -/
def replaceLoop (str from' to' : List Char) :
    Nat → List Char → Nat → Except StringFailure (List Char)
  | 0, _, _ => .error StringFailure.loopBound
  | fuel + 1, result, start =>
    match findSub str from' start with
    | some pos =>
      match appendSub result str start (pos - start) with
      | .error e => .error e
      | .ok result => replaceLoop str from' to' fuel (result ++ to') (pos + from'.length)
    | none => appendSub result str start (str.length - start)

/-- The function `gpstk::replaceInPlace(str, from, to, start)`: the value of `str`
afterwards.  The loop is given `str.size() + 1` rounds. -/
def replaceInPlace (str from' to' : List Char) (start : Nat) :
    Except StringFailure (List Char) :=
  if ¬ from'.length > 0 then .error StringFailure.assertion
  else
    match appendSub [] str 0 start with
    | .error e => .error e
    | .ok result => replaceLoop str from' to' (str.length + 1) result start

/-- The function `gpstk::replace(str, from, to, start)`. -/
def replace (str from' to' : List Char) (start : Nat) : Except StringFailure (List Char) :=
  let result := str
  replaceInPlace result from' to' start

/-- The text with every occurrence of `from`, found from left to right without overlap,
replaced by `to`, the inserted text not being scanned again.  The counter is the number of
characters of the occurrence just replaced that are still to be passed over. -/
def replaceOccurrences (from' to' : List Char) : List Char → Nat → List Char
  | [], _ => []
  | _ :: rest, skip + 1 => replaceOccurrences from' to' rest skip
  | c :: rest, 0 =>
    if from'.isPrefixOf (c :: rest) = true then
      to' ++ replaceOccurrences from' to' rest (from'.length - 1)
    else c :: replaceOccurrences from' to' rest 0

/-- The search of `find_first_not_of` over the characters not yet visited, `pos` being the
position of the first of them. -/
def firstNotOfFrom (theDelimiters : List Char) : List Char → Nat → Option Nat
  | [], _ => none
  | c :: rest, pos =>
    if c ∈ theDelimiters then firstNotOfFrom theDelimiters rest (pos + 1) else some pos

/-- The search of `find_first_of` over the characters not yet visited, `pos` being the
position of the first of them. -/
def firstOfFrom (theDelimiters : List Char) : List Char → Nat → Option Nat
  | [], _ => none
  | c :: rest, pos =>
    if c ∈ theDelimiters then some pos else firstOfFrom theDelimiters rest (pos + 1)

/-- The call `aStr.find_first_not_of(theDelimiters, pos)` of `std::string`; from `npos` it
finds nothing. -/
def find_first_not_of (aStr theDelimiters : List Char) (pos : Option Nat) : Option Nat :=
  match pos with
  | none => none
  | some p => firstNotOfFrom theDelimiters (aStr.drop p) p

/-- The call `aStr.find_first_of(theDelimiters, pos)` of `std::string`; from `npos` it
finds nothing. -/
def find_first_of (aStr theDelimiters : List Char) (pos : Option Nat) : Option Nat :=
  match pos with
  | none => none
  | some p => firstOfFrom theDelimiters (aStr.drop p) p

/-- The call `aStr.substr(lastPos, pos - lastPos)`: it throws for `lastPos` past the end,
and the length `pos - lastPos`, computed in `size_type`, reaches the end of the string
when `pos` is `npos` or lies before `lastPos`. -/
def substrBetween (aStr : List Char) (lastPos pos : Option Nat) :
    Except StringFailure (List Char) :=
  match lastPos with
  | none => .error StringFailure.outOfRange
  | some l =>
    if l > aStr.length then .error StringFailure.outOfRange
    else
      match pos with
      | none => .ok (aStr.drop l)
      | some p => if p < l then .ok (aStr.drop l) else .ok (substr aStr l (p - l))

/-- The `while` loop of `split`, run for at most the given number of rounds, on the
variables `lastPos`, `pos` and `toReturn`. -/
def splitLoop (isSpace : Char → Bool) (aStr theDelimiters : List Char)
    (trimWhitespace ignoreEmpty : Bool) :
    Nat → Option Nat → Option Nat → List (List Char) → Except StringFailure (List (List Char))
  | 0, lastPos, pos, toReturn =>
    if pos ≠ none ∨ lastPos ≠ none then .error StringFailure.loopBound else .ok toReturn
  | fuel + 1, lastPos, pos, toReturn =>
    if pos ≠ none ∨ lastPos ≠ none then
      match substrBetween aStr lastPos pos with
      | .error e => .error e
      | .ok token =>
        let token := if trimWhitespace then trim isSpace token else token
        let toReturn := if !token.isEmpty || !ignoreEmpty then toReturn ++ [token] else toReturn
        let lastPos := find_first_not_of aStr theDelimiters pos
        let pos := find_first_of aStr theDelimiters lastPos
        splitLoop isSpace aStr theDelimiters trimWhitespace ignoreEmpty fuel lastPos pos toReturn
    else .ok toReturn

/-- The function `gpstk::split(aStr, theDelimiters, trimWhitespace, ignoreEmpty)`.  The loop
is given `aStr.size() + 1` rounds. -/
def split (isSpace : Char → Bool) (aStr theDelimiters : List Char)
    (trimWhitespace ignoreEmpty : Bool) : Except StringFailure (List (List Char)) :=
  let toReturn : List (List Char) := []
  let lastPos := find_first_not_of aStr theDelimiters (some 0)
  let pos := find_first_of aStr theDelimiters lastPos
  splitLoop isSpace aStr theDelimiters trimWhitespace ignoreEmpty (aStr.length + 1) lastPos pos
    toReturn

/-- The maximal non-empty runs of consecutive characters of the string that are not
delimiters, in order: the string is cut at every delimiter and the empty pieces are
dropped. -/
def maximalRuns (theDelimiters : List Char) (aStr : List Char) : List (List Char) :=
  (aStr.splitOnP (fun c => decide (c ∈ theDelimiters))).filter (fun t => !t.isEmpty)

/-- The function `gpstk::cat(delim, begin, end)` on the strings of the range
`[begin, end)`. -/
def cat (delim : List Char) (xs : List (List Char)) : List Char :=
  xs.foldl (fun result it =>
    let result := if !result.isEmpty then result ++ delim else result
    result ++ it) []

/-- The loop of `trimLeft` and of `trimLeftInPlace`,
`while (it != end && Ascii::isSpace(*it)) ++it;`, over the characters from `it` to `end`;
an iterator is given as its distance from `begin()`, and the result is `it` afterwards. -/
def trimLeftLoop (isSpace : Char → Bool) : List Char → Nat → Nat
  | [], it => it
  | c :: rest, it => if isSpace c then trimLeftLoop isSpace rest (it + 1) else it

/-- The function `gpstk::trimLeft(str)`, which returns `S(it, end)`. -/
def trimLeft (isSpace : Char → Bool) (str : List Char) : List Char :=
  let it := trimLeftLoop isSpace str 0
  str.drop it

/-- The function `gpstk::trimLeftInPlace(str)`: the value of `str` after
`str.erase(str.begin(), it)`. -/
def trimLeftInPlace (isSpace : Char → Bool) (str : List Char) : List Char :=
  let it := trimLeftLoop isSpace str 0
  str.take 0 ++ str.drop it

/-- The loop of `trimRight` and of `trimRightInPlace`,
`while (pos >= 0 && Ascii::isSpace(str[pos])) --pos;`, run for at most the given number of
rounds; the value of `pos` afterwards. -/
def trimRightLoop (isSpace : Char → Bool) (str : List Char) : Nat → Int → Int
  | 0, pos => pos
  | fuel + 1, pos =>
    if pos ≥ 0 ∧ isSpace (str.getD (toSizeType pos) ' ') = true then
      trimRightLoop isSpace str fuel (wrapInt (pos - 1))
    else pos

/-- The function `gpstk::trimRight(str)`, which returns `S(str, 0, pos + 1)`.  The loop is
given `str.size() + 1` rounds, which it cannot use up: `pos` is below `str.size()` and
falls with every round. -/
def trimRight (isSpace : Char → Bool) (str : List Char) : List Char :=
  let pos : Int := wrapInt (toInt str.length - 1)
  let pos := trimRightLoop isSpace str (str.length + 1) pos
  substr str 0 (toSizeType (wrapInt (pos + 1)))

/-- The value taken for `std::string::max_size()`. -/
def maxSize : Nat := 2 ^ 63 - 1

/-- The call `str.resize(n)`: the first `n` characters of `str`, `str` filled up with null
characters when it is shorter, `std::length_error` when `n` is above `max_size()`. -/
def resize (str : List Char) (n : Nat) : Except StringFailure (List Char) :=
  if n ≤ str.length then .ok (str.take n)
  else if n > maxSize then .error StringFailure.lengthError
  else .ok (str ++ List.replicate (n - str.length) (Char.ofNat 0))

/-- The call `str.erase(pos, n)`: `str` without the `n` characters from position `pos` on
(without the rest when there are fewer), `std::out_of_range` when `pos` is past the end. -/
def erase (str : List Char) (pos n : Nat) : Except StringFailure (List Char) :=
  if pos > str.length then .error StringFailure.outOfRange
  else .ok (str.take pos ++ str.drop (pos + n))

/-- The function `gpstk::trimRightInPlace(str)`: the value of `str` after
`str.resize(pos + 1)`. -/
def trimRightInPlace (isSpace : Char → Bool) (str : List Char) :
    Except StringFailure (List Char) :=
  let pos : Int := wrapInt (toInt str.length - 1)
  let pos := trimRightLoop isSpace str (str.length + 1) pos
  resize str (toSizeType (wrapInt (pos + 1)))

/-- The function `gpstk::trimInPlace(str)`: the two loops of `trim`, then the value of
`str` after `str.resize(last + 1)` and `str.erase(0, first)`. -/
def trimInPlace (isSpace : Char → Bool) (str : List Char) : Except StringFailure (List Char) :=
  let first : Int := 0
  let last : Int := wrapInt (toInt str.length - 1)
  let first := trimFirstLoop isSpace str last (str.length + 1) first
  let last := trimLastLoop isSpace str first (str.length + 1) last
  match resize str (toSizeType (wrapInt (last + 1))) with
  | .error e => .error e
  | .ok str => erase str 0 (toSizeType first)

/-! ## Concrete stores and records -/

/-- A store whose subject 1 has three records, with `beginValid` 10, 20 and 30. -/
def storeThree : OrbAlmStore :=
  { subjectAlmMap := [(1, [(1, ⟨1, 10, true, 0⟩), (2, ⟨2, 20, true, 0⟩), (3, ⟨3, 30, true, 0⟩)])]
    xmitAlmMap := []
    initialTime := 0
    finalTime := 0 }


/-- One choice of the collaborators, for evaluating the store on concrete inputs:
two records carry the same data when their `params` agree, and `updateInitialFinal`
widens the span so that it contains the `beginValid` of the record. -/
def sameParams : Collaborators :=
  { isSameData := fun alm oe => alm.params == oe.params
    updateInitialFinal := fun alm span => (min span.1 alm.beginValid, max span.2 alm.beginValid) }

/-- A store whose subject 1 lost its only record (epoch 5) to `edit(10, 20)`. -/
def storePruned : OrbAlmStore :=
  edit 10 20 (addOrbAlm sameParams ⟨5, 5, true, 0⟩ 2 1 true (emptyStore 0 0)).2

/-- A store with records of epochs 1, 5 and 9 for subject 1, received from transmitter 2. -/
def storeSpan : OrbAlmStore :=
  { subjectAlmMap := [(1, [(1, ⟨1, 10, true, 0⟩), (5, ⟨5, 20, true, 0⟩), (9, ⟨9, 30, true, 0⟩)])]
    xmitAlmMap := [(2, [(1, [(1, ⟨1, 10, true, 0⟩), (5, ⟨5, 20, true, 0⟩), (9, ⟨9, 30, true, 0⟩)])])]
    initialTime := 0
    finalTime := 100 }

/-- The store after one healthy `addOrbAlm` of a record of epoch 5 with `beginValid` 20,
for subject 1 from transmitter 2. -/
def storeOneRecord : OrbAlmStore :=
  (addOrbAlm sameParams ⟨5, 20, true, 7⟩ 2 1 true (emptyStore 0 0)).2

/-- A sub-map with `n` records, of the epochs `0` to `n - 1`. -/
def mapOfEpochs (n : Nat) : OrbAlmMap :=
  (List.range n).map (fun i => (Int.ofNat i, OrbAlm.mk (Int.ofNat i) 0 true 0))

/-- A store whose subject 1 has `2 ^ 32` records. -/
def storeHuge : OrbAlmStore :=
  { subjectAlmMap := [(1, mapOfEpochs (2 ^ 32))]
    xmitAlmMap := []
    initialTime := 0
    finalTime := 0 }

/-- A store with `n` records for subject 1 in the subject index and the same `n` records,
received from transmitter 2, in the transmit index. -/
def storeBoth (n : Nat) : OrbAlmStore :=
  { subjectAlmMap := [(1, mapOfEpochs n)]
    xmitAlmMap := [(2, [(1, mapOfEpochs n)])]
    initialTime := 0
    finalTime := 0 }

/-- A store whose subject 1 has one unhealthy record. -/
def storeUnhealthy : OrbAlmStore :=
  { subjectAlmMap := [(1, [(3, ⟨3, 50, false, 9⟩)])]
    xmitAlmMap := []
    initialTime := 0
    finalTime := 0 }

/-- A copy of the record of epoch 5 and `params` 7 with the later `beginValid` 30. -/
def laterCopy : OrbAlm :=
  ⟨5, 30, true, 7⟩

/-- Three healthy calls for subject 1 from transmitter 2, with the epochs 1, 2, 3 and the
`beginValid` 10, 30, 20. -/
def callsOutOfOrder : List AddCall :=
  [⟨⟨1, 10, true, 0⟩, 2, 1, true⟩, ⟨⟨2, 30, true, 0⟩, 2, 1, true⟩, ⟨⟨3, 20, true, 0⟩, 2, 1, true⟩]

/-- Calls for subject 1 from transmitter 2 with the epochs 3, 1, 3, 2; the two records of
epoch 3 carry the same data and the second was received earlier. -/
def callsMixed : List AddCall :=
  [⟨⟨3, 30, true, 0⟩, 2, 1, true⟩, ⟨⟨1, 10, true, 0⟩, 2, 1, true⟩,
   ⟨⟨3, 25, true, 0⟩, 2, 1, true⟩, ⟨⟨2, 20, true, 0⟩, 2, 1, false⟩]

/-- Two healthy calls for subject 1 from transmitter 2 with records of epoch 5 whose data
differ. -/
def callsTwoData : List AddCall :=
  [⟨⟨5, 10, true, 7⟩, 2, 1, true⟩, ⟨⟨5, 10, true, 8⟩, 2, 1, true⟩]

/-- One choice of the whitespace predicate, for evaluating the string functions on
concrete inputs: the blank and the control characters 9 to 13. -/
def exampleSpace (c : Char) : Bool :=
  c == ' ' || (9 ≤ c.toNat && c.toNat ≤ 13)


/-- A store whose transmitter 2 sent two records for subject 1 (epochs 1 and 3, received
at 30 and 10) and one for subject 4 (epoch 2, received at 20). -/
def storeTwoSubjects : OrbAlmStore :=
  { subjectAlmMap := []
    xmitAlmMap := [(2, [(1, [(1, ⟨1, 30, true, 0⟩), (3, ⟨3, 10, true, 0⟩)]),
                        (4, [(2, ⟨2, 20, true, 1⟩)])])]
    initialTime := 0
    finalTime := 0 }

/-- Calls for subject 1 from transmitter 2 with the epochs `0` to `n - 1`, of which only
the first comes from a healthy transmitter. -/
def callsOneHealthy (n : Nat) : List AddCall :=
  (List.range n).map
    (fun i => AddCall.mk (OrbAlm.mk (Int.ofNat i) 0 true 0) 2 1 (decide (i = 0)))

/-- A store with the record of epoch 0 for subject 1 in the subject index and `n` records
for subject 1, received from transmitter 2, in the transmit index. -/
def storeOneHealthy (n : Nat) : OrbAlmStore :=
  { subjectAlmMap := [(1, mapOfEpochs 1)]
    xmitAlmMap := [(2, [(1, mapOfEpochs n)])]
    initialTime := 0
    finalTime := 0 }
/-! # Properties of the store -/

/-! ## Temporal lookup -/

theorem findOrbAlmLoop_later (t : CommonTime) (p : OrbAlm) (rest : OrbAlmMap)
    (hmono : rest.Pairwise (fun a b => a.2.beginValid ≤ b.2.beginValid)) :
    ∃ r, findOrbAlmLoop t rest false (some p) = some r ∧
      ((r = p ∧ ∀ e ∈ rest, ¬ e.2.beginValid < t) ∨
       (∃ pre k post, rest = pre ++ (k, r) :: post ∧ r.beginValid < t ∧
          ∀ e ∈ post, ¬ e.2.beginValid < t)) := by
  induction rest generalizing p with
  | nil => exact ⟨p, by simp [findOrbAlmLoop]⟩
  | cons e r ih =>
    rw [List.pairwise_cons] at hmono
    by_cases h : e.2.beginValid ≥ t
    · refine ⟨p, by simp [findOrbAlmLoop, h], Or.inl ⟨rfl, ?_⟩⟩
      intro a ha
      rcases List.mem_cons.1 ha with rfl | ha
      · exact not_lt.2 h
      · exact not_lt.2 (le_trans h (hmono.1 a ha))
    · obtain ⟨r', hr', hcase⟩ := ih e.2 hmono.2
      refine ⟨r', by simp only [findOrbAlmLoop, h, if_false, Bool.false_eq_true, hr'], Or.inr ?_⟩
      rcases hcase with ⟨rfl, hall⟩ | ⟨pre, k, post, hsplit, hlt, hall⟩
      · exact ⟨[], e.1, r, rfl, lt_of_not_ge h, hall⟩
      · exact ⟨e :: pre, k, post, by rw [hsplit]; rfl, hlt, hall⟩

/-- C1: when the sub-map of `subjID` is non-empty and `beginValid` does not decrease
along it, `findOrbAlm(subjID, t)` returns a record `r` that is the last entry of the
map with `beginValid < t` (every entry after it has `beginValid >= t`), or, when no
entry has `beginValid < t`, the first record of the map. -/
theorem findOrbAlm_monotonic_boundary (s : OrbAlmStore) (subjID : SatID) (t : CommonTime)
    (em : OrbAlmMap) (hfind : mapFind subjID s.subjectAlmMap = some em) (hne : em ≠ [])
    (hmono : em.Pairwise (fun a b => a.2.beginValid ≤ b.2.beginValid)) :
    ∃ r, findOrbAlm s subjID t = .ok r ∧
      ((∃ pre k post, em = pre ++ (k, r) :: post ∧ r.beginValid < t ∧
          ∀ e ∈ post, ¬ e.2.beginValid < t) ∨
       ((∀ e ∈ em, ¬ e.2.beginValid < t) ∧ em.head?.map Prod.snd = some r)) := by
  cases em with
  | nil => exact absurd rfl hne
  | cons e rest =>
    cases rest with
    | nil =>
      refine ⟨e.2, by simp [findOrbAlm, hfind], ?_⟩
      by_cases h : e.2.beginValid < t
      · exact Or.inl ⟨[], e.1, [], rfl, h, by simp⟩
      · exact Or.inr ⟨by simpa using h, rfl⟩
    | cons e2 rest =>
      rw [List.pairwise_cons] at hmono
      by_cases h : e.2.beginValid ≥ t
      · refine ⟨e.2, by simp [findOrbAlm, hfind, findOrbAlmLoop, h], Or.inr ⟨?_, rfl⟩⟩
        intro a ha
        rcases List.mem_cons.1 ha with rfl | ha
        · exact not_lt.2 h
        · exact not_lt.2 (le_trans h (hmono.1 a ha))
      · obtain ⟨r, hr, hcase⟩ := findOrbAlmLoop_later t e.2 (e2 :: rest) hmono.2
        refine ⟨r, ?_, Or.inl ?_⟩
        · have hl : findOrbAlmLoop t (e :: e2 :: rest) true none =
              findOrbAlmLoop t (e2 :: rest) false (some e.2) := by
            rw [findOrbAlmLoop]; simp [h]
          simp only [findOrbAlm, hfind, hl, hr]
        · rcases hcase with ⟨rfl, hall⟩ | ⟨pre, k, post, hsplit, hlt, hall⟩
          · exact ⟨[], e.1, e2 :: rest, rfl, lt_of_not_ge h, hall⟩
          · exact ⟨e :: pre, k, post, by rw [hsplit]; rfl, hlt, hall⟩

/-- Witness of C1: on the records with `beginValid` 10, 20, 30 the lookup gives the
`beginValid = 10` record for `t = 15`, `t = 20` and `t = 5`, and the `beginValid = 30`
record for `t = 100`. -/
theorem findOrbAlm_monotonic_boundary_witness :
    (∃ r, findOrbAlm storeThree 1 15 = .ok r ∧
      ((∃ pre k post, [((1 : CommonTime), (⟨1, 10, true, 0⟩ : OrbAlm)), (2, ⟨2, 20, true, 0⟩),
            (3, ⟨3, 30, true, 0⟩)] = pre ++ (k, r) :: post ∧ r.beginValid < 15 ∧
          ∀ e ∈ post, ¬ e.2.beginValid < 15) ∨
       ((∀ e ∈ [((1 : CommonTime), (⟨1, 10, true, 0⟩ : OrbAlm)), (2, ⟨2, 20, true, 0⟩),
            (3, ⟨3, 30, true, 0⟩)], ¬ e.2.beginValid < 15) ∧
        ([((1 : CommonTime), (⟨1, 10, true, 0⟩ : OrbAlm)), (2, ⟨2, 20, true, 0⟩),
            (3, ⟨3, 30, true, 0⟩)].head?.map Prod.snd = some r)))) ∧
    findOrbAlm storeThree 1 15 = .ok ⟨1, 10, true, 0⟩ ∧
    findOrbAlm storeThree 1 20 = .ok ⟨1, 10, true, 0⟩ ∧
    findOrbAlm storeThree 1 5 = .ok ⟨1, 10, true, 0⟩ ∧
    findOrbAlm storeThree 1 100 = .ok ⟨3, 30, true, 0⟩ :=
  ⟨findOrbAlm_monotonic_boundary storeThree 1 15 _ rfl (by simp) (by simp),
   rfl, rfl, rfl, rfl⟩

/-- C2: when the sub-map of `subjID` holds exactly one record, `findOrbAlm(subjID, t)`
returns that record for every `t`, whatever its `beginValid`. -/
theorem findOrbAlm_single_entry (s : OrbAlmStore) (subjID : SatID) (k : CommonTime)
    (r : OrbAlm) (t : CommonTime) (hfind : mapFind subjID s.subjectAlmMap = some [(k, r)]) :
    findOrbAlm s subjID t = .ok r := by
  simp [findOrbAlm, hfind]

/-- Witness of C2: a single record with `beginValid = 50` is returned for `t = 7`. -/
theorem findOrbAlm_single_entry_witness :
    (7 : CommonTime) < (⟨3, 50, false, 9⟩ : OrbAlm).beginValid ∧
    findOrbAlm ⟨[(4, [(3, ⟨3, 50, false, 9⟩)])], [], 0, 0⟩ 4 7 = .ok ⟨3, 50, false, 9⟩ :=
  ⟨by decide, findOrbAlm_single_entry ⟨[(4, [(3, ⟨3, 50, false, 9⟩)])], [], 0, 0⟩ 4 3 _ 7 rfl⟩

theorem mapFind_eq_none {V : Type} (k : SatID) (m : List (SatID × V))
    (hkey : k ∉ m.map Prod.fst) : mapFind k m = none := by
  induction m with
  | nil => rfl
  | cons e rest ih =>
    simp only [List.map_cons, List.mem_cons, not_or] at hkey
    simp only [mapFind, hkey.1, if_false, ih hkey.2, ite_self]

/-- C3: for a satellite that is not a key of the subject index, `findOrbAlm(subjID, t)`
throws `InvalidRequest` for every `t`; no record is returned. -/
theorem findOrbAlm_unknown_satellite (s : OrbAlmStore) (subjID : SatID) (t : CommonTime)
    (hkey : subjID ∉ s.subjectAlmMap.map Prod.fst) :
    findOrbAlm s subjID t = .error Failure.InvalidRequest := by
  simp [findOrbAlm, mapFind_eq_none subjID s.subjectAlmMap hkey]

/-- Witness of C3: satellite 2 is unknown to a store that only holds satellite 1. -/
theorem findOrbAlm_unknown_satellite_witness :
    2 ∉ storeThree.subjectAlmMap.map Prod.fst ∧
    findOrbAlm storeThree 2 15 = .error Failure.InvalidRequest :=
  ⟨by decide, findOrbAlm_unknown_satellite storeThree 2 15 (by decide)⟩

/-- C4, at the failing input: after `edit` has pruned the only record of subject 1 the
key remains with an empty sub-map, and `findOrbAlm` does not throw `InvalidRequest`
there: it runs to `return previt->second` with `previt` never assigned. -/
theorem findOrbAlm_empty_submap_no_throw :
    storePruned.subjectAlmMap = [(1, [])] ∧
    findOrbAlm storePruned 1 15 = .error Failure.uninitialisedIterator ∧
    findOrbAlm storePruned 1 15 ≠ .error Failure.InvalidRequest := by
  refine ⟨by decide, rfl, ?_⟩
  intro h
  have h2 : findOrbAlm storePruned 1 15 = .error Failure.uninitialisedIterator := rfl
  rw [h2] at h
  cases h

/-! ## The ordered-map primitives -/

theorem mapFind_mapSet_self {V : Type} (k : SatID) (v : V) (m : List (SatID × V)) :
    mapFind k (mapSet k v m) = some v := by
  induction m with
  | nil => simp [mapSet, mapFind]
  | cons e rest ih =>
    by_cases h1 : k < e.1
    · simp [mapSet, mapFind, h1]
    · by_cases h2 : k = e.1
      · simp [mapSet, mapFind, h1, h2]
      · simp [mapSet, mapFind, h1, h2, ih]

theorem mapFind_mapSet_ne {V : Type} (k k' : SatID) (v : V) (m : List (SatID × V))
    (hne : k' ≠ k) : mapFind k' (mapSet k v m) = mapFind k' m := by
  induction m with
  | nil =>
    rcases Nat.lt_or_gt_of_ne hne with h | h
    · simp [mapSet, mapFind, h]
    · simp [mapSet, mapFind, hne, Nat.lt_asymm h]
  | cons e rest ih =>
    by_cases h1 : k < e.1
    · simp only [mapSet, h1, if_true]
      rcases Nat.lt_or_gt_of_ne hne with h | h
      · simp [mapFind, h, Nat.lt_trans h h1]
      · rw [mapFind]; simp [hne, Nat.lt_asymm h]
    · by_cases h2 : k = e.1
      · have hne2 : k' ≠ e.1 := h2 ▸ hne
        have hs : mapSet k v (e :: rest) = (k, v) :: rest := by
          rw [mapSet, if_neg h1, if_pos h2]
        rw [hs, mapFind, mapFind, h2]
        simp only [hne2, if_false]
      · simp only [mapSet, h1, h2, if_false]
        rw [mapFind, mapFind, ih]

theorem mapSet_eq_self {V : Type} (k : SatID) (v : V) (m : List (SatID × V))
    (hfind : mapFind k m = some v) : mapSet k v m = m := by
  induction m with
  | nil => simp [mapFind] at hfind
  | cons e rest ih =>
    by_cases h1 : k < e.1
    · simp [mapFind, h1] at hfind
    · by_cases h2 : k = e.1
      · rw [mapFind, if_neg h1, if_pos h2] at hfind
        rw [mapSet, if_neg h1, if_pos h2, h2, ← Option.some.inj hfind]
      · simp only [mapFind, h1, h2, if_false] at hfind
        simp only [mapSet, h1, h2, if_false, ih hfind]

theorem mapFind_of_mapSet_eq {V : Type} (k : SatID) (v d : V) (m : List (SatID × V))
    (h : mapSet k v m = m) : (mapFind k m).getD d = v := by
  have hf := mapFind_mapSet_self k v m
  rw [h] at hf
  rw [hf]
  rfl

theorem mem_mapSet {V : Type} (k : SatID) (v : V) (m : List (SatID × V)) (e : SatID × V)
    (he : e ∈ mapSet k v m) : e = (k, v) ∨ e ∈ m := by
  induction m with
  | nil => simpa [mapSet] using he
  | cons a rest ih =>
    by_cases h1 : k < a.1
    · simpa [mapSet, h1] using he
    · by_cases h2 : k = a.1
      · rw [mapSet, if_neg h1, if_pos h2, List.mem_cons] at he
        rcases he with he | he
        · exact Or.inl he
        · exact Or.inr (List.mem_cons_of_mem _ he)
      · simp only [mapSet, h1, h2, if_false, List.mem_cons] at he
        rcases he with he | he
        · exact Or.inr (by rw [he]; exact List.mem_cons_self _ _)
        · rcases ih he with h | h
          · exact Or.inl h
          · exact Or.inr (List.mem_cons_of_mem _ h)

theorem multimapInsert_perm (k : CommonTime) (v : OrbAlm) (m : OrbAlmMap) :
    (multimapInsert k v m).Perm ((k, v) :: m) := by
  induction m with
  | nil => exact List.Perm.refl _
  | cons e rest ih =>
    by_cases h : e.1 ≤ k
    · simp only [multimapInsert, h, if_true]
      exact (List.Perm.cons e ih).trans (List.Perm.swap _ _ _)
    · simp only [multimapInsert, h, if_false]
      exact List.Perm.refl _

/-! ## The deduplicating insertion -/

theorem firstSameData_none (env : Collaborators) (alm : OrbAlm) (oem : OrbAlmMap)
    (h : firstSameData env alm oem = none) :
    ∀ e ∈ oem, ¬ (e.1 = alm.ctToe ∧ env.isSameData alm e.2 = true) := by
  induction oem with
  | nil => simp
  | cons it rest ih =>
    by_cases hm : it.1 = alm.ctToe ∧ env.isSameData alm it.2 = true
    · simp [firstSameData, hm] at h
    · rw [firstSameData, if_neg hm] at h
      cases hr : firstSameData env alm rest with
      | some p => rw [hr] at h; cases h
      | none =>
        intro e he
        rcases List.mem_cons.1 he with rfl | he
        · exact hm
        · exact ih hr e he

theorem firstSameData_some (env : Collaborators) (alm : OrbAlm) (oem : OrbAlmMap)
    (oe : OrbAlm) (erased : OrbAlmMap) (h : firstSameData env alm oem = some (oe, erased)) :
    env.isSameData alm oe = true ∧
    ∃ pre post, oem = pre ++ (alm.ctToe, oe) :: post ∧ erased = pre ++ post ∧
      ∀ e ∈ pre, ¬ (e.1 = alm.ctToe ∧ env.isSameData alm e.2 = true) := by
  induction oem generalizing erased with
  | nil => simp [firstSameData] at h
  | cons it rest ih =>
    by_cases hm : it.1 = alm.ctToe ∧ env.isSameData alm it.2 = true
    · rw [firstSameData, if_pos hm] at h
      have h2 := Option.some.inj h
      have ho : it.2 = oe := congrArg Prod.fst h2
      have he : rest = erased := congrArg Prod.snd h2
      refine ⟨ho ▸ hm.2, [], rest, ?_, he.symm, by simp⟩
      rw [← ho, ← hm.1]
      rfl
    · rw [firstSameData, if_neg hm] at h
      cases hr : firstSameData env alm rest with
      | none => rw [hr] at h; cases h
      | some p =>
        rw [hr] at h
        have h2 := Option.some.inj h
        have ho : p.1 = oe := congrArg Prod.fst h2
        have he : it :: p.2 = erased := congrArg Prod.snd h2
        obtain ⟨hs, pre, post, hsplit, her, hpre⟩ := ih p.2 (by rw [hr, ← ho])
        refine ⟨hs, it :: pre, post, by rw [hsplit]; rfl, by rw [← he, her]; rfl, ?_⟩
        intro e hmem
        rcases List.mem_cons.1 hmem with rfl | hmem
        · exact hm
        · exact hpre e hmem

theorem firstSameData_perm (env : Collaborators) (alm : OrbAlm) (oem : OrbAlmMap)
    (oe : OrbAlm) (erased : OrbAlmMap) (h : firstSameData env alm oem = some (oe, erased)) :
    oem.Perm ((alm.ctToe, oe) :: erased) := by
  obtain ⟨_, pre, post, hsplit, her, _⟩ := firstSameData_some env alm oem oe erased h
  rw [hsplit, her]
  exact List.perm_middle

/-- The three ways `addOrbAlmToOrbAlmMap` ends: the record is discarded, it replaces the
matching candidate, or it is inserted as an additional entry. -/
theorem addOrbAlmToOrbAlmMap_cases (env : Collaborators) (alm : OrbAlm) (oem : OrbAlmMap)
    (span : CommonTime × CommonTime) :
    (∃ oe erased, firstSameData env alm oem = some (oe, erased) ∧
        oe.beginValid ≤ alm.beginValid ∧
        addOrbAlmToOrbAlmMap env alm oem span = (false, oem, span)) ∨
    (∃ oe erased, firstSameData env alm oem = some (oe, erased) ∧
        alm.beginValid < oe.beginValid ∧
        addOrbAlmToOrbAlmMap env alm oem span =
          (true, multimapInsert alm.ctToe alm erased, env.updateInitialFinal alm span)) ∨
    (firstSameData env alm oem = none ∧
        addOrbAlmToOrbAlmMap env alm oem span = (true, multimapInsert alm.ctToe alm oem, span)) := by
  cases hf : firstSameData env alm oem with
  | none => exact Or.inr (Or.inr ⟨rfl, by simp [addOrbAlmToOrbAlmMap, hf]⟩)
  | some p =>
    by_cases hb : p.1.beginValid ≤ alm.beginValid
    · exact Or.inl ⟨p.1, p.2, rfl, hb, by simp [addOrbAlmToOrbAlmMap, hf, hb]⟩
    · exact Or.inr (Or.inl ⟨p.1, p.2, rfl, lt_of_not_ge hb, by simp [addOrbAlmToOrbAlmMap, hf, hb]⟩)

theorem addOrbAlmToOrbAlmMap_false (env : Collaborators) (alm : OrbAlm) (oem : OrbAlmMap)
    (span : CommonTime × CommonTime) (h : (addOrbAlmToOrbAlmMap env alm oem span).1 = false) :
    addOrbAlmToOrbAlmMap env alm oem span = (false, oem, span) ∧ oem ≠ [] := by
  rcases addOrbAlmToOrbAlmMap_cases env alm oem span with
    ⟨oe, er, hf, _, hr⟩ | ⟨oe, er, _, _, hr⟩ | ⟨_, hr⟩
  · refine ⟨hr, ?_⟩
    rintro rfl
    simp [firstSameData] at hf
  · rw [hr] at h; cases h
  · rw [hr] at h; cases h

theorem addOrbAlmToOrbAlmMap_true (env : Collaborators) (alm : OrbAlm) (oem : OrbAlmMap)
    (span : CommonTime × CommonTime) (h : (addOrbAlmToOrbAlmMap env alm oem span).1 = true) :
    (addOrbAlmToOrbAlmMap env alm oem span).2.1 ≠ oem := by
  rcases addOrbAlmToOrbAlmMap_cases env alm oem span with
    ⟨oe, er, _, _, hr⟩ | ⟨oe, er, hf, hlt, hr⟩ | ⟨_, hr⟩
  · rw [hr] at h; cases h
  · rw [hr]
    intro heq
    have hp1 : ((alm.ctToe, alm) :: er).Perm ((alm.ctToe, oe) :: er) :=
      ((multimapInsert_perm alm.ctToe alm er).symm.trans (heq ▸ List.Perm.refl _)).trans
        (firstSameData_perm env alm oem oe er hf)
    have hc := (hp1.map (fun e => e.2.beginValid)).sum_eq
    simp only [List.map_cons, List.sum_cons, add_left_inj] at hc
    rw [hc] at hlt
    exact lt_irrefl _ hlt
  · rw [hr]
    intro heq
    have hl := (multimapInsert_perm alm.ctToe alm oem).length_eq
    have heq2 : multimapInsert alm.ctToe alm oem = oem := heq
    rw [heq2] at hl
    simp at hl

/-- The map that `addOrbAlmToOrbAlmMap` leaves and the flag it returns do not depend on
the time span it is given. -/
theorem addOrbAlmToOrbAlmMap_span (env : Collaborators) (alm : OrbAlm) (oem : OrbAlmMap)
    (span span' : CommonTime × CommonTime) :
    (addOrbAlmToOrbAlmMap env alm oem span).1 = (addOrbAlmToOrbAlmMap env alm oem span').1 ∧
    (addOrbAlmToOrbAlmMap env alm oem span).2.1 = (addOrbAlmToOrbAlmMap env alm oem span').2.1 := by
  cases hf : firstSameData env alm oem with
  | none => simp [addOrbAlmToOrbAlmMap, hf]
  | some p =>
    by_cases hb : p.1.beginValid ≤ alm.beginValid
    · simp [addOrbAlmToOrbAlmMap, hf, hb]
    · simp [addOrbAlmToOrbAlmMap, hf, hb]

/-! ## `addOrbAlm` on the two indexes -/

theorem addOrbAlmSubject_xmit (env : Collaborators) (alm : OrbAlm) (subjID : SatID)
    (isXmitHealthy : Bool) (s : OrbAlmStore) :
    (addOrbAlmSubject env alm subjID isXmitHealthy s).2.xmitAlmMap = s.xmitAlmMap := by
  cases isXmitHealthy <;> rfl

theorem addOrbAlmXmit_subject (env : Collaborators) (alm : OrbAlm) (xmitID subjID : SatID)
    (s : OrbAlmStore) :
    (addOrbAlmXmit env alm xmitID subjID s).2.subjectAlmMap = s.subjectAlmMap := rfl

theorem addOrbAlmSubject_false (env : Collaborators) (alm : OrbAlm) (subjID : SatID)
    (isXmitHealthy : Bool) (s : OrbAlmStore)
    (h : (addOrbAlmSubject env alm subjID isXmitHealthy s).1 = false) :
    (addOrbAlmSubject env alm subjID isXmitHealthy s).2 = s := by
  cases isXmitHealthy with
  | false => rfl
  | true =>
    have h1 : (addOrbAlmToOrbAlmMap env alm ((mapFind subjID s.subjectAlmMap).getD [])
        (s.initialTime, s.finalTime)).1 = false := h
    obtain ⟨hr, hne⟩ := addOrbAlmToOrbAlmMap_false env alm _ _ h1
    cases hfind : mapFind subjID s.subjectAlmMap with
    | none => rw [hfind] at hne; exact absurd rfl hne
    | some oem =>
      rw [hfind] at hr
      simp only [Option.getD_some] at hr
      simp only [addOrbAlmSubject, if_true, hfind, Option.getD_some, hr,
        mapSet_eq_self subjID oem s.subjectAlmMap hfind]

theorem addOrbAlmSubject_true (env : Collaborators) (alm : OrbAlm) (subjID : SatID)
    (isXmitHealthy : Bool) (s : OrbAlmStore)
    (h : (addOrbAlmSubject env alm subjID isXmitHealthy s).1 = true) :
    (addOrbAlmSubject env alm subjID isXmitHealthy s).2.subjectAlmMap ≠ s.subjectAlmMap := by
  cases isXmitHealthy with
  | false => cases h
  | true =>
    have h1 : (addOrbAlmToOrbAlmMap env alm ((mapFind subjID s.subjectAlmMap).getD [])
        (s.initialTime, s.finalTime)).1 = true := h
    have hne := addOrbAlmToOrbAlmMap_true env alm _ _ h1
    intro heq
    exact hne (mapFind_of_mapSet_eq subjID _ [] s.subjectAlmMap heq).symm

theorem addOrbAlmXmit_false (env : Collaborators) (alm : OrbAlm) (xmitID subjID : SatID)
    (s : OrbAlmStore) (h : (addOrbAlmXmit env alm xmitID subjID s).1 = false) :
    (addOrbAlmXmit env alm xmitID subjID s).2 = s := by
  have h1 : (addOrbAlmToOrbAlmMap env alm
      ((mapFind subjID ((mapFind xmitID s.xmitAlmMap).getD [])).getD [])
      (s.initialTime, s.finalTime)).1 = false := h
  obtain ⟨hr, hne⟩ := addOrbAlmToOrbAlmMap_false env alm _ _ h1
  cases hx : mapFind xmitID s.xmitAlmMap with
  | none => rw [hx] at hne; exact absurd rfl hne
  | some uam =>
    rw [hx] at hr hne
    cases hfind : mapFind subjID uam with
    | none => simp [hfind] at hne
    | some oemX =>
      simp only [Option.getD_some, hfind] at hr
      simp only [addOrbAlmXmit, hx, Option.getD_some, hfind, hr,
        mapSet_eq_self subjID oemX uam hfind, mapSet_eq_self xmitID uam s.xmitAlmMap hx]

theorem addOrbAlmXmit_true (env : Collaborators) (alm : OrbAlm) (xmitID subjID : SatID)
    (s : OrbAlmStore) (h : (addOrbAlmXmit env alm xmitID subjID s).1 = true) :
    (addOrbAlmXmit env alm xmitID subjID s).2.xmitAlmMap ≠ s.xmitAlmMap := by
  have h1 : (addOrbAlmToOrbAlmMap env alm
      ((mapFind subjID ((mapFind xmitID s.xmitAlmMap).getD [])).getD [])
      (s.initialTime, s.finalTime)).1 = true := h
  have hne := addOrbAlmToOrbAlmMap_true env alm _ _ h1
  intro heq
  have hu := mapFind_of_mapSet_eq xmitID _ [] s.xmitAlmMap heq
  exact hne (mapFind_of_mapSet_eq subjID _ [] _ hu.symm).symm

/-- C8: `addOrbAlm` returns true exactly when the subject index or the transmit index
after the call differs from the one before it; when it returns false both indexes,
their satellite keys included, are as before. -/
theorem addOrbAlm_true_iff_changed (env : Collaborators) (alm : OrbAlm)
    (xmitID subjID : SatID) (isXmitHealthy : Bool) (s : OrbAlmStore) :
    ((addOrbAlm env alm xmitID subjID isXmitHealthy s).1 = true ↔
      ((addOrbAlm env alm xmitID subjID isXmitHealthy s).2.subjectAlmMap ≠ s.subjectAlmMap ∨
       (addOrbAlm env alm xmitID subjID isXmitHealthy s).2.xmitAlmMap ≠ s.xmitAlmMap)) ∧
    ((addOrbAlm env alm xmitID subjID isXmitHealthy s).1 = false →
      (addOrbAlm env alm xmitID subjID isXmitHealthy s).2.subjectAlmMap = s.subjectAlmMap ∧
      (addOrbAlm env alm xmitID subjID isXmitHealthy s).2.xmitAlmMap = s.xmitAlmMap) := by
  have hfalse : (addOrbAlm env alm xmitID subjID isXmitHealthy s).1 = false →
      (addOrbAlm env alm xmitID subjID isXmitHealthy s).2 = s := by
    intro h
    have h' : ((addOrbAlmSubject env alm subjID isXmitHealthy s).1 ||
        (addOrbAlmXmit env alm xmitID subjID
          (addOrbAlmSubject env alm subjID isXmitHealthy s).2).1) = false := h
    rw [Bool.or_eq_false_iff] at h'
    have e1 := addOrbAlmSubject_false env alm subjID isXmitHealthy s h'.1
    have e2 := addOrbAlmXmit_false env alm xmitID subjID _ h'.2
    show (addOrbAlmXmit env alm xmitID subjID
      (addOrbAlmSubject env alm subjID isXmitHealthy s).2).2 = s
    rw [e2, e1]
  refine ⟨⟨?_, ?_⟩, fun h => by rw [hfalse h]; exact ⟨rfl, rfl⟩⟩
  · intro h
    have h' : ((addOrbAlmSubject env alm subjID isXmitHealthy s).1 ||
        (addOrbAlmXmit env alm xmitID subjID
          (addOrbAlmSubject env alm subjID isXmitHealthy s).2).1) = true := h
    rw [Bool.or_eq_true] at h'
    rcases h' with h1 | h2
    · left
      show (addOrbAlmXmit env alm xmitID subjID
        (addOrbAlmSubject env alm subjID isXmitHealthy s).2).2.subjectAlmMap ≠ _
      rw [addOrbAlmXmit_subject]
      exact addOrbAlmSubject_true env alm subjID isXmitHealthy s h1
    · right
      have := addOrbAlmXmit_true env alm xmitID subjID _ h2
      rw [addOrbAlmSubject_xmit] at this
      exact this
  · intro h
    by_contra hn
    have hf : (addOrbAlm env alm xmitID subjID isXmitHealthy s).1 = false := by
      simpa using hn
    rw [hfalse hf] at h
    rcases h with h | h <;> exact h rfl

/-- C9: `addOrbAlm` runs the deduplicating insertion on `xmitAlmMap[xmitID][subjID]`
whatever `isXmitHealthy` is, and on `subjectAlmMap[subjID]` only when `isXmitHealthy`
is true; when it is false the whole subject index is unchanged; and the lookup of every
other subject, every other transmitter, and every other subject under `xmitID` gives
what it gave before the call. -/
theorem addOrbAlm_health_gated (env : Collaborators) (alm : OrbAlm)
    (xmitID subjID : SatID) (isXmitHealthy : Bool) (s : OrbAlmStore) :
    (∀ span, (mapFind xmitID (addOrbAlm env alm xmitID subjID isXmitHealthy s).2.xmitAlmMap).bind
        (mapFind subjID) =
      some (addOrbAlmToOrbAlmMap env alm
        ((mapFind subjID ((mapFind xmitID s.xmitAlmMap).getD [])).getD []) span).2.1) ∧
    (isXmitHealthy = true →
      ∀ span, mapFind subjID (addOrbAlm env alm xmitID subjID isXmitHealthy s).2.subjectAlmMap =
        some (addOrbAlmToOrbAlmMap env alm ((mapFind subjID s.subjectAlmMap).getD []) span).2.1) ∧
    (isXmitHealthy = false →
      (addOrbAlm env alm xmitID subjID isXmitHealthy s).2.subjectAlmMap = s.subjectAlmMap) ∧
    (∀ k, k ≠ subjID →
      mapFind k (addOrbAlm env alm xmitID subjID isXmitHealthy s).2.subjectAlmMap =
        mapFind k s.subjectAlmMap) ∧
    (∀ x, x ≠ xmitID →
      mapFind x (addOrbAlm env alm xmitID subjID isXmitHealthy s).2.xmitAlmMap =
        mapFind x s.xmitAlmMap) ∧
    (∀ k, k ≠ subjID →
      (mapFind xmitID (addOrbAlm env alm xmitID subjID isXmitHealthy s).2.xmitAlmMap).bind
          (mapFind k) =
        (mapFind xmitID s.xmitAlmMap).bind (mapFind k)) := by
  have hx : (addOrbAlm env alm xmitID subjID isXmitHealthy s).2.xmitAlmMap =
      mapSet xmitID (mapSet subjID (addOrbAlmToOrbAlmMap env alm
        ((mapFind subjID ((mapFind xmitID s.xmitAlmMap).getD [])).getD [])
        ((addOrbAlmSubject env alm subjID isXmitHealthy s).2.initialTime,
         (addOrbAlmSubject env alm subjID isXmitHealthy s).2.finalTime)).2.1
        ((mapFind xmitID s.xmitAlmMap).getD [])) s.xmitAlmMap := by
    show (addOrbAlmXmit env alm xmitID subjID
      (addOrbAlmSubject env alm subjID isXmitHealthy s).2).2.xmitAlmMap = _
    simp only [addOrbAlmXmit, addOrbAlmSubject_xmit]
  have hs : (addOrbAlm env alm xmitID subjID isXmitHealthy s).2.subjectAlmMap =
      (addOrbAlmSubject env alm subjID isXmitHealthy s).2.subjectAlmMap := rfl
  refine ⟨?_, ?_, ?_, ?_, ?_, ?_⟩
  · intro span
    rw [hx, mapFind_mapSet_self, Option.some_bind, mapFind_mapSet_self,
      (addOrbAlmToOrbAlmMap_span env alm _ _ span).2]
  · intro hh span
    subst hh
    rw [hs]
    show mapFind subjID (mapSet subjID _ s.subjectAlmMap) = _
    rw [mapFind_mapSet_self, (addOrbAlmToOrbAlmMap_span env alm _ _ span).2]
  · intro hh
    subst hh
    rfl
  · intro k hk
    rw [hs]
    cases isXmitHealthy with
    | false => rfl
    | true => exact mapFind_mapSet_ne subjID k _ s.subjectAlmMap hk
  · intro x hxne
    rw [hx, mapFind_mapSet_ne xmitID x _ s.xmitAlmMap hxne]
  · intro k hk
    rw [hx, mapFind_mapSet_self, Option.some_bind, mapFind_mapSet_ne subjID k _ _ hk]
    cases mapFind xmitID s.xmitAlmMap with
    | none => rfl
    | some uam => rfl

/-- C6: two records `a`, `b` of one epoch that carry the same data, `a` with the earlier
`beginValid`, added to an empty store for the same transmitter and subject with a healthy
transmitter.  In the order `b`, `a` the second `addOrbAlm` returns true, in the order
`a`, `b` it returns false, and in both orders the subject sub-map ends as the single
entry `a`, whose `beginValid` is the earlier one. -/
theorem addOrbAlm_earliest_wins (env : Collaborators) (a b : OrbAlm) (xmitID subjID : SatID)
    (initialTime finalTime : CommonTime) (hepoch : a.ctToe = b.ctToe)
    (hab : env.isSameData a b = true) (hba : env.isSameData b a = true)
    (hlt : a.beginValid < b.beginValid) :
    ((addOrbAlm env a xmitID subjID true
        (addOrbAlm env b xmitID subjID true (emptyStore initialTime finalTime)).2).1 = true ∧
     mapFind subjID (addOrbAlm env a xmitID subjID true
        (addOrbAlm env b xmitID subjID true (emptyStore initialTime finalTime)).2).2.subjectAlmMap
        = some [(a.ctToe, a)]) ∧
    ((addOrbAlm env b xmitID subjID true
        (addOrbAlm env a xmitID subjID true (emptyStore initialTime finalTime)).2).1 = false ∧
     mapFind subjID (addOrbAlm env b xmitID subjID true
        (addOrbAlm env a xmitID subjID true (emptyStore initialTime finalTime)).2).2.subjectAlmMap
        = some [(a.ctToe, a)]) := by
  have hnle : ¬ b.beginValid ≤ a.beginValid := not_le.2 hlt
  have hle : a.beginValid ≤ b.beginValid := le_of_lt hlt
  refine ⟨⟨?_, ?_⟩, ?_, ?_⟩ <;>
    simp [addOrbAlm, addOrbAlmSubject, addOrbAlmXmit, addOrbAlmToOrbAlmMap, firstSameData,
      mapFind, mapSet, multimapInsert, emptyStore, hab, hba, hepoch, hnle, hle]

/-- Witness of C6: epoch 5, the same `params`, `beginValid` 10 and 20. -/
theorem addOrbAlm_earliest_wins_witness :
    ((addOrbAlm sameParams ⟨5, 10, true, 7⟩ 2 1 true
        (addOrbAlm sameParams ⟨5, 20, true, 7⟩ 2 1 true (emptyStore 0 0)).2).1 = true ∧
     mapFind 1 (addOrbAlm sameParams ⟨5, 10, true, 7⟩ 2 1 true
        (addOrbAlm sameParams ⟨5, 20, true, 7⟩ 2 1 true (emptyStore 0 0)).2).2.subjectAlmMap
        = some [(5, ⟨5, 10, true, 7⟩)]) ∧
    ((addOrbAlm sameParams ⟨5, 20, true, 7⟩ 2 1 true
        (addOrbAlm sameParams ⟨5, 10, true, 7⟩ 2 1 true (emptyStore 0 0)).2).1 = false ∧
     mapFind 1 (addOrbAlm sameParams ⟨5, 20, true, 7⟩ 2 1 true
        (addOrbAlm sameParams ⟨5, 10, true, 7⟩ 2 1 true (emptyStore 0 0)).2).2.subjectAlmMap
        = some [(5, ⟨5, 10, true, 7⟩)]) :=
  addOrbAlm_earliest_wins sameParams ⟨5, 10, true, 7⟩ ⟨5, 20, true, 7⟩ 2 1 0 0 rfl rfl rfl
    (by decide)

/-- C7: two records `a`, `b` of one epoch whose data differ (`isSameData` is false
between them, whichever of the two is asked), added in that order to an
empty store for the same subject with a healthy transmitter: both calls return true and
the subject sub-map holds both records under that epoch key, `a` then `b`, so that
`sizeSubjAlm(subjID)` is 2. -/
theorem addOrbAlm_distinct_data_survives (env : Collaborators) (a b : OrbAlm)
    (xmitID subjID : SatID) (initialTime finalTime : CommonTime) (hepoch : a.ctToe = b.ctToe)
    (hdiff : env.isSameData a b = false ∧ env.isSameData b a = false) :
    (addOrbAlm env a xmitID subjID true (emptyStore initialTime finalTime)).1 = true ∧
    (addOrbAlm env b xmitID subjID true
      (addOrbAlm env a xmitID subjID true (emptyStore initialTime finalTime)).2).1 = true ∧
    mapFind subjID (addOrbAlm env b xmitID subjID true
      (addOrbAlm env a xmitID subjID true (emptyStore initialTime finalTime)).2).2.subjectAlmMap
      = some [(a.ctToe, a), (a.ctToe, b)] ∧
    sizeSubjAlm (addOrbAlm env b xmitID subjID true
      (addOrbAlm env a xmitID subjID true (emptyStore initialTime finalTime)).2).2 subjID = 2 := by
  refine ⟨?_, ?_, ?_, ?_⟩ <;>
    simp [addOrbAlm, addOrbAlmSubject, addOrbAlmXmit, addOrbAlmToOrbAlmMap, firstSameData,
      mapFind, mapSet, multimapInsert, emptyStore, sizeSubjAlm, unsignedRange, hdiff.2, hepoch]

/-- Witness of C7: epoch 5 with `params` 7 and 8. -/
theorem addOrbAlm_distinct_data_survives_witness :
    (addOrbAlm sameParams ⟨5, 10, true, 7⟩ 2 1 true (emptyStore 0 0)).1 = true ∧
    (addOrbAlm sameParams ⟨5, 10, true, 8⟩ 2 1 true
      (addOrbAlm sameParams ⟨5, 10, true, 7⟩ 2 1 true (emptyStore 0 0)).2).1 = true ∧
    mapFind 1 (addOrbAlm sameParams ⟨5, 10, true, 8⟩ 2 1 true
      (addOrbAlm sameParams ⟨5, 10, true, 7⟩ 2 1 true (emptyStore 0 0)).2).2.subjectAlmMap
      = some [(5, ⟨5, 10, true, 7⟩), (5, ⟨5, 10, true, 8⟩)] ∧
    sizeSubjAlm (addOrbAlm sameParams ⟨5, 10, true, 8⟩ 2 1 true
      (addOrbAlm sameParams ⟨5, 10, true, 7⟩ 2 1 true (emptyStore 0 0)).2).2 1 = 2 :=
  addOrbAlm_distinct_data_survives sameParams ⟨5, 10, true, 7⟩ ⟨5, 10, true, 8⟩ 2 1 0 0
    rfl ⟨rfl, rfl⟩

/-! ## Range pruning -/

theorem editOrbAlmMap_sublist (tmin tmax : CommonTime) (eMap : OrbAlmMap) :
    (editOrbAlmMap tmin tmax eMap).Sublist eMap :=
  (List.takeWhile_sublist _).trans (List.dropWhile_sublist _)

theorem dropWhile_keys_ge (tmin : CommonTime) (eMap : OrbAlmMap) (hord : keysAscending eMap) :
    ∀ e ∈ eMap.dropWhile (fun emi => decide (emi.1 < tmin)), tmin ≤ e.1 := by
  induction eMap with
  | nil => simp
  | cons a rest ih =>
    have hord2 := List.pairwise_cons.1 hord
    by_cases h : a.1 < tmin
    · rw [List.dropWhile_cons_of_pos (by simpa using h)]
      exact ih hord2.2
    · rw [List.dropWhile_cons_of_neg (by simpa using h)]
      intro e he
      rcases List.mem_cons.1 he with rfl | he
      · exact not_lt.1 h
      · exact le_trans (not_lt.1 h) (hord2.1 e he)

theorem editOrbAlmMap_keys (tmin tmax : CommonTime) (eMap : OrbAlmMap)
    (hord : keysAscending eMap) :
    ∀ e ∈ editOrbAlmMap tmin tmax eMap, tmin ≤ e.1 ∧ e.1 ≤ tmax := by
  intro e he
  refine ⟨?_, ?_⟩
  · exact dropWhile_keys_ge tmin eMap hord e ((List.takeWhile_sublist _).subset he)
  · simpa using List.mem_takeWhile_imp he

theorem editOrbAlmMap_epochsWithin (tmin tmax : CommonTime) (eMap : OrbAlmMap)
    (hord : keysAscending eMap) (hkey : keyedByEpoch eMap) :
    epochsWithin tmin tmax (editOrbAlmMap tmin tmax eMap) := by
  intro e he
  have hk := hkey e ((editOrbAlmMap_sublist tmin tmax eMap).subset he)
  have hb := editOrbAlmMap_keys tmin tmax eMap hord e he
  rw [hk] at hb
  exact ⟨not_lt.2 hb.1, not_lt.2 hb.2⟩

/-- C10: in a store whose maps are in ascending key order and keyed by the epoch time of
their records, after `edit(tmin, tmax)` no record left in any sub-map of the subject
index or of the transmit index has an epoch time before `tmin` or after `tmax`, and
`initialTime = tmin`, `finalTime = tmax`. -/
theorem edit_prune_bounds (tmin tmax : CommonTime) (s : OrbAlmStore)
    (hord : EverySubMap keysAscending s) (hkey : EverySubMap keyedByEpoch s) :
    EverySubMap (epochsWithin tmin tmax) (edit tmin tmax s) ∧
    (edit tmin tmax s).initialTime = tmin ∧ (edit tmin tmax s).finalTime = tmax := by
  refine ⟨⟨?_, ?_⟩, rfl, rfl⟩
  · intro i hi
    obtain ⟨j, hj, rfl⟩ := List.mem_map.1 hi
    exact editOrbAlmMap_epochsWithin tmin tmax j.2 (hord.1 j hj) (hkey.1 j hj)
  · intro i hi it2 hit2
    obtain ⟨j, hj, rfl⟩ := List.mem_map.1 hi
    obtain ⟨j2, hj2, rfl⟩ := List.mem_map.1 hit2
    exact editOrbAlmMap_epochsWithin tmin tmax j2.2 (hord.2 j hj j2 hj2) (hkey.2 j hj j2 hj2)

/-- Witness of C10: `edit(2, 5)` on epochs 1, 5, 9 keeps the record of epoch 5 only, and
`edit(0, 10)`, which prunes nothing, still sets the time span. -/
theorem edit_prune_bounds_witness :
    (EverySubMap (epochsWithin 2 5) (edit 2 5 storeSpan) ∧
      (edit 2 5 storeSpan).initialTime = 2 ∧ (edit 2 5 storeSpan).finalTime = 5) ∧
    (edit 2 5 storeSpan).subjectAlmMap = [(1, [(5, ⟨5, 20, true, 0⟩)])] ∧
    (edit 0 10 storeSpan).subjectAlmMap = storeSpan.subjectAlmMap ∧
    (edit 0 10 storeSpan).initialTime = 0 ∧ (edit 0 10 storeSpan).finalTime = 10 :=
  ⟨edit_prune_bounds 2 5 storeSpan
      (by simp [EverySubMap, keysAscending, storeSpan])
      (by
        simp only [EverySubMap, keyedByEpoch, storeSpan]
        refine ⟨?_, ?_⟩
        · intro i hi e he
          simp only [List.mem_singleton] at hi
          subst hi
          simp only [List.mem_cons, List.mem_singleton, List.not_mem_nil, or_false] at he
          rcases he with rfl | rfl | rfl <;> rfl
        · intro i hi it2 hit2 e he
          simp only [List.mem_singleton] at hi
          subst hi
          simp only [List.mem_singleton] at hit2
          subst hit2
          simp only [List.mem_cons, List.mem_singleton, List.not_mem_nil, or_false] at he
          rcases he with rfl | rfl | rfl <;> rfl),
   by decide, by decide, rfl, rfl⟩

/-! ## Deduplication on reachable stores -/

theorem noSameDataTwice_perm (env : Collaborators) (m m' : OrbAlmMap) (hp : m.Perm m')
    (h : noSameDataTwice env m) : noSameDataTwice env m' :=
  (List.Perm.pairwise_iff (fun hxy hk => (hxy hk.symm).symm) hp).1 h

theorem noSameDataTwice_sublist (env : Collaborators) (m m' : OrbAlmMap) (hs : m'.Sublist m)
    (h : noSameDataTwice env m) : noSameDataTwice env m' :=
  List.Pairwise.sublist hs h

/-- After a replacement no entry of the erased map carries the data of the new record. -/
theorem firstSameData_erased_differ (env : Collaborators) (heq : IsSameDataEquivalence env)
    (alm : OrbAlm) (oem : OrbAlmMap) (hinv : noSameDataTwice env oem)
    (oe : OrbAlm) (erased : OrbAlmMap) (h : firstSameData env alm oem = some (oe, erased)) :
    noSameDataTwice env erased ∧
    ∀ e ∈ erased, e.1 = alm.ctToe → env.isSameData alm e.2 = false := by
  have hp := noSameDataTwice_perm env _ _ (firstSameData_perm env alm oem oe erased h) hinv
  have hc := List.pairwise_cons.1 hp
  refine ⟨hc.2, ?_⟩
  intro e he hk
  have hoe := (firstSameData_some env alm oem oe erased h).1
  have hd := (hc.1 e he hk.symm).1
  cases hs : env.isSameData alm e.2 with
  | false => rfl
  | true =>
    rw [heq.2.2 oe alm e.2 (heq.2.1 alm oe hoe) hs] at hd
    cases hd

theorem addOrbAlmToOrbAlmMap_noSameDataTwice (env : Collaborators)
    (heq : IsSameDataEquivalence env) (alm : OrbAlm) (oem : OrbAlmMap)
    (span : CommonTime × CommonTime) (hinv : noSameDataTwice env oem) :
    noSameDataTwice env (addOrbAlmToOrbAlmMap env alm oem span).2.1 := by
  have hnew : ∀ m : OrbAlmMap, noSameDataTwice env m →
      (∀ e ∈ m, e.1 = alm.ctToe → env.isSameData alm e.2 = false) →
      noSameDataTwice env (multimapInsert alm.ctToe alm m) := by
    intro m hm hall
    refine noSameDataTwice_perm env _ _ (multimapInsert_perm alm.ctToe alm m).symm ?_
    refine List.pairwise_cons.2 ⟨?_, hm⟩
    intro e he hk
    have h1 := hall e he hk.symm
    refine ⟨h1, ?_⟩
    cases hs : env.isSameData e.2 alm with
    | false => rfl
    | true => rw [heq.2.1 e.2 alm hs] at h1; cases h1
  rcases addOrbAlmToOrbAlmMap_cases env alm oem span with
    ⟨oe, er, _, _, hr⟩ | ⟨oe, er, hf, _, hr⟩ | ⟨hf, hr⟩
  · rw [hr]; exact hinv
  · rw [hr]
    obtain ⟨h1, h2⟩ := firstSameData_erased_differ env heq alm oem hinv oe er hf
    exact hnew er h1 h2
  · rw [hr]
    refine hnew oem hinv ?_
    intro e he hk
    have := firstSameData_none env alm oem hf e he
    cases hs : env.isSameData alm e.2 with
    | false => rfl
    | true => exact absurd ⟨hk, hs⟩ this

/-- Adding the same record a second time to a map without same-data duplicates is
discarded: the flag is false and the map and the span are left as they are. -/
theorem addOrbAlmToOrbAlmMap_again (env : Collaborators) (heq : IsSameDataEquivalence env)
    (alm : OrbAlm) (oem : OrbAlmMap) (span span' : CommonTime × CommonTime)
    (hinv : noSameDataTwice env oem) :
    addOrbAlmToOrbAlmMap env alm (addOrbAlmToOrbAlmMap env alm oem span).2.1 span' =
      (false, (addOrbAlmToOrbAlmMap env alm oem span).2.1, span') := by
  have hnew : ∀ m : OrbAlmMap,
      (∀ e ∈ m, e.1 = alm.ctToe → env.isSameData alm e.2 = false) →
      addOrbAlmToOrbAlmMap env alm (multimapInsert alm.ctToe alm m) span' =
        (false, multimapInsert alm.ctToe alm m, span') := by
    intro m hall
    cases hf : firstSameData env alm (multimapInsert alm.ctToe alm m) with
    | none =>
      have hmem : (alm.ctToe, alm) ∈ multimapInsert alm.ctToe alm m :=
        (multimapInsert_perm alm.ctToe alm m).symm.subset (List.mem_cons_self _ _)
      exact absurd ⟨rfl, heq.1 alm⟩ (firstSameData_none env alm _ hf _ hmem)
    | some p =>
      obtain ⟨hs, pre, post, hsplit, _, _⟩ := firstSameData_some env alm _ p.1 p.2 hf
      have hmem : (alm.ctToe, p.1) ∈ multimapInsert alm.ctToe alm m := by
        rw [hsplit]; simp
      have hle : p.1.beginValid ≤ alm.beginValid := by
        rcases List.mem_cons.1 ((multimapInsert_perm alm.ctToe alm m).subset hmem) with h | h
        · have : p.1 = alm := congrArg Prod.snd h
          rw [this]
        · have := hall _ h rfl
          rw [hs] at this
          cases this
      simp [addOrbAlmToOrbAlmMap, hf, hle]
  rcases addOrbAlmToOrbAlmMap_cases env alm oem span with
    ⟨oe, er, hf, hle, hr⟩ | ⟨oe, er, hf, _, hr⟩ | ⟨hf, hr⟩
  · rw [hr]
    simp [addOrbAlmToOrbAlmMap, hf, hle]
  · rw [hr]
    exact hnew er (firstSameData_erased_differ env heq alm oem hinv oe er hf).2
  · rw [hr]
    refine hnew oem ?_
    intro e he hk
    have := firstSameData_none env alm oem hf e he
    cases hs : env.isSameData alm e.2 with
    | false => rfl
    | true => exact absurd ⟨hk, hs⟩ this

theorem mapFind_some_mem {V : Type} (k : SatID) (v : V) (m : List (SatID × V))
    (h : mapFind k m = some v) : (k, v) ∈ m := by
  induction m with
  | nil => simp [mapFind] at h
  | cons e rest ih =>
    by_cases h1 : k < e.1
    · simp [mapFind, h1] at h
    · by_cases h2 : k = e.1
      · rw [mapFind, if_neg h1, if_pos h2] at h
        have hv : e.2 = v := Option.some.inj h
        rw [h2, ← hv]
        exact List.mem_cons_self _ _
      · rw [mapFind, if_neg h1, if_neg h2] at h
        exact List.mem_cons_of_mem _ (ih h)

theorem noSameDataTwice_getD (env : Collaborators) (k : SatID) (m : SubjectAlmMap)
    (h : ∀ i ∈ m, noSameDataTwice env i.2) :
    noSameDataTwice env ((mapFind k m).getD []) := by
  cases hf : mapFind k m with
  | none => exact List.Pairwise.nil
  | some oem => exact h _ (mapFind_some_mem k oem m hf)

theorem addOrbAlm_noSameDataTwice (env : Collaborators) (heq : IsSameDataEquivalence env)
    (alm : OrbAlm) (xmitID subjID : SatID) (isXmitHealthy : Bool) (s : OrbAlmStore)
    (hinv : EverySubMap (noSameDataTwice env) s) :
    EverySubMap (noSameDataTwice env) (addOrbAlm env alm xmitID subjID isXmitHealthy s).2 := by
  have h1 : EverySubMap (noSameDataTwice env)
      (addOrbAlmSubject env alm subjID isXmitHealthy s).2 := by
    cases isXmitHealthy with
    | false => exact hinv
    | true =>
      refine ⟨?_, hinv.2⟩
      intro i hi
      rcases mem_mapSet subjID _ s.subjectAlmMap i hi with rfl | hi
      · exact addOrbAlmToOrbAlmMap_noSameDataTwice env heq alm _ _
          (noSameDataTwice_getD env subjID s.subjectAlmMap hinv.1)
      · exact hinv.1 i hi
  show EverySubMap (noSameDataTwice env) (addOrbAlmXmit env alm xmitID subjID
    (addOrbAlmSubject env alm subjID isXmitHealthy s).2).2
  generalize (addOrbAlmSubject env alm subjID isXmitHealthy s).2 = s1 at h1
  refine ⟨h1.1, ?_⟩
  have huam : ∀ it2 ∈ (mapFind xmitID s1.xmitAlmMap).getD [], noSameDataTwice env it2.2 := by
    cases hf : mapFind xmitID s1.xmitAlmMap with
    | none => simp
    | some uam => exact h1.2 _ (mapFind_some_mem xmitID uam _ hf)
  intro i hi it2 hit2
  rcases mem_mapSet xmitID _ s1.xmitAlmMap i hi with rfl | hi
  · rcases mem_mapSet subjID _ _ it2 hit2 with rfl | hit2
    · exact addOrbAlmToOrbAlmMap_noSameDataTwice env heq alm _ _
        (noSameDataTwice_getD env subjID _ huam)
    · exact huam it2 hit2
  · exact h1.2 i hi it2 hit2

theorem edit_noSameDataTwice (env : Collaborators) (tmin tmax : CommonTime) (s : OrbAlmStore)
    (hinv : EverySubMap (noSameDataTwice env) s) :
    EverySubMap (noSameDataTwice env) (edit tmin tmax s) := by
  refine ⟨?_, ?_⟩
  · intro i hi
    obtain ⟨j, hj, rfl⟩ := List.mem_map.1 hi
    exact noSameDataTwice_sublist env _ _ (editOrbAlmMap_sublist tmin tmax j.2) (hinv.1 j hj)
  · intro i hi it2 hit2
    obtain ⟨j, hj, rfl⟩ := List.mem_map.1 hi
    obtain ⟨j2, hj2, rfl⟩ := List.mem_map.1 hit2
    exact noSameDataTwice_sublist env _ _ (editOrbAlmMap_sublist tmin tmax j2.2)
      (hinv.2 j hj j2 hj2)

/-- On every reachable store no sub-map holds two entries of one key with the same data. -/
theorem reachable_noSameDataTwice (env : Collaborators) (heq : IsSameDataEquivalence env)
    (s : OrbAlmStore) (hr : Reachable env s) : EverySubMap (noSameDataTwice env) s := by
  induction hr with
  | init i f => exact ⟨by simp [emptyStore], by simp [emptyStore]⟩
  | addOrbAlm s alm x sj h _ ih => exact addOrbAlm_noSameDataTwice env heq alm x sj h s ih
  | edit s tmin tmax _ ih => exact edit_noSameDataTwice env tmin tmax s ih
  | clear s _ _ => exact ⟨by simp [clear], by simp [clear]⟩

/-- A second `addOrbAlm` with the same arguments, on a store without same-data
duplicates, returns false and leaves the store as the first call left it. -/
theorem addOrbAlm_again (env : Collaborators) (heq : IsSameDataEquivalence env)
    (alm : OrbAlm) (xmitID subjID : SatID) (isXmitHealthy : Bool) (s : OrbAlmStore)
    (hinv : EverySubMap (noSameDataTwice env) s) :
    addOrbAlm env alm xmitID subjID isXmitHealthy
        (addOrbAlm env alm xmitID subjID isXmitHealthy s).2 =
      (false, (addOrbAlm env alm xmitID subjID isXmitHealthy s).2) := by
  have hsub : (addOrbAlmSubject env alm subjID isXmitHealthy
      (addOrbAlm env alm xmitID subjID isXmitHealthy s).2).1 = false := by
    cases isXmitHealthy with
    | false => rfl
    | true =>
      show (addOrbAlmToOrbAlmMap env alm
        ((mapFind subjID (mapSet subjID _ s.subjectAlmMap)).getD []) _).1 = false
      rw [mapFind_mapSet_self, Option.getD_some, addOrbAlmToOrbAlmMap_again env heq alm _ _ _
        (noSameDataTwice_getD env subjID s.subjectAlmMap hinv.1)]
  have hs1 := addOrbAlmSubject_false env alm subjID isXmitHealthy _ hsub
  have huam : ∀ it2 ∈ (mapFind xmitID s.xmitAlmMap).getD [], noSameDataTwice env it2.2 := by
    cases hf : mapFind xmitID s.xmitAlmMap with
    | none => simp
    | some uam => exact hinv.2 _ (mapFind_some_mem xmitID uam _ hf)
  have hx : (addOrbAlmXmit env alm xmitID subjID
      (addOrbAlm env alm xmitID subjID isXmitHealthy s).2).1 = false := by
    show (addOrbAlmToOrbAlmMap env alm
      ((mapFind subjID ((mapFind xmitID (mapSet xmitID (mapSet subjID _
        ((mapFind xmitID (addOrbAlmSubject env alm subjID isXmitHealthy s).2.xmitAlmMap).getD []))
        (addOrbAlmSubject env alm subjID isXmitHealthy s).2.xmitAlmMap)).getD [])).getD []) _).1
        = false
    rw [mapFind_mapSet_self, Option.getD_some, mapFind_mapSet_self, Option.getD_some,
      addOrbAlmSubject_xmit, addOrbAlmToOrbAlmMap_again env heq alm _ _ _
        (noSameDataTwice_getD env subjID _ huam)]
  have hs2 := addOrbAlmXmit_false env alm xmitID subjID _ hx
  show ((addOrbAlmSubject env alm subjID isXmitHealthy
      (addOrbAlm env alm xmitID subjID isXmitHealthy s).2).1 ||
    (addOrbAlmXmit env alm xmitID subjID (addOrbAlmSubject env alm subjID isXmitHealthy
      (addOrbAlm env alm xmitID subjID isXmitHealthy s).2).2).1,
    (addOrbAlmXmit env alm xmitID subjID (addOrbAlmSubject env alm subjID isXmitHealthy
      (addOrbAlm env alm xmitID subjID isXmitHealthy s).2).2).2) = _
  rw [hs1, hsub, hx, hs2]
  rfl

/-- C5: on a store reachable from the empty store by `addOrbAlm`, `edit` and `clear`,
with `isSameData` an equivalence relation, a second `addOrbAlm` with the same arguments
returns false and leaves `size(0)`, `size(1)` and `size(2)` at their values after the
first call. -/
theorem addOrbAlm_dedup_idempotent (env : Collaborators) (heq : IsSameDataEquivalence env)
    (s : OrbAlmStore) (hreach : Reachable env s) (alm : OrbAlm) (xmitID subjID : SatID)
    (isXmitHealthy : Bool) :
    (addOrbAlm env alm xmitID subjID isXmitHealthy
      (addOrbAlm env alm xmitID subjID isXmitHealthy s).2).1 = false ∧
    size 0 (addOrbAlm env alm xmitID subjID isXmitHealthy
        (addOrbAlm env alm xmitID subjID isXmitHealthy s).2).2 =
      size 0 (addOrbAlm env alm xmitID subjID isXmitHealthy s).2 ∧
    size 1 (addOrbAlm env alm xmitID subjID isXmitHealthy
        (addOrbAlm env alm xmitID subjID isXmitHealthy s).2).2 =
      size 1 (addOrbAlm env alm xmitID subjID isXmitHealthy s).2 ∧
    size 2 (addOrbAlm env alm xmitID subjID isXmitHealthy
        (addOrbAlm env alm xmitID subjID isXmitHealthy s).2).2 =
      size 2 (addOrbAlm env alm xmitID subjID isXmitHealthy s).2 := by
  have h := addOrbAlm_again env heq alm xmitID subjID isXmitHealthy s
    (reachable_noSameDataTwice env heq s hreach)
  rw [h]
  exact ⟨rfl, rfl, rfl, rfl⟩

theorem sameParams_equivalence : IsSameDataEquivalence sameParams := by
  refine ⟨?_, ?_, ?_⟩
  · intro a
    simp [sameParams]
  · intro a b h
    simp only [sameParams, beq_iff_eq] at h ⊢
    exact h.symm
  · intro a b c h1 h2
    simp only [sameParams, beq_iff_eq] at h1 h2 ⊢
    exact h1.trans h2

/-- Witness of C5: on the store that holds the record of epoch 5 with `beginValid` 20,
the record of the same epoch and data with `beginValid` 10 replaces it on the first call
and is discarded on the second; the sizes stay 2, 1 and 1. -/
theorem addOrbAlm_dedup_idempotent_witness :
    IsSameDataEquivalence sameParams ∧ Reachable sameParams storeOneRecord ∧
    (addOrbAlm sameParams ⟨5, 10, true, 7⟩ 2 1 true storeOneRecord).1 = true ∧
    ((addOrbAlm sameParams ⟨5, 10, true, 7⟩ 2 1 true
      (addOrbAlm sameParams ⟨5, 10, true, 7⟩ 2 1 true storeOneRecord).2).1 = false ∧
    size 0 (addOrbAlm sameParams ⟨5, 10, true, 7⟩ 2 1 true
        (addOrbAlm sameParams ⟨5, 10, true, 7⟩ 2 1 true storeOneRecord).2).2 =
      size 0 (addOrbAlm sameParams ⟨5, 10, true, 7⟩ 2 1 true storeOneRecord).2 ∧
    size 1 (addOrbAlm sameParams ⟨5, 10, true, 7⟩ 2 1 true
        (addOrbAlm sameParams ⟨5, 10, true, 7⟩ 2 1 true storeOneRecord).2).2 =
      size 1 (addOrbAlm sameParams ⟨5, 10, true, 7⟩ 2 1 true storeOneRecord).2 ∧
    size 2 (addOrbAlm sameParams ⟨5, 10, true, 7⟩ 2 1 true
        (addOrbAlm sameParams ⟨5, 10, true, 7⟩ 2 1 true storeOneRecord).2).2 =
      size 2 (addOrbAlm sameParams ⟨5, 10, true, 7⟩ 2 1 true storeOneRecord).2) ∧
    size 0 (addOrbAlm sameParams ⟨5, 10, true, 7⟩ 2 1 true storeOneRecord).2 = 2 :=
  ⟨sameParams_equivalence, Reachable.addOrbAlm _ _ _ _ _ (Reachable.init 0 0), rfl,
   addOrbAlm_dedup_idempotent sameParams sameParams_equivalence storeOneRecord
     (Reachable.addOrbAlm _ _ _ _ _ (Reachable.init 0 0)) ⟨5, 10, true, 7⟩ 2 1 true,
   by decide⟩

/-! ## What `edit` keeps -/

theorem keepWithin_eq_nil_of_gt (tmin tmax : CommonTime) (m : OrbAlmMap)
    (h : ∀ e ∈ m, tmax < e.1) : keepWithin tmin tmax m = [] := by
  rw [keepWithin, List.filter_eq_nil_iff]
  intro e he
  simp only [decide_eq_true_eq, not_and, not_le]
  exact fun _ => h e he

theorem takeWhile_eq_keepWithin (tmin tmax : CommonTime) (m : OrbAlmMap)
    (hord : keysAscending m) (hmin : ∀ e ∈ m, tmin ≤ e.1) :
    m.takeWhile (fun emi => decide (emi.1 ≤ tmax)) = keepWithin tmin tmax m := by
  induction m with
  | nil => rfl
  | cons a rest ih =>
    have hord2 := List.pairwise_cons.1 hord
    have ha : tmin ≤ a.1 := hmin a (List.mem_cons_self _ _)
    by_cases h : a.1 ≤ tmax
    · rw [List.takeWhile_cons_of_pos (by simpa using h), keepWithin,
        List.filter_cons_of_pos (by simpa using ⟨ha, h⟩)]
      rw [ih hord2.2 (fun e he => hmin e (List.mem_cons_of_mem _ he))]
      rfl
    · rw [List.takeWhile_cons_of_neg (by simpa using h)]
      symm
      apply keepWithin_eq_nil_of_gt
      intro e he
      rcases List.mem_cons.1 he with rfl | he
      · exact lt_of_not_ge h
      · exact lt_of_lt_of_le (lt_of_not_ge h) (hord2.1 e he)

theorem editOrbAlmMap_eq_keepWithin (tmin tmax : CommonTime) (eMap : OrbAlmMap)
    (hord : keysAscending eMap) :
    editOrbAlmMap tmin tmax eMap = keepWithin tmin tmax eMap := by
  induction eMap with
  | nil => rfl
  | cons a rest ih =>
    have hord2 := List.pairwise_cons.1 hord
    by_cases h : a.1 < tmin
    · have hf : keepWithin tmin tmax (a :: rest) = keepWithin tmin tmax rest := by
        rw [keepWithin, List.filter_cons_of_neg (by simp [h]), keepWithin]
      rw [hf, ← ih hord2.2, editOrbAlmMap, editOrbAlmMap,
        List.dropWhile_cons_of_pos (by simpa using h)]
    · rw [editOrbAlmMap, List.dropWhile_cons_of_neg (by simpa using h)]
      apply takeWhile_eq_keepWithin tmin tmax (a :: rest) hord
      intro e he
      rcases List.mem_cons.1 he with rfl | he
      · exact not_lt.1 h
      · exact le_trans (not_lt.1 h) (hord2.1 e he)

/-- C11: in a store whose maps are in ascending key order, every sub-map of both indexes
after `edit(tmin, tmax)` is the sub-sequence, in the same order, of the entries it had
before whose key `k` has `tmin <= k <= tmax`, under the same satellite keys; entries with
a key equal to `tmin` or to `tmax` are among them. -/
theorem edit_keeps_exactly_in_range (tmin tmax : CommonTime) (s : OrbAlmStore)
    (hord : EverySubMap keysAscending s) :
    (edit tmin tmax s).subjectAlmMap =
      s.subjectAlmMap.map (fun i => (i.1, keepWithin tmin tmax i.2)) ∧
    (edit tmin tmax s).xmitAlmMap =
      s.xmitAlmMap.map (fun i => (i.1, i.2.map (fun it2 => (it2.1, keepWithin tmin tmax it2.2)))) ∧
    (tmin ≤ tmax → ∀ e : CommonTime × OrbAlm, e.1 = tmin ∨ e.1 = tmax →
      ∀ m : OrbAlmMap, e ∈ m → e ∈ keepWithin tmin tmax m) := by
  refine ⟨?_, ?_, ?_⟩
  · apply List.map_congr_left
    intro i hi
    rw [editOrbAlmMap_eq_keepWithin tmin tmax i.2 (hord.1 i hi)]
  · apply List.map_congr_left
    intro i hi
    congr 1
    apply List.map_congr_left
    intro it2 hit2
    rw [editOrbAlmMap_eq_keepWithin tmin tmax it2.2 (hord.2 i hi it2 hit2)]
  · intro hle e he m hm
    rw [keepWithin, List.mem_filter]
    refine ⟨hm, ?_⟩
    rcases he with h | h <;> simp [h, hle]

/-- Witness of C11: `edit(1, 9)` on the epochs 1, 5, 9 keeps all three records, the two
at the bounds included, and `edit(5, 5)` keeps the record of epoch 5 only. -/
theorem edit_keeps_exactly_in_range_witness :
    ((edit 1 9 storeSpan).subjectAlmMap =
      storeSpan.subjectAlmMap.map (fun i => (i.1, keepWithin 1 9 i.2)) ∧
    (edit 1 9 storeSpan).xmitAlmMap =
      storeSpan.xmitAlmMap.map
        (fun i => (i.1, i.2.map (fun it2 => (it2.1, keepWithin 1 9 it2.2)))) ∧
    ((1 : CommonTime) ≤ 9 → ∀ e : CommonTime × OrbAlm, e.1 = 1 ∨ e.1 = 9 →
      ∀ m : OrbAlmMap, e ∈ m → e ∈ keepWithin 1 9 m)) ∧
    (edit 1 9 storeSpan).subjectAlmMap = storeSpan.subjectAlmMap ∧
    (edit 1 9 storeSpan).xmitAlmMap = storeSpan.xmitAlmMap ∧
    (edit 5 5 storeSpan).subjectAlmMap = [(1, [(5, ⟨5, 20, true, 0⟩)])] :=
  ⟨edit_keeps_exactly_in_range 1 9 storeSpan (by simp [EverySubMap, keysAscending, storeSpan]),
   by decide, by decide, by decide⟩

/-! ## `clear` -/

/-- C12: after `clear()` both top-level maps are empty, `size` gives 0 for every choice,
`sizeSubjAlm` and `sizeXmitAlm` give 0 for every satellite, and `clear()` on an empty
store leaves it as it is. -/
theorem clear_totality (s : OrbAlmStore) :
    (clear s).subjectAlmMap = [] ∧ (clear s).xmitAlmMap = [] ∧
    (∀ choice, size choice (clear s) = 0) ∧
    (∀ subjID, sizeSubjAlm (clear s) subjID = 0) ∧
    (∀ xmitID, sizeXmitAlm (clear s) xmitID = 0) ∧
    (∀ initialTime finalTime,
      clear (emptyStore initialTime finalTime) = emptyStore initialTime finalTime) := by
  refine ⟨rfl, rfl, ?_, fun _ => rfl, fun _ => rfl, fun _ _ => rfl⟩
  intro choice
  simp [size, clear, countEntries]

/-! ## `getXvt` and `isHealthy` -/

/-- C13: `getXvt(subjID, t)` ends in its own "unhealthy" `InvalidRequest`, with no state
vector, whenever `findOrbAlm(subjID, t)` gives a record whose `healthy` is false, and in
no other case. -/
theorem getXvt_unhealthy_iff {Xvt : Type} (svXvt : OrbAlm → CommonTime → Xvt)
    (s : OrbAlmStore) (subjID : SatID) (t : CommonTime) :
    getXvt svXvt s subjID t = .error QueryFailure.unhealthy ↔
      ∃ r, findOrbAlm s subjID t = .ok r ∧ r.healthy = false := by
  unfold getXvt
  cases hf : findOrbAlm s subjID t with
  | error e => simp
  | ok r =>
    cases hh : r.healthy with
    | false => simp [hh]
    | true =>
      simp only [hh, Bool.not_true, Bool.false_eq_true, if_false, Except.ok.injEq,
        exists_eq_left']
      constructor
      · intro h
        cases h
      · intro h
        cases h

/-- C14: when `findOrbAlm(subjID, t)` fails, `getXvt(subjID, t)` fails with the same error,
and when it gives a healthy record `r`, `getXvt` returns `r.svXvt(t)`. -/
theorem getXvt_delegates {Xvt : Type} (svXvt : OrbAlm → CommonTime → Xvt)
    (s : OrbAlmStore) (subjID : SatID) (t : CommonTime) :
    (∀ e, findOrbAlm s subjID t = .error e →
      getXvt svXvt s subjID t = .error (QueryFailure.lookup e)) ∧
    (∀ r, findOrbAlm s subjID t = .ok r → r.healthy = true →
      getXvt svXvt s subjID t = .ok (svXvt r t)) := by
  refine ⟨?_, ?_⟩
  · intro e he
    simp [getXvt, he]
  · intro r hr hh
    simp [getXvt, hr, hh]

/-- How `isHealthy` follows `findOrbAlm`: `isHealthy(subjID, t)` never ends in the
invalid-satellite-system error; it ends in the `InvalidRequest` of `findOrbAlm` exactly when
`findOrbAlm(subjID, t)` does; and whatever `findOrbAlm` ends in, `isHealthy` ends in the
same, a record being replaced by its health flag. -/
theorem isHealthy_delegates (s : OrbAlmStore) (subjID : SatID) (t : CommonTime) :
    isHealthy s subjID t ≠ .error QueryFailure.invalidSatSystem ∧
    (isHealthy s subjID t = .error (QueryFailure.lookup Failure.InvalidRequest) ↔
      findOrbAlm s subjID t = .error Failure.InvalidRequest) ∧
    (∀ e, findOrbAlm s subjID t = .error e →
      isHealthy s subjID t = .error (QueryFailure.lookup e)) ∧
    (∀ r, findOrbAlm s subjID t = .ok r → isHealthy s subjID t = .ok r.healthy) := by
  unfold isHealthy
  cases hf : findOrbAlm s subjID t with
  | error e =>
    refine ⟨?_, ?_, ?_, ?_⟩
    · simp [validSatSystem]
    · simp [validSatSystem]
    · intro e' he'
      cases he'
      simp [validSatSystem]
    · intro r hr
      cases hr
  | ok r =>
    refine ⟨?_, ?_, ?_, ?_⟩
    · simp [validSatSystem]
    · simp [validSatSystem]
    · intro e he
      cases he
    · intro r' hr'
      cases hr'
      simp [validSatSystem, OrbAlm.isHealthy]

/-- C15, at the failing input: on the store, built by `addOrbAlm` and `edit`, whose
subject 1 lost its only record, `isHealthy(1, 15)` neither ends in the `InvalidRequest` of
a failed lookup (or in the invalid-satellite-system error) nor returns a health flag: its
call of `findOrbAlm` runs to `return previt->second` with `previt` never assigned. -/
theorem isHealthy_empty_submap_no_flag :
    Reachable sameParams storePruned ∧
    storePruned.subjectAlmMap = [(1, [])] ∧
    isHealthy storePruned 1 15 = .error (QueryFailure.lookup Failure.uninitialisedIterator) ∧
    isHealthy storePruned 1 15 ≠ .error (QueryFailure.lookup Failure.InvalidRequest) ∧
    isHealthy storePruned 1 15 ≠ .error QueryFailure.invalidSatSystem ∧
    ∀ flag, isHealthy storePruned 1 15 ≠ .ok flag := by
  have h : isHealthy storePruned 1 15 =
      .error (QueryFailure.lookup Failure.uninitialisedIterator) := rfl
  refine ⟨Reachable.edit _ 10 20 (Reachable.addOrbAlm _ _ 2 1 true (Reachable.init 0 0)),
    by decide, h, ?_, ?_, ?_⟩
  · rw [h]
    intro h2
    cases h2
  · rw [h]
    intro h2
    cases h2
  · intro flag
    rw [h]
    intro h2
    cases h2

/-- On a store whose subject 1 has one unhealthy record, `findOrbAlm` gives the record,
`getXvt` throws its "unhealthy" `InvalidRequest`, and `isHealthy` returns false. -/
theorem queries_on_unhealthy_record :
    findOrbAlm storeUnhealthy 1 7 = .ok ⟨3, 50, false, 9⟩ ∧
    getXvt (fun alm t => alm.ctToe + t) storeUnhealthy 1 7 = .error QueryFailure.unhealthy ∧
    isHealthy storeUnhealthy 1 7 = .ok false ∧
    getXvt (fun alm t => alm.ctToe + t) storeThree 1 15 = .ok 16 ∧
    getXvt (fun alm t => alm.ctToe + t) storeThree 2 15 =
      .error (QueryFailure.lookup Failure.InvalidRequest) :=
  ⟨rfl, rfl, rfl, rfl, rfl⟩

theorem findOrbAlmLoop_mem (t : CommonTime) (em : OrbAlmMap) (first : Bool)
    (previt : Option OrbAlm) (r : OrbAlm) (h : findOrbAlmLoop t em first previt = some r) :
    previt = some r ∨ ∃ k, (k, r) ∈ em := by
  induction em generalizing first previt with
  | nil => exact Or.inl h
  | cons cit rest ih =>
    have hhere : ∀ x : OrbAlm, some cit.2 = some x → ∃ k, (k, x) ∈ cit :: rest := by
      intro x hx
      have hx2 : cit.2 = x := Option.some.inj hx
      exact ⟨cit.1, by rw [← hx2]; exact List.mem_cons_self _ _⟩
    have hrec : findOrbAlmLoop t rest false (some cit.2) = some r →
        ∃ k, (k, r) ∈ cit :: rest := by
      intro h2
      rcases ih false (some cit.2) h2 with h3 | ⟨k, hk⟩
      · exact hhere r h3
      · exact ⟨k, List.mem_cons_of_mem _ hk⟩
    rw [findOrbAlmLoop] at h
    by_cases hge : cit.2.beginValid ≥ t
    · cases first with
      | true =>
        simp only [if_true, hge] at h
        exact Or.inr (hhere r h)
      | false =>
        simp only [Bool.false_eq_true, if_false, if_true, hge] at h
        exact Or.inl h
    · cases first with
      | true =>
        simp only [if_true, if_false, hge] at h
        exact Or.inr (hrec h)
      | false =>
        simp only [Bool.false_eq_true, if_false, hge] at h
        exact Or.inr (hrec h)

/-- C16: a record that `findOrbAlm(subjID, t)` returns is an entry of the sub-map stored
under `subjID` in the subject index, and the call gives the same record on every store
with that sub-map under `subjID`, whatever its other sub-maps and its transmit index
hold. -/
theorem findOrbAlm_own_satellite (s : OrbAlmStore) (subjID : SatID) (t : CommonTime)
    (r : OrbAlm) (h : findOrbAlm s subjID t = .ok r) :
    (∃ em, mapFind subjID s.subjectAlmMap = some em ∧ (subjID, em) ∈ s.subjectAlmMap ∧
      ∃ k, (k, r) ∈ em) ∧
    (∀ s' : OrbAlmStore, mapFind subjID s'.subjectAlmMap = mapFind subjID s.subjectAlmMap →
      findOrbAlm s' subjID t = .ok r) := by
  refine ⟨?_, ?_⟩
  · cases hf : mapFind subjID s.subjectAlmMap with
    | none => simp [findOrbAlm, hf] at h
    | some em =>
      refine ⟨em, rfl, mapFind_some_mem subjID em _ hf, ?_⟩
      cases em with
      | nil => simp [findOrbAlm, hf, findOrbAlmLoop] at h
      | cons e rest =>
        cases rest with
        | nil =>
          simp only [findOrbAlm, hf, Except.ok.injEq] at h
          exact ⟨e.1, by rw [← h]; exact List.mem_cons_self _ _⟩
        | cons e2 rest =>
          simp only [findOrbAlm, hf] at h
          cases hl : findOrbAlmLoop t (e :: e2 :: rest) true none with
          | none => rw [hl] at h; cases h
          | some x =>
            rw [hl] at h
            simp only [Except.ok.injEq] at h
            subst h
            rcases findOrbAlmLoop_mem t _ true none x hl with h3 | h3
            · cases h3
            · exact h3
  · intro s' hs'
    rw [← h]
    simp only [findOrbAlm, hs']

/-- Witness of C16: the record returned for subject 1 at `t = 15` is an entry of the
sub-map of subject 1. -/
theorem findOrbAlm_own_satellite_witness :
    findOrbAlm storeThree 1 15 = .ok ⟨1, 10, true, 0⟩ ∧
    ((∃ em, mapFind 1 storeThree.subjectAlmMap = some em ∧ (1, em) ∈ storeThree.subjectAlmMap ∧
      ∃ k, (k, (⟨1, 10, true, 0⟩ : OrbAlm)) ∈ em) ∧
    (∀ s' : OrbAlmStore, mapFind 1 s'.subjectAlmMap = mapFind 1 storeThree.subjectAlmMap →
      findOrbAlm s' 1 15 = .ok ⟨1, 10, true, 0⟩)) :=
  ⟨rfl, findOrbAlm_own_satellite storeThree 1 15 ⟨1, 10, true, 0⟩ rfl⟩

/-! ## The time span -/

theorem addOrbAlm_false_eq (env : Collaborators) (alm : OrbAlm) (xmitID subjID : SatID)
    (isXmitHealthy : Bool) (s : OrbAlmStore)
    (h : (addOrbAlm env alm xmitID subjID isXmitHealthy s).1 = false) :
    (addOrbAlm env alm xmitID subjID isXmitHealthy s).2 = s := by
  have h' : ((addOrbAlmSubject env alm subjID isXmitHealthy s).1 ||
      (addOrbAlmXmit env alm xmitID subjID
        (addOrbAlmSubject env alm subjID isXmitHealthy s).2).1) = false := h
  rw [Bool.or_eq_false_iff] at h'
  have e1 := addOrbAlmSubject_false env alm subjID isXmitHealthy s h'.1
  have e2 := addOrbAlmXmit_false env alm xmitID subjID _ h'.2
  show (addOrbAlmXmit env alm xmitID subjID
    (addOrbAlmSubject env alm subjID isXmitHealthy s).2).2 = s
  rw [e2, e1]

theorem addOrbAlmToOrbAlmMap_discarded (env : Collaborators) (alm : OrbAlm) (oem : OrbAlmMap)
    (span : CommonTime × CommonTime) (h : isDiscarded env alm oem) :
    addOrbAlmToOrbAlmMap env alm oem span = (false, oem, span) := by
  obtain ⟨oe, erased, hf, hle⟩ := h
  simp [addOrbAlmToOrbAlmMap, hf, hle]

/-- C17: an `addOrbAlm` call whose record is discarded in each map it targets (the subject
sub-map when `isXmitHealthy`, the transmit sub-map always) returns false and leaves
`initialTime` and `finalTime` as they were; every `addOrbAlm` call that returns false
leaves them as they were, and so does `clear`. -/
theorem addOrbAlm_discard_keeps_span (env : Collaborators) (alm : OrbAlm)
    (xmitID subjID : SatID) (isXmitHealthy : Bool) (s : OrbAlmStore)
    (hsubj : isXmitHealthy = true →
      isDiscarded env alm ((mapFind subjID s.subjectAlmMap).getD []))
    (hxmit : isDiscarded env alm
      ((mapFind subjID ((mapFind xmitID s.xmitAlmMap).getD [])).getD [])) :
    ((addOrbAlm env alm xmitID subjID isXmitHealthy s).1 = false ∧
      (addOrbAlm env alm xmitID subjID isXmitHealthy s).2.initialTime = s.initialTime ∧
      (addOrbAlm env alm xmitID subjID isXmitHealthy s).2.finalTime = s.finalTime) ∧
    (∀ (alm' : OrbAlm) (xmitID' subjID' : SatID) (isXmitHealthy' : Bool) (s' : OrbAlmStore),
      (addOrbAlm env alm' xmitID' subjID' isXmitHealthy' s').1 = false →
      (addOrbAlm env alm' xmitID' subjID' isXmitHealthy' s').2.initialTime = s'.initialTime ∧
      (addOrbAlm env alm' xmitID' subjID' isXmitHealthy' s').2.finalTime = s'.finalTime) ∧
    (∀ s' : OrbAlmStore, (clear s').initialTime = s'.initialTime ∧
      (clear s').finalTime = s'.finalTime) := by
  have hgen : ∀ (alm' : OrbAlm) (xmitID' subjID' : SatID) (isXmitHealthy' : Bool)
      (s' : OrbAlmStore), (addOrbAlm env alm' xmitID' subjID' isXmitHealthy' s').1 = false →
      (addOrbAlm env alm' xmitID' subjID' isXmitHealthy' s').2.initialTime = s'.initialTime ∧
      (addOrbAlm env alm' xmitID' subjID' isXmitHealthy' s').2.finalTime = s'.finalTime := by
    intro alm' x' sj' h' s' hf
    rw [addOrbAlm_false_eq env alm' x' sj' h' s' hf]
    exact ⟨rfl, rfl⟩
  have h1 : (addOrbAlmSubject env alm subjID isXmitHealthy s).1 = false := by
    cases isXmitHealthy with
    | false => rfl
    | true =>
      show (addOrbAlmToOrbAlmMap env alm ((mapFind subjID s.subjectAlmMap).getD [])
        (s.initialTime, s.finalTime)).1 = false
      rw [addOrbAlmToOrbAlmMap_discarded env alm _ _ (hsubj rfl)]
  have e1 := addOrbAlmSubject_false env alm subjID isXmitHealthy s h1
  have h2 : (addOrbAlmXmit env alm xmitID subjID
      (addOrbAlmSubject env alm subjID isXmitHealthy s).2).1 = false := by
    rw [e1]
    show (addOrbAlmToOrbAlmMap env alm
      ((mapFind subjID ((mapFind xmitID s.xmitAlmMap).getD [])).getD [])
      (s.initialTime, s.finalTime)).1 = false
    rw [addOrbAlmToOrbAlmMap_discarded env alm _ _ hxmit]
  have hfalse : (addOrbAlm env alm xmitID subjID isXmitHealthy s).1 = false := by
    show ((addOrbAlmSubject env alm subjID isXmitHealthy s).1 ||
      (addOrbAlmXmit env alm xmitID subjID
        (addOrbAlmSubject env alm subjID isXmitHealthy s).2).1) = false
    rw [h1, h2]
    rfl
  exact ⟨⟨hfalse, hgen alm xmitID subjID isXmitHealthy s hfalse⟩, hgen, fun _ => ⟨rfl, rfl⟩⟩

/-- Witness of C17: a copy of the stored record of epoch 5 with a later `beginValid` is
discarded in both maps, and the span stays `(0, 0)`. -/
theorem addOrbAlm_discard_keeps_span_witness :
    ((addOrbAlm sameParams laterCopy 2 1 true storeOneRecord).1 = false ∧
      (addOrbAlm sameParams laterCopy 2 1 true storeOneRecord).2.initialTime = 0 ∧
      (addOrbAlm sameParams laterCopy 2 1 true storeOneRecord).2.finalTime = 0) ∧
    (addOrbAlm sameParams laterCopy 2 1 true storeOneRecord).2 = storeOneRecord :=
  ⟨(addOrbAlm_discard_keeps_span sameParams laterCopy 2 1 true storeOneRecord
      (fun _ => ⟨⟨5, 20, true, 7⟩, [], rfl, by decide⟩)
      ⟨⟨5, 20, true, 7⟩, [], rfl, by decide⟩).1,
   by decide⟩

/-! ## Repeating `edit` -/

theorem editOrbAlmMap_eq_self (tmin tmax : CommonTime) (eMap : OrbAlmMap)
    (h : ∀ e ∈ eMap, tmin ≤ e.1 ∧ e.1 ≤ tmax) : editOrbAlmMap tmin tmax eMap = eMap := by
  have hd : eMap.dropWhile (fun emi => decide (emi.1 < tmin)) = eMap := by
    cases eMap with
    | nil => rfl
    | cons a rest =>
      have ha := (h a (List.mem_cons_self _ _)).1
      rw [List.dropWhile_cons_of_neg (by simpa using ha)]
  rw [editOrbAlmMap, hd, List.takeWhile_eq_self_iff]
  intro e he
  simpa using (h e he).2

theorem editOrbAlmMap_idem (tmin tmax : CommonTime) (eMap : OrbAlmMap) :
    editOrbAlmMap tmin tmax (editOrbAlmMap tmin tmax eMap) = editOrbAlmMap tmin tmax eMap := by
  cases hd : eMap.dropWhile (fun emi => decide (emi.1 < tmin)) with
  | nil =>
    have h1 : editOrbAlmMap tmin tmax eMap = [] := by
      rw [editOrbAlmMap, hd]
      rfl
    rw [h1]
    rfl
  | cons a rest =>
    have hna : ¬ a.1 < tmin := by
      have := List.head?_dropWhile_not (fun emi : CommonTime × OrbAlm => decide (emi.1 < tmin)) eMap
      rw [hd] at this
      simpa using this
    by_cases hq : a.1 ≤ tmax
    · have h1 : editOrbAlmMap tmin tmax eMap =
          a :: rest.takeWhile (fun emi => decide (emi.1 ≤ tmax)) := by
        rw [editOrbAlmMap, hd]
        simp [List.takeWhile_cons, hq]
      rw [h1, editOrbAlmMap]
      simp [List.dropWhile_cons, hna, List.takeWhile_cons, hq, List.takeWhile_idem]
    · have h1 : editOrbAlmMap tmin tmax eMap = [] := by
        rw [editOrbAlmMap, hd]
        simp [List.takeWhile_cons, hq]
      rw [h1]
      rfl

/-- C18: `edit(tmin, tmax)` run twice gives the same store as run once; on a store all of
whose keys lie in `[tmin, tmax]`, and on an empty store, it leaves both indexes as they
are and sets `initialTime = tmin` and `finalTime = tmax`. -/
theorem edit_idempotent (tmin tmax : CommonTime) (s : OrbAlmStore) :
    edit tmin tmax (edit tmin tmax s) = edit tmin tmax s ∧
    (EverySubMap (fun m => ∀ e ∈ m, tmin ≤ e.1 ∧ e.1 ≤ tmax) s →
      edit tmin tmax s = { s with initialTime := tmin, finalTime := tmax }) ∧
    (∀ initialTime finalTime,
      edit tmin tmax (emptyStore initialTime finalTime) = emptyStore tmin tmax) := by
  refine ⟨?_, ?_, fun _ _ => rfl⟩
  · simp only [edit, List.map_map, OrbAlmStore.mk.injEq, and_true]
    refine ⟨?_, ?_⟩
    · apply List.map_congr_left
      intro i _
      simp only [Function.comp_apply, editOrbAlmMap_idem]
    · apply List.map_congr_left
      intro i _
      simp only [Function.comp_apply, List.map_map, Prod.mk.injEq, true_and]
      apply List.map_congr_left
      intro it2 _
      simp only [Function.comp_apply, editOrbAlmMap_idem]
  · intro hin
    simp only [edit, OrbAlmStore.mk.injEq, and_true]
    refine ⟨?_, ?_⟩
    · conv_rhs => rw [← List.map_id s.subjectAlmMap]
      apply List.map_congr_left
      intro i hi
      rw [editOrbAlmMap_eq_self tmin tmax i.2 (hin.1 i hi)]
      rfl
    · conv_rhs => rw [← List.map_id s.xmitAlmMap]
      apply List.map_congr_left
      intro i hi
      have : i.2.map (fun it2 => (it2.1, editOrbAlmMap tmin tmax it2.2)) = i.2 := by
        conv_rhs => rw [← List.map_id i.2]
        apply List.map_congr_left
        intro it2 hit2
        rw [editOrbAlmMap_eq_self tmin tmax it2.2 (hin.2 i hi it2 hit2)]
        rfl
      rw [this]
      rfl

/-! ## The size queries -/

theorem mapOfEpochs_length (n : Nat) : (mapOfEpochs n).length = n := by
  unfold mapOfEpochs
  rw [List.length_map, List.length_range]

theorem countEntries_mod (c : Nat) (m : SubjectAlmMap) :
    countEntries (c % unsignedRange) m = (c + totalEntries m) % unsignedRange := by
  induction m generalizing c with
  | nil => simp [countEntries, totalEntries]
  | cons i rest ih =>
    have hstep : countEntries (c % unsignedRange) (i :: rest) =
        countEntries ((c % unsignedRange + i.2.length) % unsignedRange) rest := rfl
    have ht : totalEntries (i :: rest) = i.2.length + totalEntries rest := by
      simp [totalEntries]
    rw [hstep, ih, ht, ← Nat.add_assoc, Nat.add_mod, Nat.add_mod (c % unsignedRange),
      Nat.mod_mod, ← Nat.add_mod c, ← Nat.add_mod]

theorem countEntries_zero (m : SubjectAlmMap) :
    countEntries 0 m = totalEntries m % unsignedRange := by
  have h := countEntries_mod 0 m
  rw [Nat.zero_mod, Nat.zero_add] at h
  exact h

theorem sizeSubjAlm_of_find (s : OrbAlmStore) (subjID : SatID) (oem : OrbAlmMap)
    (h : mapFind subjID s.subjectAlmMap = some oem) :
    sizeSubjAlm s subjID = oem.length % unsignedRange := by
  simp only [sizeSubjAlm, h]

theorem sizeXmitAlm_of_find (s : OrbAlmStore) (xmitID : SatID) (uam : SubjectAlmMap)
    (h : mapFind xmitID s.xmitAlmMap = some uam) :
    sizeXmitAlm s xmitID = totalEntries uam % unsignedRange := by
  simp only [sizeXmitAlm, h, countEntries_zero]

/-- Counterexample to C19: the sub-map of subject 1 holds `2 ^ 32` records and
`sizeSubjAlm(1)` returns 0, not the number of records. -/
theorem sizeSubjAlm_not_count :
    mapFind 1 storeHuge.subjectAlmMap = some (mapOfEpochs (2 ^ 32)) ∧
    (mapOfEpochs (2 ^ 32)).length = 2 ^ 32 ∧
    sizeSubjAlm storeHuge 1 = 0 ∧
    sizeSubjAlm storeHuge 1 ≠ (mapOfEpochs (2 ^ 32)).length := by
  have hfind : mapFind 1 storeHuge.subjectAlmMap = some (mapOfEpochs (2 ^ 32)) := by
    simp [storeHuge, mapFind]
  have hsize : sizeSubjAlm storeHuge 1 = 0 := by
    rw [sizeSubjAlm_of_find storeHuge 1 _ hfind, mapOfEpochs_length]
    exact Nat.mod_self _
  refine ⟨hfind, mapOfEpochs_length _, hsize, ?_⟩
  rw [hsize, mapOfEpochs_length]
  decide

/-- C19, amended: `sizeSubjAlm(subjID)` is 0 when `subjID` is not a key of the subject
index and otherwise the number of records of its sub-map reduced modulo `2 ^ 32`, which
is that number when it is below `2 ^ 32`; `sizeXmitAlm(xmitID)` is 0 when `xmitID` is not
a key of the transmit index and otherwise the number of records over all the sub-maps of
that transmitter reduced modulo `2 ^ 32`, which is that number when it is below
`2 ^ 32`. -/
theorem sizeSubjAlm_sizeXmitAlm_count (s : OrbAlmStore) (satID : SatID) :
    (satID ∉ s.subjectAlmMap.map Prod.fst → sizeSubjAlm s satID = 0) ∧
    (∀ oem, mapFind satID s.subjectAlmMap = some oem →
      sizeSubjAlm s satID = oem.length % 2 ^ 32 ∧
      (oem.length < 2 ^ 32 → sizeSubjAlm s satID = oem.length)) ∧
    (satID ∉ s.xmitAlmMap.map Prod.fst → sizeXmitAlm s satID = 0) ∧
    (∀ uam, mapFind satID s.xmitAlmMap = some uam →
      sizeXmitAlm s satID = totalEntries uam % 2 ^ 32 ∧
      (totalEntries uam < 2 ^ 32 → sizeXmitAlm s satID = totalEntries uam)) := by
  refine ⟨?_, ?_, ?_, ?_⟩
  · intro hkey
    simp [sizeSubjAlm, mapFind_eq_none satID s.subjectAlmMap hkey]
  · intro oem hfind
    have h : sizeSubjAlm s satID = oem.length % 2 ^ 32 :=
      sizeSubjAlm_of_find s satID oem hfind
    exact ⟨h, fun hlt => by rw [h, Nat.mod_eq_of_lt hlt]⟩
  · intro hkey
    simp [sizeXmitAlm, mapFind_eq_none satID s.xmitAlmMap hkey]
  · intro uam hfind
    have h : sizeXmitAlm s satID = totalEntries uam % 2 ^ 32 :=
      sizeXmitAlm_of_find s satID uam hfind
    exact ⟨h, fun hlt => by rw [h, Nat.mod_eq_of_lt hlt]⟩

theorem size_one (s : OrbAlmStore) :
    size 1 s = totalEntries s.subjectAlmMap % unsignedRange := by
  simp only [size, countEntries_zero]
  simp

theorem countXmit_mod (c : Nat) (m : XmitAlmMap) :
    m.foldl (fun c i2 => countEntries c i2.2) (c % unsignedRange) =
      (c + totalXmitEntries m) % unsignedRange := by
  induction m generalizing c with
  | nil => simp [totalXmitEntries]
  | cons i rest ih =>
    have ht : totalXmitEntries (i :: rest) = totalEntries i.2 + totalXmitEntries rest := by
      simp [totalXmitEntries]
    rw [List.foldl_cons, countEntries_mod, ih, ht, Nat.add_assoc]

theorem size_two (s : OrbAlmStore) :
    size 2 s = totalXmitEntries s.xmitAlmMap % unsignedRange := by
  have h := countXmit_mod 0 s.xmitAlmMap
  rw [Nat.zero_mod, Nat.zero_add] at h
  simp only [size]
  simpa using h

theorem size_zero (s : OrbAlmStore) :
    size 0 s =
      (totalEntries s.subjectAlmMap + totalXmitEntries s.xmitAlmMap) % unsignedRange := by
  have h := countXmit_mod (totalEntries s.subjectAlmMap) s.xmitAlmMap
  simp only [size, countEntries_zero]
  simpa using h

theorem mapFind_of_mem {V : Type} (m : List (SatID × V)) (hkeys : keysStrictlyAscending m)
    (i : SatID × V) (hi : i ∈ m) : mapFind i.1 m = some i.2 := by
  induction m with
  | nil => cases hi
  | cons a rest ih =>
    have hk := List.pairwise_cons.1 hkeys
    rcases List.mem_cons.1 hi with rfl | hi
    · simp [mapFind]
    · have hlt : a.1 < i.1 := hk.1 i hi
      rw [mapFind, if_neg (Nat.lt_asymm hlt), if_neg (Nat.ne_of_gt hlt)]
      exact ih hk.2 hi

theorem sum_sizeSubjAlm (s : OrbAlmStore) (hkeys : keysStrictlyAscending s.subjectAlmMap) :
    s.subjectAlmMap.map (fun i => sizeSubjAlm s i.1) =
      (s.subjectAlmMap.map (fun i => i.2.length)).map (fun n => n % unsignedRange) := by
  rw [List.map_map]
  apply List.map_congr_left
  intro i hi
  exact sizeSubjAlm_of_find s i.1 i.2 (mapFind_of_mem _ hkeys i hi)

theorem sum_sizeXmitAlm (s : OrbAlmStore) (hkeys : keysStrictlyAscending s.xmitAlmMap) :
    s.xmitAlmMap.map (fun i => sizeXmitAlm s i.1) =
      (s.xmitAlmMap.map (fun i => totalEntries i.2)).map (fun n => n % unsignedRange) := by
  rw [List.map_map]
  apply List.map_congr_left
  intro i hi
  exact sizeXmitAlm_of_find s i.1 i.2 (mapFind_of_mem _ hkeys i hi)

theorem map_mod_of_sum_lt (l : List Nat) (h : l.sum < unsignedRange) :
    l.map (fun n => n % unsignedRange) = l := by
  induction l with
  | nil => rfl
  | cons a rest ih =>
    rw [List.sum_cons] at h
    rw [List.map_cons, Nat.mod_eq_of_lt (by omega), ih (by omega)]

/-- Counterexample to C20: with `2 ^ 31` records in the subject index and `2 ^ 31` in the
transmit index, `size(1)` and `size(2)` are `2 ^ 31` each and `size(0)` is 0, not their
sum. -/
theorem size_both_not_sum :
    size 1 (storeBoth (2 ^ 31)) = 2 ^ 31 ∧ size 2 (storeBoth (2 ^ 31)) = 2 ^ 31 ∧
    size 0 (storeBoth (2 ^ 31)) = 0 ∧
    size 0 (storeBoth (2 ^ 31)) ≠ size 1 (storeBoth (2 ^ 31)) + size 2 (storeBoth (2 ^ 31)) := by
  have hsub : ∀ n, totalEntries (storeBoth n).subjectAlmMap = n := by
    intro n
    simp [storeBoth, totalEntries, mapOfEpochs_length]
  have hxm : ∀ n, totalXmitEntries (storeBoth n).xmitAlmMap = n := by
    intro n
    simp [storeBoth, totalXmitEntries, totalEntries, mapOfEpochs_length]
  have h1 : size 1 (storeBoth (2 ^ 31)) = 2 ^ 31 := by
    rw [size_one, hsub]
    decide
  have h2 : size 2 (storeBoth (2 ^ 31)) = 2 ^ 31 := by
    rw [size_two, hxm]
    decide
  have h0 : size 0 (storeBoth (2 ^ 31)) = 0 := by
    rw [size_zero, hsub, hxm]
    decide
  refine ⟨h1, h2, h0, ?_⟩
  rw [h0, h1, h2]
  decide

/-- C20, amended: in a store whose satellite keys are distinct and ascending, `size(1)` is
the sum of `sizeSubjAlm(s)` over the subject keys reduced modulo `2 ^ 32`, `size(2)` is
the sum of `sizeXmitAlm(x)` over the transmitter keys reduced modulo `2 ^ 32`, and
`size(0)` is `size(1) + size(2)` reduced modulo `2 ^ 32`; when the two indexes hold fewer
than `2 ^ 32` records together, the three equalities hold without the reduction. -/
theorem size_by_scope (s : OrbAlmStore) (hsubj : keysStrictlyAscending s.subjectAlmMap)
    (hxmit : keysStrictlyAscending s.xmitAlmMap) :
    size 1 s = (s.subjectAlmMap.map (fun i => sizeSubjAlm s i.1)).sum % 2 ^ 32 ∧
    size 2 s = (s.xmitAlmMap.map (fun i => sizeXmitAlm s i.1)).sum % 2 ^ 32 ∧
    size 0 s = (size 1 s + size 2 s) % 2 ^ 32 ∧
    (totalEntries s.subjectAlmMap + totalXmitEntries s.xmitAlmMap < 2 ^ 32 →
      size 1 s = (s.subjectAlmMap.map (fun i => sizeSubjAlm s i.1)).sum ∧
      size 2 s = (s.xmitAlmMap.map (fun i => sizeXmitAlm s i.1)).sum ∧
      size 0 s = size 1 s + size 2 s) := by
  have hR : unsignedRange = 2 ^ 32 := rfl
  have e1 : size 1 s = (s.subjectAlmMap.map (fun i => sizeSubjAlm s i.1)).sum % 2 ^ 32 := by
    rw [size_one, sum_sizeSubjAlm s hsubj, hR, ← List.sum_nat_mod]
    rfl
  have e2 : size 2 s = (s.xmitAlmMap.map (fun i => sizeXmitAlm s i.1)).sum % 2 ^ 32 := by
    rw [size_two, sum_sizeXmitAlm s hxmit, hR, ← List.sum_nat_mod]
    rfl
  have e0 : size 0 s = (size 1 s + size 2 s) % 2 ^ 32 := by
    rw [size_zero, size_one, size_two, hR, ← Nat.add_mod]
  refine ⟨e1, e2, e0, ?_⟩
  intro hlt
  have hl1 : totalEntries s.subjectAlmMap < unsignedRange := by rw [hR]; omega
  have hl2 : totalXmitEntries s.xmitAlmMap < unsignedRange := by rw [hR]; omega
  refine ⟨?_, ?_, ?_⟩
  · rw [size_one, sum_sizeSubjAlm s hsubj, map_mod_of_sum_lt _ hl1, Nat.mod_eq_of_lt hl1]
    rfl
  · rw [size_two, sum_sizeXmitAlm s hxmit, map_mod_of_sum_lt _ hl2, Nat.mod_eq_of_lt hl2]
    rfl
  · rw [size_zero, size_one, size_two, Nat.mod_eq_of_lt hl1, Nat.mod_eq_of_lt hl2,
      Nat.mod_eq_of_lt (by rw [hR]; exact hlt)]

/-- Witness of C20, amended: on the store with three records in each index the sizes
are 3, 3 and 6. -/
theorem size_by_scope_witness :
    (size 1 storeSpan = (storeSpan.subjectAlmMap.map (fun i => sizeSubjAlm storeSpan i.1)).sum
        % 2 ^ 32 ∧
      size 2 storeSpan = (storeSpan.xmitAlmMap.map (fun i => sizeXmitAlm storeSpan i.1)).sum
        % 2 ^ 32 ∧
      size 0 storeSpan = (size 1 storeSpan + size 2 storeSpan) % 2 ^ 32 ∧
      (totalEntries storeSpan.subjectAlmMap + totalXmitEntries storeSpan.xmitAlmMap < 2 ^ 32 →
        size 1 storeSpan =
          (storeSpan.subjectAlmMap.map (fun i => sizeSubjAlm storeSpan i.1)).sum ∧
        size 2 storeSpan = (storeSpan.xmitAlmMap.map (fun i => sizeXmitAlm storeSpan i.1)).sum ∧
        size 0 storeSpan = size 1 storeSpan + size 2 storeSpan)) ∧
    size 1 storeSpan = 3 ∧ size 2 storeSpan = 3 ∧ size 0 storeSpan = 6 :=
  ⟨size_by_scope storeSpan (by simp [keysStrictlyAscending, storeSpan])
      (by simp [keysStrictlyAscending, storeSpan]),
   by decide, by decide, by decide⟩

/-! ## Invariants of reachable stores -/

theorem addOrbAlm_everySubMap (env : Collaborators) (P : OrbAlmMap → Prop) (hnil : P [])
    (hstep : ∀ (alm : OrbAlm) (oem : OrbAlmMap) (span : CommonTime × CommonTime),
      P oem → P (addOrbAlmToOrbAlmMap env alm oem span).2.1)
    (alm : OrbAlm) (xmitID subjID : SatID) (isXmitHealthy : Bool) (s : OrbAlmStore)
    (hinv : EverySubMap P s) :
    EverySubMap P (addOrbAlm env alm xmitID subjID isXmitHealthy s).2 := by
  have hget : ∀ (k : SatID) (m : SubjectAlmMap), (∀ i ∈ m, P i.2) →
      P ((mapFind k m).getD []) := by
    intro k m hm
    cases hf : mapFind k m with
    | none => exact hnil
    | some oem => exact hm _ (mapFind_some_mem k oem m hf)
  have h1 : EverySubMap P (addOrbAlmSubject env alm subjID isXmitHealthy s).2 := by
    cases isXmitHealthy with
    | false => exact hinv
    | true =>
      refine ⟨?_, hinv.2⟩
      intro i hi
      rcases mem_mapSet subjID _ s.subjectAlmMap i hi with rfl | hi
      · exact hstep alm _ _ (hget subjID s.subjectAlmMap hinv.1)
      · exact hinv.1 i hi
  show EverySubMap P (addOrbAlmXmit env alm xmitID subjID
    (addOrbAlmSubject env alm subjID isXmitHealthy s).2).2
  generalize (addOrbAlmSubject env alm subjID isXmitHealthy s).2 = s1 at h1
  refine ⟨h1.1, ?_⟩
  have huam : ∀ it2 ∈ (mapFind xmitID s1.xmitAlmMap).getD [], P it2.2 := by
    cases hf : mapFind xmitID s1.xmitAlmMap with
    | none => simp
    | some uam => exact h1.2 _ (mapFind_some_mem xmitID uam _ hf)
  intro i hi it2 hit2
  rcases mem_mapSet xmitID _ s1.xmitAlmMap i hi with rfl | hi
  · rcases mem_mapSet subjID _ _ it2 hit2 with rfl | hit2
    · exact hstep alm _ _ (hget subjID _ huam)
    · exact huam it2 hit2
  · exact h1.2 i hi it2 hit2

theorem edit_everySubMap (P : OrbAlmMap → Prop)
    (hsub : ∀ m m' : OrbAlmMap, m'.Sublist m → P m → P m')
    (tmin tmax : CommonTime) (s : OrbAlmStore) (hinv : EverySubMap P s) :
    EverySubMap P (edit tmin tmax s) := by
  refine ⟨?_, ?_⟩
  · intro i hi
    obtain ⟨j, hj, rfl⟩ := List.mem_map.1 hi
    exact hsub _ _ (editOrbAlmMap_sublist tmin tmax j.2) (hinv.1 j hj)
  · intro i hi it2 hit2
    obtain ⟨j, hj, rfl⟩ := List.mem_map.1 hi
    obtain ⟨j2, hj2, rfl⟩ := List.mem_map.1 hit2
    exact hsub _ _ (editOrbAlmMap_sublist tmin tmax j2.2) (hinv.2 j hj j2 hj2)

theorem reachable_everySubMap (env : Collaborators) (P : OrbAlmMap → Prop) (hnil : P [])
    (hstep : ∀ (alm : OrbAlm) (oem : OrbAlmMap) (span : CommonTime × CommonTime),
      P oem → P (addOrbAlmToOrbAlmMap env alm oem span).2.1)
    (hsub : ∀ m m' : OrbAlmMap, m'.Sublist m → P m → P m')
    (s : OrbAlmStore) (hr : Reachable env s) : EverySubMap P s := by
  induction hr with
  | init i f => exact ⟨by simp [emptyStore], by simp [emptyStore]⟩
  | addOrbAlm s alm x sj h _ ih => exact addOrbAlm_everySubMap env P hnil hstep alm x sj h s ih
  | edit s tmin tmax _ ih => exact edit_everySubMap P hsub tmin tmax s ih
  | clear s _ _ => exact ⟨by simp [clear], by simp [clear]⟩

theorem firstSameData_sublist (env : Collaborators) (alm : OrbAlm) (oem : OrbAlmMap)
    (oe : OrbAlm) (erased : OrbAlmMap) (h : firstSameData env alm oem = some (oe, erased)) :
    erased.Sublist oem := by
  obtain ⟨_, pre, post, hsplit, her, _⟩ := firstSameData_some env alm oem oe erased h
  rw [hsplit, her]
  exact List.Sublist.append_left (List.sublist_cons_self _ _) pre

theorem multimapInsert_keysAscending (k : CommonTime) (v : OrbAlm) (m : OrbAlmMap)
    (hord : keysAscending m) : keysAscending (multimapInsert k v m) := by
  induction m with
  | nil => exact List.pairwise_singleton _ _
  | cons e rest ih =>
    have hord2 := List.pairwise_cons.1 hord
    by_cases h : e.1 ≤ k
    · rw [multimapInsert, if_pos h]
      refine List.pairwise_cons.2 ⟨?_, ih hord2.2⟩
      intro a ha
      rcases List.mem_cons.1 ((multimapInsert_perm k v rest).subset ha) with rfl | ha
      · exact h
      · exact hord2.1 a ha
    · rw [multimapInsert, if_neg h]
      refine List.pairwise_cons.2 ⟨?_, hord⟩
      intro a ha
      have hk : k ≤ e.1 := le_of_lt (lt_of_not_ge h)
      rcases List.mem_cons.1 ha with rfl | ha
      · exact hk
      · exact le_trans hk (hord2.1 a ha)

theorem addOrbAlmToOrbAlmMap_keysAscending (env : Collaborators) (alm : OrbAlm)
    (oem : OrbAlmMap) (span : CommonTime × CommonTime) (hord : keysAscending oem) :
    keysAscending (addOrbAlmToOrbAlmMap env alm oem span).2.1 := by
  rcases addOrbAlmToOrbAlmMap_cases env alm oem span with
    ⟨oe, er, _, _, hr⟩ | ⟨oe, er, hf, _, hr⟩ | ⟨_, hr⟩
  · rw [hr]; exact hord
  · rw [hr]
    exact multimapInsert_keysAscending _ _ _
      (List.Pairwise.sublist (firstSameData_sublist env alm oem oe er hf) hord)
  · rw [hr]
    exact multimapInsert_keysAscending _ _ _ hord

/-- C23: in every store reachable from the empty store by `addOrbAlm`, `edit` and `clear`
the entries of every sub-map of both indexes are in non-decreasing order of their key;
`addOrbAlmToOrbAlmMap` (insertion and replacement alike) and `edit` on a sub-map keep a
map in that order. -/
theorem reachable_keysAscending (env : Collaborators) (s : OrbAlmStore)
    (hr : Reachable env s) :
    EverySubMap keysAscending s ∧
    (∀ (alm : OrbAlm) (oem : OrbAlmMap) (span : CommonTime × CommonTime),
      keysAscending oem → keysAscending (addOrbAlmToOrbAlmMap env alm oem span).2.1) ∧
    (∀ (tmin tmax : CommonTime) (eMap : OrbAlmMap),
      keysAscending eMap → keysAscending (editOrbAlmMap tmin tmax eMap)) :=
  ⟨reachable_everySubMap env keysAscending List.Pairwise.nil
      (addOrbAlmToOrbAlmMap_keysAscending env)
      (fun _ _ hs hm => List.Pairwise.sublist hs hm) s hr,
   addOrbAlmToOrbAlmMap_keysAscending env,
   fun tmin tmax eMap h => List.Pairwise.sublist (editOrbAlmMap_sublist tmin tmax eMap) h⟩

theorem reachable_addOrbAlmCalls (env : Collaborators) (calls : List AddCall)
    (s : OrbAlmStore) (hr : Reachable env s) : Reachable env (addOrbAlmCalls env calls s) := by
  induction calls generalizing s with
  | nil => exact hr
  | cons c rest ih =>
    exact ih _ (Reachable.addOrbAlm s c.alm c.xmitID c.subjID c.isXmitHealthy hr)

/-- Witness of C23: after calls with the epochs 3, 1, 3, 2 and an `edit(1, 3)` the
sub-map of subject 1 lists the epochs 1, 3 and the one of transmitter 2 the epochs
1, 2, 3. -/
theorem reachable_keysAscending_witness :
    Reachable sameParams (edit 1 3 (addOrbAlmCalls sameParams callsMixed (emptyStore 0 0))) ∧
    EverySubMap keysAscending (edit 1 3 (addOrbAlmCalls sameParams callsMixed (emptyStore 0 0))) ∧
    (edit 1 3 (addOrbAlmCalls sameParams callsMixed (emptyStore 0 0))).subjectAlmMap =
      [(1, [(1, ⟨1, 10, true, 0⟩), (3, ⟨3, 25, true, 0⟩)])] ∧
    (edit 1 3 (addOrbAlmCalls sameParams callsMixed (emptyStore 0 0))).xmitAlmMap =
      [(2, [(1, [(1, ⟨1, 10, true, 0⟩), (2, ⟨2, 20, true, 0⟩), (3, ⟨3, 25, true, 0⟩)])])] :=
  ⟨Reachable.edit _ 1 3 (reachable_addOrbAlmCalls sameParams callsMixed _ (Reachable.init 0 0)),
   (reachable_keysAscending sameParams _
      (Reachable.edit _ 1 3
        (reachable_addOrbAlmCalls sameParams callsMixed _ (Reachable.init 0 0)))).1,
   by decide, by decide⟩

theorem addOrbAlmToOrbAlmMap_mem (env : Collaborators) (alm : OrbAlm) (oem : OrbAlmMap)
    (span : CommonTime × CommonTime) (e : CommonTime × OrbAlm)
    (he : e ∈ (addOrbAlmToOrbAlmMap env alm oem span).2.1) :
    e = (alm.ctToe, alm) ∨ e ∈ oem := by
  rcases addOrbAlmToOrbAlmMap_cases env alm oem span with
    ⟨oe, er, _, _, hr⟩ | ⟨oe, er, hf, _, hr⟩ | ⟨_, hr⟩
  · rw [hr] at he
    exact Or.inr he
  · rw [hr] at he
    rcases List.mem_cons.1 ((multimapInsert_perm _ _ _).subset he) with h | h
    · exact Or.inl h
    · exact Or.inr ((firstSameData_sublist env alm oem oe er hf).subset h)
  · rw [hr] at he
    rcases List.mem_cons.1 ((multimapInsert_perm _ _ _).subset he) with h | h
    · exact Or.inl h
    · exact Or.inr h

theorem addOrbAlmToOrbAlmMap_keyedByEpoch (env : Collaborators) (alm : OrbAlm)
    (oem : OrbAlmMap) (span : CommonTime × CommonTime) (hkey : keyedByEpoch oem) :
    keyedByEpoch (addOrbAlmToOrbAlmMap env alm oem span).2.1 := by
  intro e he
  rcases addOrbAlmToOrbAlmMap_mem env alm oem span e he with rfl | h
  · rfl
  · exact hkey e h

theorem reachable_keyedByEpoch_lemma (env : Collaborators) (s : OrbAlmStore)
    (hr : Reachable env s) : EverySubMap keyedByEpoch s :=
  reachable_everySubMap env keyedByEpoch (fun _ h => by cases h)
    (addOrbAlmToOrbAlmMap_keyedByEpoch env)
    (fun _ _ hs hm e he => hm e (hs.subset he)) s hr

/-- Counterexample to C21: after two `addOrbAlm` calls with records of epoch 5 whose data
differ, the sub-map of subject 1 holds two records of epoch time 5. -/
theorem two_records_of_one_epoch :
    mapFind 1 (addOrbAlmCalls sameParams callsTwoData (emptyStore 0 0)).subjectAlmMap =
      some [(5, ⟨5, 10, true, 7⟩), (5, ⟨5, 10, true, 8⟩)] ∧
    (((mapFind 1 (addOrbAlmCalls sameParams callsTwoData (emptyStore 0 0)).subjectAlmMap).getD
      []).filter (fun e => decide (e.2.ctToe = 5))).length = 2 ∧
    ¬ (((mapFind 1 (addOrbAlmCalls sameParams callsTwoData (emptyStore 0 0)).subjectAlmMap).getD
      []).filter (fun e => decide (e.2.ctToe = 5))).length ≤ 1 := by
  refine ⟨by decide, by decide, by decide⟩

/-- C21, amended: with `isSameData` an equivalence relation, in every store reachable from
the empty store by `addOrbAlm` calls (also with `edit` and `clear` among them) no sub-map
of either index holds two entries whose records have the same epoch time `ctToe` and the
same data; records of one epoch whose data differ are kept side by side. -/
theorem reachable_oneRecordPerEpochAndData (env : Collaborators)
    (heq : IsSameDataEquivalence env) (s : OrbAlmStore) (hr : Reachable env s) :
    EverySubMap (oneRecordPerEpochAndData env) s := by
  have h1 := reachable_noSameDataTwice env heq s hr
  have h2 := reachable_keyedByEpoch_lemma env s hr
  have hconv : ∀ m : OrbAlmMap, noSameDataTwice env m → keyedByEpoch m →
      oneRecordPerEpochAndData env m := by
    intro m hm hk
    refine List.Pairwise.imp_of_mem ?_ hm
    intro a b ha hb hab hepoch
    exact hab (by rw [hk a ha, hk b hb, hepoch])
  exact ⟨fun i hi => hconv i.2 (h1.1 i hi) (h2.1 i hi),
    fun i hi it2 hit2 => hconv it2.2 (h1.2 i hi it2 hit2) (h2.2 i hi it2 hit2)⟩

/-- Witness of C21, amended: of the two same-data records of epoch 3 one is kept. -/
theorem reachable_oneRecordPerEpochAndData_witness :
    IsSameDataEquivalence sameParams ∧
    Reachable sameParams (addOrbAlmCalls sameParams callsMixed (emptyStore 0 0)) ∧
    EverySubMap (oneRecordPerEpochAndData sameParams)
      (addOrbAlmCalls sameParams callsMixed (emptyStore 0 0)) ∧
    (addOrbAlmCalls sameParams callsMixed (emptyStore 0 0)).subjectAlmMap =
      [(1, [(1, ⟨1, 10, true, 0⟩), (3, ⟨3, 25, true, 0⟩)])] :=
  ⟨sameParams_equivalence,
   reachable_addOrbAlmCalls sameParams callsMixed _ (Reachable.init 0 0),
   reachable_oneRecordPerEpochAndData sameParams sameParams_equivalence _
     (reachable_addOrbAlmCalls sameParams callsMixed _ (Reachable.init 0 0)),
   by decide⟩

/-! ## The scan of `findOrbAlm` without an order on `beginValid` -/

theorem findOrbAlmLoop_index (t : CommonTime) (p : OrbAlm) (rest : OrbAlmMap) :
    findOrbAlmLoop t rest false (some p) =
      some (match rest.findIdx? (fun e => decide (e.2.beginValid ≥ t)) with
        | none => (rest.getLast?.map Prod.snd).getD p
        | some 0 => p
        | some (k + 1) => (rest[k]?.map Prod.snd).getD p) := by
  induction rest generalizing p with
  | nil => rfl
  | cons e r ih =>
    by_cases h : e.2.beginValid ≥ t
    · simp [findOrbAlmLoop, h]
    · have hstep : findOrbAlmLoop t (e :: r) false (some p) =
          findOrbAlmLoop t r false (some e.2) := by
        rw [findOrbAlmLoop]
        simp [h]
      rw [hstep, ih e.2]
      have hidx : (e :: r).findIdx? (fun e => decide (e.2.beginValid ≥ t)) =
          (r.findIdx? (fun e => decide (e.2.beginValid ≥ t))).map (fun i => i + 1) := by
        rw [List.findIdx?_cons, if_neg (by simpa using h), List.findIdx?_succ]
      rw [hidx]
      cases hr : r.findIdx? (fun e => decide (e.2.beginValid ≥ t)) with
      | none =>
        simp only [Option.map_none']
        rw [List.getLast?_cons]
        cases r.getLast? <;> rfl
      | some j =>
        cases j with
        | zero => simp
        | succ k =>
          simp only [Option.map_some', List.getElem?_cons_succ]
          have hlt : k < r.length := by
            have := List.findIdx?_eq_some_iff_findIdx_eq.1 hr
            omega
          simp [List.getElem?_eq_getElem hlt]

/-- C28: for a sub-map with at least two entries and any `t`, with no assumption on the
order of `beginValid`, `findOrbAlm(subjID, t)` returns the record named by the least index
`k` of an entry with `beginValid >= t`: the first entry when `k` is the first index, the
entry before `k` otherwise, the last entry when there is no such index. -/
theorem findOrbAlm_index_reading (s : OrbAlmStore) (subjID : SatID) (t : CommonTime)
    (em : OrbAlmMap) (hfind : mapFind subjID s.subjectAlmMap = some em)
    (hn : 2 ≤ em.length) :
    ∃ r, findOrbAlm s subjID t = .ok r ∧ beforeFirstLate t em = some r := by
  cases em with
  | nil => simp at hn
  | cons e rest =>
    cases rest with
    | nil => simp at hn
    | cons e2 rest =>
      by_cases h : e.2.beginValid ≥ t
      · refine ⟨e.2, by simp [findOrbAlm, hfind, findOrbAlmLoop, h], ?_⟩
        simp [beforeFirstLate, h]
      · have hl : findOrbAlmLoop t (e :: e2 :: rest) true none =
            findOrbAlmLoop t (e2 :: rest) false (some e.2) := by
          rw [findOrbAlmLoop]; simp [h]
        have hidx : (e :: e2 :: rest).findIdx? (fun e => decide (e.2.beginValid ≥ t)) =
            ((e2 :: rest).findIdx? (fun e => decide (e.2.beginValid ≥ t))).map
              (fun i => i + 1) := by
          rw [List.findIdx?_cons, if_neg (by simpa using h), List.findIdx?_succ]
        rw [findOrbAlmLoop_index] at hl
        generalize hrv : (match (e2 :: rest).findIdx? (fun e => decide (e.2.beginValid ≥ t)) with
          | none => ((e2 :: rest).getLast?.map Prod.snd).getD e.2
          | some 0 => e.2
          | some (k + 1) => ((e2 :: rest)[k]?.map Prod.snd).getD e.2) = r at hl
        refine ⟨r, by simp only [findOrbAlm, hfind, hl], ?_⟩
        rw [← hrv, beforeFirstLate, hidx]
        cases hr : (e2 :: rest).findIdx? (fun e => decide (e.2.beginValid ≥ t)) with
        | none =>
          simp only [Option.map_none']
          rw [List.getLast?_cons]
          cases (e2 :: rest).getLast? <;> rfl
        | some j =>
          cases j with
          | zero => simp
          | succ k =>
            simp only [Option.map_some', List.getElem?_cons_succ]
            have hlt : k < (e2 :: rest).length := by
              have := List.findIdx?_eq_some_iff_findIdx_eq.1 hr
              omega
            simp [List.getElem?_eq_getElem hlt]

/-- Witness of C28: with `beginValid` 10, 30, 20 along the epochs 1, 2, 3 the least late
index at `t = 25` is the second entry, so the first record is returned; at `t = 35` there
is none and the last record is returned. -/
theorem findOrbAlm_index_reading_witness :
    (∃ r, findOrbAlm (addOrbAlmCalls sameParams callsOutOfOrder (emptyStore 0 0)) 1 25 = .ok r ∧
      beforeFirstLate 25
        [(1, ⟨1, 10, true, 0⟩), (2, ⟨2, 30, true, 0⟩), (3, ⟨3, 20, true, 0⟩)] = some r) ∧
    findOrbAlm (addOrbAlmCalls sameParams callsOutOfOrder (emptyStore 0 0)) 1 25 =
      .ok ⟨1, 10, true, 0⟩ ∧
    findOrbAlm (addOrbAlmCalls sameParams callsOutOfOrder (emptyStore 0 0)) 1 35 =
      .ok ⟨3, 20, true, 0⟩ ∧
    findOrbAlm (addOrbAlmCalls sameParams callsOutOfOrder (emptyStore 0 0)) 1 30 =
      .ok ⟨1, 10, true, 0⟩ :=
  ⟨findOrbAlm_index_reading (addOrbAlmCalls sameParams callsOutOfOrder (emptyStore 0 0)) 1 25
      [(1, ⟨1, 10, true, 0⟩), (2, ⟨2, 30, true, 0⟩), (3, ⟨3, 20, true, 0⟩)] rfl (by decide),
   rfl, rfl, rfl⟩

/-- C29: there are a store built by `addOrbAlm` calls, a subject and a time `t` for which
`findOrbAlm` returns a record `r` although the same sub-map holds a record `r'` with
`r.beginValid < r'.beginValid < t`: with the epochs 1, 2, 3, the `beginValid` 10, 30, 20
and `t = 25` the record with `beginValid = 10` is returned. -/
theorem findOrbAlm_out_of_order :
    ∃ (calls : List AddCall) (subjID : SatID) (t : CommonTime) (r r' : OrbAlm),
      findOrbAlm (addOrbAlmCalls sameParams calls (emptyStore 0 0)) subjID t = .ok r ∧
      r.beginValid = 10 ∧
      (∃ k, (k, r') ∈
        (mapFind subjID (addOrbAlmCalls sameParams calls (emptyStore 0 0)).subjectAlmMap).getD
          []) ∧
      r.beginValid < r'.beginValid ∧ r'.beginValid < t :=
  ⟨callsOutOfOrder, 1, 25, ⟨1, 10, true, 0⟩, ⟨3, 20, true, 0⟩, rfl, rfl,
    ⟨3, by decide⟩, by decide, by decide⟩

/-! ## `edit` and the satellite keys -/

theorem mapFind_map_values {V W : Type} (f : V → W) (k : SatID) (m : List (SatID × V)) :
    mapFind k (m.map (fun i => (i.1, f i.2))) = (mapFind k m).map f := by
  induction m with
  | nil => rfl
  | cons e rest ih =>
    by_cases h1 : k < e.1
    · simp [mapFind, h1]
    · by_cases h2 : k = e.1
      · simp [mapFind, h1, h2]
      · simp only [List.map_cons, mapFind, h1, h2, if_false, ih]

theorem editOrbAlmMap_eq_nil (tmin tmax : CommonTime) (eMap : OrbAlmMap)
    (hout : ∀ e ∈ eMap, e.1 < tmin ∨ tmax < e.1) : editOrbAlmMap tmin tmax eMap = [] := by
  rw [editOrbAlmMap]
  cases hd : eMap.dropWhile (fun emi => decide (emi.1 < tmin)) with
  | nil => rfl
  | cons a rest =>
    have hna : ¬ a.1 < tmin := by
      have := List.head?_dropWhile_not (fun emi : CommonTime × OrbAlm => decide (emi.1 < tmin)) eMap
      rw [hd] at this
      simpa using this
    have hmem : a ∈ eMap := (List.dropWhile_sublist _).subset (by rw [hd]; exact List.mem_cons_self _ _)
    have hgt : tmax < a.1 := (hout a hmem).resolve_left hna
    simp [List.takeWhile_cons, not_le.2 hgt]

/-- C30: `edit(tmin, tmax)` leaves the subject keys of the subject index and the
transmitter and subject keys of the transmit index as they were; every subject key is
found afterwards with its pruned sub-map; and a subject all of whose records were out of
range is found with an empty sub-map, for which `sizeSubjAlm` is 0 and `getOrbAlmMap`
returns the empty map. -/
theorem edit_keeps_keys (tmin tmax : CommonTime) (s : OrbAlmStore) :
    (edit tmin tmax s).subjectAlmMap.map Prod.fst = s.subjectAlmMap.map Prod.fst ∧
    (edit tmin tmax s).xmitAlmMap.map (fun i => (i.1, i.2.map Prod.fst)) =
      s.xmitAlmMap.map (fun i => (i.1, i.2.map Prod.fst)) ∧
    (∀ subjID, mapFind subjID (edit tmin tmax s).subjectAlmMap =
      (mapFind subjID s.subjectAlmMap).map (editOrbAlmMap tmin tmax)) ∧
    (∀ subjID em, mapFind subjID s.subjectAlmMap = some em →
      (∀ e ∈ em, e.1 < tmin ∨ tmax < e.1) →
      mapFind subjID (edit tmin tmax s).subjectAlmMap = some [] ∧
      sizeSubjAlm (edit tmin tmax s) subjID = 0 ∧
      getOrbAlmMap (edit tmin tmax s) subjID = .ok []) := by
  have hfind : ∀ subjID, mapFind subjID (edit tmin tmax s).subjectAlmMap =
      (mapFind subjID s.subjectAlmMap).map (editOrbAlmMap tmin tmax) :=
    fun subjID => mapFind_map_values (editOrbAlmMap tmin tmax) subjID s.subjectAlmMap
  refine ⟨?_, ?_, hfind, ?_⟩
  · simp [edit, List.map_map, Function.comp_def]
  · simp [edit, List.map_map, Function.comp_def]
  · intro subjID em hem hout
    have h1 : mapFind subjID (edit tmin tmax s).subjectAlmMap = some [] := by
      rw [hfind, hem, Option.map_some', editOrbAlmMap_eq_nil tmin tmax em hout]
    refine ⟨h1, ?_, ?_⟩
    · simp [sizeSubjAlm, h1]
    · simp [getOrbAlmMap, validSatSystem, h1]

/-! ## The sub-maps after a sequence of `addOrbAlm` calls -/

theorem addOrbAlm_subjectSubMap (env : Collaborators) (alm : OrbAlm) (xmitID subjID : SatID)
    (isXmitHealthy : Bool) (s : OrbAlmStore) (k : SatID) (span : CommonTime × CommonTime) :
    (mapFind k (addOrbAlm env alm xmitID subjID isXmitHealthy s).2.subjectAlmMap).getD [] =
      if isXmitHealthy = true ∧ subjID = k then
        (addOrbAlmToOrbAlmMap env alm ((mapFind k s.subjectAlmMap).getD []) span).2.1
      else (mapFind k s.subjectAlmMap).getD [] := by
  have hs : (addOrbAlm env alm xmitID subjID isXmitHealthy s).2.subjectAlmMap =
      (addOrbAlmSubject env alm subjID isXmitHealthy s).2.subjectAlmMap := rfl
  rw [hs]
  cases isXmitHealthy with
  | false => simp [addOrbAlmSubject]
  | true =>
    show (mapFind k (mapSet subjID _ s.subjectAlmMap)).getD [] = _
    by_cases hk : subjID = k
    · subst hk
      rw [mapFind_mapSet_self, if_pos ⟨rfl, rfl⟩, Option.getD_some,
        (addOrbAlmToOrbAlmMap_span env alm _ _ span).2]
    · rw [mapFind_mapSet_ne subjID k _ _ (Ne.symm hk), if_neg (fun h => hk h.2)]

theorem addOrbAlm_xmitSubMap (env : Collaborators) (alm : OrbAlm) (xmitID subjID : SatID)
    (isXmitHealthy : Bool) (s : OrbAlmStore) (x k : SatID) (span : CommonTime × CommonTime) :
    (mapFind k ((mapFind x
        (addOrbAlm env alm xmitID subjID isXmitHealthy s).2.xmitAlmMap).getD [])).getD [] =
      if xmitID = x ∧ subjID = k then
        (addOrbAlmToOrbAlmMap env alm
          ((mapFind k ((mapFind x s.xmitAlmMap).getD [])).getD []) span).2.1
      else (mapFind k ((mapFind x s.xmitAlmMap).getD [])).getD [] := by
  have hx : (addOrbAlm env alm xmitID subjID isXmitHealthy s).2.xmitAlmMap =
      mapSet xmitID (mapSet subjID (addOrbAlmToOrbAlmMap env alm
        ((mapFind subjID ((mapFind xmitID s.xmitAlmMap).getD [])).getD [])
        ((addOrbAlmSubject env alm subjID isXmitHealthy s).2.initialTime,
         (addOrbAlmSubject env alm subjID isXmitHealthy s).2.finalTime)).2.1
        ((mapFind xmitID s.xmitAlmMap).getD [])) s.xmitAlmMap := by
    show (addOrbAlmXmit env alm xmitID subjID
      (addOrbAlmSubject env alm subjID isXmitHealthy s).2).2.xmitAlmMap = _
    simp only [addOrbAlmXmit, addOrbAlmSubject_xmit]
  rw [hx]
  by_cases hxe : xmitID = x
  · subst hxe
    rw [mapFind_mapSet_self, Option.getD_some]
    by_cases hk : subjID = k
    · subst hk
      rw [mapFind_mapSet_self, if_pos ⟨rfl, rfl⟩, Option.getD_some,
        (addOrbAlmToOrbAlmMap_span env alm _ _ span).2]
    · rw [mapFind_mapSet_ne subjID k _ _ (Ne.symm hk), if_neg (fun h => hk h.2)]
  · rw [mapFind_mapSet_ne xmitID x _ _ (Ne.symm hxe), if_neg (fun h => hxe h.1)]

theorem addOrbAlmCalls_subjectSubMap (env : Collaborators) (calls : List AddCall)
    (s : OrbAlmStore) (k : SatID) :
    (mapFind k (addOrbAlmCalls env calls s).subjectAlmMap).getD [] =
      addAllToMap env (addedToSubject calls k) ((mapFind k s.subjectAlmMap).getD []) := by
  induction calls generalizing s with
  | nil => rfl
  | cons c rest ih =>
    have hstep : addOrbAlmCalls env (c :: rest) s =
        addOrbAlmCalls env rest (addOrbAlm env c.alm c.xmitID c.subjID c.isXmitHealthy s).2 := rfl
    rw [hstep, ih, addOrbAlm_subjectSubMap env c.alm c.xmitID c.subjID c.isXmitHealthy s k (0, 0)]
    by_cases hc : c.isXmitHealthy = true ∧ c.subjID = k
    · have hf : addedToSubject (c :: rest) k = c.alm :: addedToSubject rest k := by
        simp [addedToSubject, List.filter_cons, hc.1, hc.2]
      rw [if_pos hc, hf]
      rfl
    · have hf : addedToSubject (c :: rest) k = addedToSubject rest k := by
        have : (c.isXmitHealthy && decide (c.subjID = k)) = false := by
          cases hh : c.isXmitHealthy with
          | false => rfl
          | true =>
            have hne : ¬ c.subjID = k := fun h => hc ⟨hh, h⟩
            simp [hne]
        simp [addedToSubject, List.filter_cons, this]
      rw [if_neg hc, hf]

theorem addOrbAlmCalls_xmitSubMap (env : Collaborators) (calls : List AddCall)
    (s : OrbAlmStore) (x k : SatID) :
    (mapFind k ((mapFind x (addOrbAlmCalls env calls s).xmitAlmMap).getD [])).getD [] =
      addAllToMap env (addedToXmit calls x k)
        ((mapFind k ((mapFind x s.xmitAlmMap).getD [])).getD []) := by
  induction calls generalizing s with
  | nil => rfl
  | cons c rest ih =>
    have hstep : addOrbAlmCalls env (c :: rest) s =
        addOrbAlmCalls env rest (addOrbAlm env c.alm c.xmitID c.subjID c.isXmitHealthy s).2 := rfl
    rw [hstep, ih, addOrbAlm_xmitSubMap env c.alm c.xmitID c.subjID c.isXmitHealthy s x k (0, 0)]
    by_cases hc : c.xmitID = x ∧ c.subjID = k
    · have hf : addedToXmit (c :: rest) x k = c.alm :: addedToXmit rest x k := by
        simp [addedToXmit, List.filter_cons, hc.1, hc.2]
      rw [if_pos hc, hf]
      rfl
    · have hf : addedToXmit (c :: rest) x k = addedToXmit rest x k := by
        have : (decide (c.xmitID = x) && decide (c.subjID = k)) = false := by
          by_cases h1 : c.xmitID = x
          · have hne : ¬ c.subjID = k := fun h => hc ⟨h1, h⟩
            simp [hne]
          · simp [h1]
        simp [addedToXmit, List.filter_cons, this]
      rw [if_neg hc, hf]

/-- In a map without same-data duplicates two entries of one key with the same data are
the same entry. -/
theorem noSameDataTwice_unique (env : Collaborators) (m : OrbAlmMap)
    (hinv : noSameDataTwice env m) (k : CommonTime) (e1 e2 : OrbAlm)
    (h1 : (k, e1) ∈ m) (h2 : (k, e2) ∈ m) (hs : env.isSameData e1 e2 = true) : e1 = e2 := by
  by_contra hne
  have hsym : Symmetric (fun a b : CommonTime × OrbAlm =>
      a.1 = b.1 → env.isSameData a.2 b.2 = false ∧ env.isSameData b.2 a.2 = false) :=
    fun _ _ hxy hk => (hxy hk.symm).symm
  have hR := List.Pairwise.forall hsym hinv h1 h2
    (fun h => hne (congrArg Prod.snd h))
  have := (hR rfl).1
  rw [hs] at this
  cases this

/-- After `addOrbAlmToOrbAlmMap` the map holds, under the epoch of the new record, an entry
with its data whose `beginValid` is not later. -/
theorem addOrbAlmToOrbAlmMap_representative (env : Collaborators)
    (heq : IsSameDataEquivalence env) (alm : OrbAlm) (oem : OrbAlmMap)
    (span : CommonTime × CommonTime) :
    ∃ e, (alm.ctToe, e) ∈ (addOrbAlmToOrbAlmMap env alm oem span).2.1 ∧
      env.isSameData e alm = true ∧ e.beginValid ≤ alm.beginValid := by
  have hself : ∀ m : OrbAlmMap, (alm.ctToe, alm) ∈ multimapInsert alm.ctToe alm m :=
    fun m => (multimapInsert_perm alm.ctToe alm m).symm.subset (List.mem_cons_self _ _)
  rcases addOrbAlmToOrbAlmMap_cases env alm oem span with
    ⟨oe, er, hf, hle, hr⟩ | ⟨oe, er, _, _, hr⟩ | ⟨_, hr⟩
  · rw [hr]
    obtain ⟨hs, pre, post, hsplit, _, _⟩ := firstSameData_some env alm oem oe er hf
    exact ⟨oe, by rw [hsplit]; simp, heq.2.1 alm oe hs, hle⟩
  · rw [hr]
    exact ⟨alm, hself er, heq.1 alm, le_refl _⟩
  · rw [hr]
    exact ⟨alm, hself oem, heq.1 alm, le_refl _⟩

/-- An entry of the map before `addOrbAlmToOrbAlmMap` is still there afterwards, or it had
the epoch and data of the new record and a later `beginValid`. -/
theorem addOrbAlmToOrbAlmMap_survives (env : Collaborators) (alm : OrbAlm) (oem : OrbAlmMap)
    (span : CommonTime × CommonTime) (x : CommonTime × OrbAlm) (hx : x ∈ oem) :
    x ∈ (addOrbAlmToOrbAlmMap env alm oem span).2.1 ∨
    (x.1 = alm.ctToe ∧ env.isSameData alm x.2 = true ∧ alm.beginValid < x.2.beginValid) := by
  rcases addOrbAlmToOrbAlmMap_cases env alm oem span with
    ⟨oe, er, _, _, hr⟩ | ⟨oe, er, hf, hlt, hr⟩ | ⟨_, hr⟩
  · rw [hr]; exact Or.inl hx
  · rw [hr]
    rcases List.mem_cons.1 ((firstSameData_perm env alm oem oe er hf).subset hx) with h | h
    · right
      rw [h]
      exact ⟨rfl, (firstSameData_some env alm oem oe er hf).1, hlt⟩
    · left
      exact (multimapInsert_perm _ _ _).symm.subset (List.mem_cons_of_mem _ h)
  · rw [hr]
    left
    exact (multimapInsert_perm _ _ _).symm.subset (List.mem_cons_of_mem _ hx)

/-- The invariant of a sub-map built from the records `rs`: no same-data duplicates, every
entry is one of the records under its own epoch, and every record has an entry with its
epoch and data that was not received later. -/
theorem addAllToMap_invariant (env : Collaborators) (heq : IsSameDataEquivalence env)
    (rs : List OrbAlm) :
    noSameDataTwice env (addAllToMap env rs []) ∧
    (∀ e ∈ addAllToMap env rs [], e.1 = e.2.ctToe ∧ e.2 ∈ rs) ∧
    (∀ r ∈ rs, ∃ e, (r.ctToe, e) ∈ addAllToMap env rs [] ∧ env.isSameData e r = true ∧
      e.beginValid ≤ r.beginValid) := by
  induction rs using List.reverseRecOn with
  | nil => exact ⟨List.Pairwise.nil, by simp [addAllToMap], by simp⟩
  | append_singleton rs alm ih =>
    obtain ⟨h1, h2, h3⟩ := ih
    have hfold : addAllToMap env (rs ++ [alm]) [] =
        (addOrbAlmToOrbAlmMap env alm (addAllToMap env rs []) (0, 0)).2.1 := by
      simp [addAllToMap, List.foldl_append]
    rw [hfold]
    obtain ⟨ea, hea, hsa, hba⟩ :=
      addOrbAlmToOrbAlmMap_representative env heq alm (addAllToMap env rs []) (0, 0)
    refine ⟨addOrbAlmToOrbAlmMap_noSameDataTwice env heq alm _ _ h1, ?_, ?_⟩
    · intro e he
      rcases addOrbAlmToOrbAlmMap_mem env alm _ _ e he with rfl | h
      · exact ⟨rfl, by simp⟩
      · exact ⟨(h2 e h).1, List.mem_append_left _ (h2 e h).2⟩
    · intro r hr
      rcases List.mem_append.1 hr with hr | hr
      · obtain ⟨e0, he0, hs0, hb0⟩ := h3 r hr
        rcases addOrbAlmToOrbAlmMap_survives env alm _ (0, 0) _ he0 with h | ⟨hk, hs, hlt⟩
        · exact ⟨e0, h, hs0, hb0⟩
        · have hk' : r.ctToe = alm.ctToe := hk
          refine ⟨ea, by rw [hk']; exact hea, ?_, ?_⟩
          · exact heq.2.2 ea alm r hsa (heq.2.2 alm e0 r hs hs0)
          · exact le_trans hba (le_trans (le_of_lt hlt) hb0)
      · have hra : r = alm := by simpa using hr
        rw [hra]
        exact ⟨ea, hea, hsa, hba⟩

theorem addAllToMap_earliest (env : Collaborators) (heq : IsSameDataEquivalence env)
    (rs : List OrbAlm) (r : OrbAlm) (hr : r ∈ rs) :
    isEarliestKept env rs (addAllToMap env rs []) r := by
  obtain ⟨h1, h2, h3⟩ := addAllToMap_invariant env heq rs
  obtain ⟨e, he, hs, _⟩ := h3 r hr
  refine ⟨e, he, (h2 _ he).2, ((h2 _ he).1).symm, hs, ?_⟩
  intro r' hr' hepoch hs'
  obtain ⟨e', he', hse', hb'⟩ := h3 r' hr'
  rw [hepoch] at he'
  have hsame : env.isSameData e e' = true :=
    heq.2.2 e r e' hs (heq.2.1 e' r (heq.2.2 e' r' r hse' hs'))
  rw [noSameDataTwice_unique env _ h1 r.ctToe e e' he he' hsame]
  exact hb'

/-- C22: after any sequence of `addOrbAlm` calls on an empty store, with `isSameData` an
equivalence relation, for every record `r` that the calls handed to a sub-map (of the
subject index or of the transmit index) that sub-map holds, under the epoch of `r`, one of
the records handed to it that has the epoch and the data of `r` and whose `beginValid` is
the least among the records handed to it with that epoch and data. -/
theorem addOrbAlmCalls_earliest_kept (env : Collaborators) (heq : IsSameDataEquivalence env)
    (calls : List AddCall) (initialTime finalTime : CommonTime) :
    (∀ subjID, ∀ r ∈ addedToSubject calls subjID,
      isEarliestKept env (addedToSubject calls subjID)
        ((mapFind subjID
          (addOrbAlmCalls env calls (emptyStore initialTime finalTime)).subjectAlmMap).getD [])
        r) ∧
    (∀ xmitID subjID, ∀ r ∈ addedToXmit calls xmitID subjID,
      isEarliestKept env (addedToXmit calls xmitID subjID)
        ((mapFind subjID ((mapFind xmitID
          (addOrbAlmCalls env calls (emptyStore initialTime finalTime)).xmitAlmMap).getD
            [])).getD []) r) := by
  refine ⟨?_, ?_⟩
  · intro subjID r hr
    rw [addOrbAlmCalls_subjectSubMap]
    exact addAllToMap_earliest env heq _ r hr
  · intro xmitID subjID r hr
    rw [addOrbAlmCalls_xmitSubMap]
    exact addAllToMap_earliest env heq _ r hr

/-- Witness of C22: of the records of epoch 3 received with `beginValid` 30 and then 25
the sub-map of subject 1 keeps the one with 25. -/
theorem addOrbAlmCalls_earliest_kept_witness :
    IsSameDataEquivalence sameParams ∧
    (⟨3, 30, true, 0⟩ : OrbAlm) ∈ addedToSubject callsMixed 1 ∧
    isEarliestKept sameParams (addedToSubject callsMixed 1)
      ((mapFind 1 (addOrbAlmCalls sameParams callsMixed (emptyStore 0 0)).subjectAlmMap).getD [])
      ⟨3, 30, true, 0⟩ ∧
    (mapFind 1 (addOrbAlmCalls sameParams callsMixed (emptyStore 0 0)).subjectAlmMap).getD [] =
      [(1, ⟨1, 10, true, 0⟩), (3, ⟨3, 25, true, 0⟩)] :=
  ⟨sameParams_equivalence, by decide,
   (addOrbAlmCalls_earliest_kept sameParams sameParams_equivalence callsMixed 0 0).1 1
     ⟨3, 30, true, 0⟩ (by decide),
   by decide⟩

/-! ## Frame properties and implicit invariants -/

/-- C37: `clear()` leaves `initialTime` and `finalTime` as they were, while both indexes
become empty. -/
theorem clear_keeps_span (s : OrbAlmStore) :
    (clear s).initialTime = s.initialTime ∧ (clear s).finalTime = s.finalTime ∧
    (clear s).subjectAlmMap = [] ∧ (clear s).xmitAlmMap = [] :=
  ⟨rfl, rfl, rfl, rfl⟩

theorem keepWithin_by_epoch (tmin tmax : CommonTime) (m : OrbAlmMap) (hkey : keyedByEpoch m) :
    keepWithin tmin tmax m =
      m.filter (fun e => decide (tmin ≤ e.2.ctToe ∧ e.2.ctToe ≤ tmax)) := by
  unfold keepWithin
  apply List.filter_congr
  intro e he
  rw [hkey e he]

/-- C34: in every store reachable from the empty store by `addOrbAlm`, `edit` and `clear`
every entry of every sub-map of both indexes is stored under the `ctToe` of its own record,
and what `edit` keeps of such a sub-map are the entries whose record has its epoch time in
`[tmin, tmax]`. -/
theorem reachable_keyedByEpoch (env : Collaborators) (s : OrbAlmStore)
    (hr : Reachable env s) :
    EverySubMap keyedByEpoch s ∧
    EverySubMap (fun m => ∀ tmin tmax : CommonTime, editOrbAlmMap tmin tmax m =
      m.filter (fun e => decide (tmin ≤ e.2.ctToe ∧ e.2.ctToe ≤ tmax))) s := by
  have hk := reachable_keyedByEpoch_lemma env s hr
  have ho : EverySubMap keysAscending s :=
    reachable_everySubMap env keysAscending List.Pairwise.nil
      (addOrbAlmToOrbAlmMap_keysAscending env)
      (fun _ _ hs hm => List.Pairwise.sublist hs hm) s hr
  refine ⟨hk, ?_, ?_⟩
  · intro i hi tmin tmax
    rw [editOrbAlmMap_eq_keepWithin tmin tmax i.2 (ho.1 i hi),
      keepWithin_by_epoch tmin tmax i.2 (hk.1 i hi)]
  · intro i hi it2 hit2 tmin tmax
    rw [editOrbAlmMap_eq_keepWithin tmin tmax it2.2 (ho.2 i hi it2 hit2),
      keepWithin_by_epoch tmin tmax it2.2 (hk.2 i hi it2 hit2)]

/-- Witness of C34: after calls with the epochs 3, 1, 3, 2 every entry is keyed by its
epoch, and `edit(2, 3)` on the sub-map of transmitter 2 and subject 1 keeps the records of
the epochs 2 and 3. -/
theorem reachable_keyedByEpoch_witness :
    Reachable sameParams (addOrbAlmCalls sameParams callsMixed (emptyStore 0 0)) ∧
    (EverySubMap keyedByEpoch (addOrbAlmCalls sameParams callsMixed (emptyStore 0 0)) ∧
      EverySubMap (fun m => ∀ tmin tmax : CommonTime, editOrbAlmMap tmin tmax m =
        m.filter (fun e => decide (tmin ≤ e.2.ctToe ∧ e.2.ctToe ≤ tmax)))
        (addOrbAlmCalls sameParams callsMixed (emptyStore 0 0))) ∧
    (edit 2 3 (addOrbAlmCalls sameParams callsMixed (emptyStore 0 0))).xmitAlmMap =
      [(2, [(1, [(2, ⟨2, 20, true, 0⟩), (3, ⟨3, 25, true, 0⟩)])])] :=
  ⟨reachable_addOrbAlmCalls sameParams callsMixed _ (Reachable.init 0 0),
   reachable_keyedByEpoch sameParams _
     (reachable_addOrbAlmCalls sameParams callsMixed _ (Reachable.init 0 0)),
   by decide⟩

theorem noSameDataTwice_one_candidate (env : Collaborators) (heq : IsSameDataEquivalence env)
    (alm : OrbAlm) (m : OrbAlmMap) (hm : noSameDataTwice env m) :
    (m.filter (fun e => decide (e.1 = alm.ctToe) && env.isSameData alm e.2)).length ≤ 1 := by
  have hsub : (m.filter (fun e => decide (e.1 = alm.ctToe) && env.isSameData alm e.2)).Pairwise
      (fun _ _ => False) := by
    have h1 := List.Pairwise.sublist
      (List.filter_sublist (p := fun e => decide (e.1 = alm.ctToe) && env.isSameData alm e.2)
        (l := m)) hm
    refine List.Pairwise.imp_of_mem ?_ h1
    intro a b ha hb hab
    have ha2 := (List.mem_filter.1 ha).2
    have hb2 := (List.mem_filter.1 hb).2
    simp only [Bool.and_eq_true, decide_eq_true_eq] at ha2 hb2
    have hsame : env.isSameData a.2 b.2 = true :=
      heq.2.2 a.2 alm b.2 (heq.2.1 alm a.2 ha2.2) hb2.2
    have := (hab (by rw [ha2.1, hb2.1])).1
    rw [hsame] at this
    exact Bool.noConfusion this
  generalize m.filter (fun e => decide (e.1 = alm.ctToe) && env.isSameData alm e.2) = l at hsub
  match l, hsub with
  | [], _ => simp
  | [_], _ => simp
  | a :: b :: rest, h =>
    exact absurd (List.rel_of_pairwise_cons h (List.mem_cons_self b rest)) id

/-- C33: with `isSameData` an equivalence relation, in every store reachable from the empty
store by `addOrbAlm`, `edit` and `clear` no sub-map of either index holds two entries with
the same key and the same data, so that in every sub-map at most one entry of the key
`alm->ctToe` has the data of `alm`, whatever the record `alm`. -/
theorem reachable_one_candidate (env : Collaborators) (heq : IsSameDataEquivalence env)
    (s : OrbAlmStore) (hr : Reachable env s) :
    EverySubMap (noSameDataTwice env) s ∧
    EverySubMap (fun m => ∀ alm : OrbAlm,
      (m.filter (fun e => decide (e.1 = alm.ctToe) && env.isSameData alm e.2)).length ≤ 1) s := by
  have h := reachable_noSameDataTwice env heq s hr
  exact ⟨h, fun i hi alm => noSameDataTwice_one_candidate env heq alm i.2 (h.1 i hi),
    fun i hi it2 hit2 alm => noSameDataTwice_one_candidate env heq alm it2.2 (h.2 i hi it2 hit2)⟩

/-- Witness of C33: after calls with the epochs 3, 1, 3, 2, the two records of epoch 3
carrying the same data, each sub-map holds one record of epoch 3. -/
theorem reachable_one_candidate_witness :
    IsSameDataEquivalence sameParams ∧
    Reachable sameParams (addOrbAlmCalls sameParams callsMixed (emptyStore 0 0)) ∧
    (EverySubMap (noSameDataTwice sameParams)
        (addOrbAlmCalls sameParams callsMixed (emptyStore 0 0)) ∧
      EverySubMap (fun m => ∀ alm : OrbAlm,
        (m.filter (fun e => decide (e.1 = alm.ctToe) && sameParams.isSameData alm e.2)).length
          ≤ 1) (addOrbAlmCalls sameParams callsMixed (emptyStore 0 0))) ∧
    (addOrbAlmCalls sameParams callsMixed (emptyStore 0 0)).xmitAlmMap =
      [(2, [(1, [(1, ⟨1, 10, true, 0⟩), (2, ⟨2, 20, true, 0⟩), (3, ⟨3, 25, true, 0⟩)])])] :=
  ⟨sameParams_equivalence,
   reachable_addOrbAlmCalls sameParams callsMixed _ (Reachable.init 0 0),
   reachable_one_candidate sameParams sameParams_equivalence _
     (reachable_addOrbAlmCalls sameParams callsMixed _ (Reachable.init 0 0)),
   by decide⟩

/-! ## The time span and plain insertions -/

theorem firstSameData_eq_none (env : Collaborators) (alm : OrbAlm) (oem : OrbAlmMap)
    (h : ∀ e ∈ oem, ¬ (e.1 = alm.ctToe ∧ env.isSameData alm e.2 = true)) :
    firstSameData env alm oem = none := by
  induction oem with
  | nil => rfl
  | cons it rest ih =>
    rw [firstSameData, if_neg (h it (List.mem_cons_self _ _)),
      ih (fun e he => h e (List.mem_cons_of_mem _ he))]

/-- The entry that a replacement in `addOrbAlmToOrbAlmMap` erases. -/
theorem firstSameData_replaced (env : Collaborators) (alm : OrbAlm) (oem : OrbAlmMap)
    (oe : OrbAlm) (erased : OrbAlmMap) (h : firstSameData env alm oem = some (oe, erased)) :
    (alm.ctToe, oe) ∈ oem ∧ env.isSameData alm oe = true := by
  obtain ⟨hs, pre, post, hsplit, _, _⟩ := firstSameData_some env alm oem oe erased h
  exact ⟨by rw [hsplit]; simp, hs⟩

/-- After `addOrbAlm` the time span is the one before the call, unless one of the two
calls of `addOrbAlmToOrbAlmMap` took its replacement branch. -/
theorem addOrbAlm_span_cases (env : Collaborators) (alm : OrbAlm) (xmitID subjID : SatID)
    (isXmitHealthy : Bool) (s : OrbAlmStore) :
    ((addOrbAlm env alm xmitID subjID isXmitHealthy s).2.initialTime = s.initialTime ∧
      (addOrbAlm env alm xmitID subjID isXmitHealthy s).2.finalTime = s.finalTime) ∨
    (isXmitHealthy = true ∧ ∃ oe erased,
      firstSameData env alm ((mapFind subjID s.subjectAlmMap).getD []) = some (oe, erased) ∧
      alm.beginValid < oe.beginValid) ∨
    (∃ oe erased,
      firstSameData env alm ((mapFind subjID ((mapFind xmitID s.xmitAlmMap).getD [])).getD []) =
        some (oe, erased) ∧
      alm.beginValid < oe.beginValid) := by
  have hx : ∀ s1 : OrbAlmStore, s1.xmitAlmMap = s.xmitAlmMap →
      ((addOrbAlmXmit env alm xmitID subjID s1).2.initialTime = s1.initialTime ∧
        (addOrbAlmXmit env alm xmitID subjID s1).2.finalTime = s1.finalTime) ∨
      (∃ oe erased,
        firstSameData env alm
          ((mapFind subjID ((mapFind xmitID s.xmitAlmMap).getD [])).getD []) =
          some (oe, erased) ∧
        alm.beginValid < oe.beginValid) := by
    intro s1 hs1
    rcases addOrbAlmToOrbAlmMap_cases env alm
        ((mapFind subjID ((mapFind xmitID s.xmitAlmMap).getD [])).getD [])
        (s1.initialTime, s1.finalTime) with
      ⟨_, _, _, _, hr⟩ | ⟨oe, er, hf, hlt, _⟩ | ⟨_, hr⟩
    · left
      simp only [addOrbAlmXmit, hs1, hr, and_self]
    · right
      exact ⟨oe, er, hf, hlt⟩
    · left
      simp only [addOrbAlmXmit, hs1, hr, and_self]
  have hsx := addOrbAlmSubject_xmit env alm subjID isXmitHealthy s
  show ((addOrbAlmXmit env alm xmitID subjID
      (addOrbAlmSubject env alm subjID isXmitHealthy s).2).2.initialTime = _ ∧
    (addOrbAlmXmit env alm xmitID subjID
      (addOrbAlmSubject env alm subjID isXmitHealthy s).2).2.finalTime = _) ∨ _
  have hsubj : ((addOrbAlmSubject env alm subjID isXmitHealthy s).2.initialTime = s.initialTime ∧
      (addOrbAlmSubject env alm subjID isXmitHealthy s).2.finalTime = s.finalTime) ∨
      (isXmitHealthy = true ∧ ∃ oe erased,
        firstSameData env alm ((mapFind subjID s.subjectAlmMap).getD []) = some (oe, erased) ∧
        alm.beginValid < oe.beginValid) := by
    cases isXmitHealthy with
    | false => left; exact ⟨rfl, rfl⟩
    | true =>
      rcases addOrbAlmToOrbAlmMap_cases env alm ((mapFind subjID s.subjectAlmMap).getD [])
          (s.initialTime, s.finalTime) with
        ⟨_, _, _, _, hr⟩ | ⟨oe, er, hf, hlt, _⟩ | ⟨_, hr⟩
      · left
        simp only [addOrbAlmSubject, if_true, hr, and_self]
      · right
        exact ⟨rfl, oe, er, hf, hlt⟩
      · left
        simp only [addOrbAlmSubject, if_true, hr, and_self]
  rcases hsubj with h1 | h1
  · rcases hx _ hsx with h2 | h2
    · left
      exact ⟨h2.1.trans h1.1, h2.2.trans h1.2⟩
    · right; right; exact h2
  · right; left; exact h1

theorem addAllToMap_keys (env : Collaborators) (rs : List OrbAlm) (oem : OrbAlmMap)
    (e : CommonTime × OrbAlm) (he : e ∈ addAllToMap env rs oem) :
    e ∈ oem ∨ e.1 ∈ rs.map (fun r => r.ctToe) := by
  induction rs generalizing oem with
  | nil => exact Or.inl he
  | cons r rest ih =>
    rcases ih (addOrbAlmToOrbAlmMap env r oem (0, 0)).2.1 he with h | h
    · rcases addOrbAlmToOrbAlmMap_mem env r oem (0, 0) e h with h | h
      · right
        rw [h]
        exact List.mem_cons_self _ _
      · exact Or.inl h
    · right
      exact List.mem_cons_of_mem _ h

/-- Calls whose records have pairwise different epochs leave the time span of an empty
store as it was. -/
theorem addOrbAlmCalls_span (env : Collaborators) (calls : List AddCall)
    (initialTime finalTime : CommonTime)
    (hnd : (calls.map (fun c => c.alm.ctToe)).Nodup) :
    (addOrbAlmCalls env calls (emptyStore initialTime finalTime)).initialTime = initialTime ∧
    (addOrbAlmCalls env calls (emptyStore initialTime finalTime)).finalTime = finalTime := by
  induction calls using List.reverseRecOn with
  | nil => exact ⟨rfl, rfl⟩
  | append_singleton calls c ih =>
    rw [List.map_append, List.nodup_append] at hnd
    have hnew : c.alm.ctToe ∉ calls.map (fun c => c.alm.ctToe) := by
      intro hmem
      exact hnd.2.2 hmem (by simp)
    have hsubset : ∀ (rs : List OrbAlm), (∀ r ∈ rs, r ∈ calls.map (fun c => c.alm)) →
        ∀ e ∈ addAllToMap env rs [], e.1 ≠ c.alm.ctToe := by
      intro rs hrs e he heq
      rcases addAllToMap_keys env rs [] e he with h | h
      · exact absurd h (List.not_mem_nil _)
      · obtain ⟨r, hr, hre⟩ := List.mem_map.1 h
        obtain ⟨c', hc', hcr⟩ := List.mem_map.1 (hrs r hr)
        apply hnew
        rw [← heq, ← hre, ← hcr]
        exact List.mem_map.2 ⟨c', hc', rfl⟩
    have hstep : addOrbAlmCalls env (calls ++ [c]) (emptyStore initialTime finalTime) =
        (addOrbAlm env c.alm c.xmitID c.subjID c.isXmitHealthy
          (addOrbAlmCalls env calls (emptyStore initialTime finalTime))).2 := by
      simp only [addOrbAlmCalls, List.foldl_append, List.foldl_cons, List.foldl_nil]
    rw [hstep]
    rcases addOrbAlm_span_cases env c.alm c.xmitID c.subjID c.isXmitHealthy
        (addOrbAlmCalls env calls (emptyStore initialTime finalTime)) with
      h | ⟨_, oe, er, hf, _⟩ | ⟨oe, er, hf, _⟩
    · exact ⟨h.1.trans (ih hnd.1).1, h.2.trans (ih hnd.1).2⟩
    · have hmem := (firstSameData_replaced env c.alm _ oe er hf).1
      rw [addOrbAlmCalls_subjectSubMap] at hmem
      exact absurd rfl (hsubset _ (fun r hr => by
        obtain ⟨c', hc', hcr⟩ := List.mem_map.1 hr
        exact List.mem_map.2 ⟨c', (List.mem_filter.1 hc').1, hcr⟩) _ hmem)
    · have hmem := (firstSameData_replaced env c.alm _ oe er hf).1
      rw [addOrbAlmCalls_xmitSubMap] at hmem
      exact absurd rfl (hsubset _ (fun r hr => by
        obtain ⟨c', hc', hcr⟩ := List.mem_map.1 hr
        exact List.mem_map.2 ⟨c', (List.mem_filter.1 hc').1, hcr⟩) _ hmem)

/-- C36: an `addOrbAlm` call that meets, in each map it works on, no entry of the key
`alm->ctToe` with the data of `alm` returns true and leaves `initialTime` and `finalTime` as
they were; calls whose records have pairwise different epochs leave the time span of an
empty store at its initial values; and a call after which the span differs took the
replacement branch in one of its maps (an entry of that key and data with a later
`beginValid` was there). -/
theorem addOrbAlm_insert_keeps_span (env : Collaborators) :
    (∀ (alm : OrbAlm) (xmitID subjID : SatID) (isXmitHealthy : Bool) (s : OrbAlmStore),
      (isXmitHealthy = true → ∀ e ∈ (mapFind subjID s.subjectAlmMap).getD [],
        ¬ (e.1 = alm.ctToe ∧ env.isSameData alm e.2 = true)) →
      (∀ e ∈ (mapFind subjID ((mapFind xmitID s.xmitAlmMap).getD [])).getD [],
        ¬ (e.1 = alm.ctToe ∧ env.isSameData alm e.2 = true)) →
      (addOrbAlm env alm xmitID subjID isXmitHealthy s).1 = true ∧
      (addOrbAlm env alm xmitID subjID isXmitHealthy s).2.initialTime = s.initialTime ∧
      (addOrbAlm env alm xmitID subjID isXmitHealthy s).2.finalTime = s.finalTime) ∧
    (∀ (calls : List AddCall) (initialTime finalTime : CommonTime),
      (calls.map (fun c => c.alm.ctToe)).Nodup →
      (addOrbAlmCalls env calls (emptyStore initialTime finalTime)).initialTime = initialTime ∧
      (addOrbAlmCalls env calls (emptyStore initialTime finalTime)).finalTime = finalTime) ∧
    (∀ (alm : OrbAlm) (xmitID subjID : SatID) (isXmitHealthy : Bool) (s : OrbAlmStore),
      ¬ ((addOrbAlm env alm xmitID subjID isXmitHealthy s).2.initialTime = s.initialTime ∧
        (addOrbAlm env alm xmitID subjID isXmitHealthy s).2.finalTime = s.finalTime) →
      (isXmitHealthy = true ∧ ∃ e ∈ (mapFind subjID s.subjectAlmMap).getD [],
        e.1 = alm.ctToe ∧ env.isSameData alm e.2 = true ∧ alm.beginValid < e.2.beginValid) ∨
      (∃ e ∈ (mapFind subjID ((mapFind xmitID s.xmitAlmMap).getD [])).getD [],
        e.1 = alm.ctToe ∧ env.isSameData alm e.2 = true ∧ alm.beginValid < e.2.beginValid)) := by
  refine ⟨?_, fun calls i f hnd => addOrbAlmCalls_span env calls i f hnd, ?_⟩
  · intro alm xmitID subjID isXmitHealthy s hsubj hxmit
    have hnone := firstSameData_eq_none env alm _ hxmit
    have htrue : (addOrbAlm env alm xmitID subjID isXmitHealthy s).1 = true := by
      show ((addOrbAlmSubject env alm subjID isXmitHealthy s).1 ||
        (addOrbAlmXmit env alm xmitID subjID
          (addOrbAlmSubject env alm subjID isXmitHealthy s).2).1) = true
      have : (addOrbAlmXmit env alm xmitID subjID
          (addOrbAlmSubject env alm subjID isXmitHealthy s).2).1 = true := by
        simp only [addOrbAlmXmit, addOrbAlmSubject_xmit, addOrbAlmToOrbAlmMap, hnone]
      rw [this, Bool.or_true]
    refine ⟨htrue, ?_⟩
    rcases addOrbAlm_span_cases env alm xmitID subjID isXmitHealthy s with
      h | ⟨hh, oe, er, hf, _⟩ | ⟨oe, er, hf, _⟩
    · exact h
    · rw [firstSameData_eq_none env alm _ (hsubj hh)] at hf
      exact Option.noConfusion hf
    · rw [hnone] at hf
      exact Option.noConfusion hf
  · intro alm xmitID subjID isXmitHealthy s hne
    rcases addOrbAlm_span_cases env alm xmitID subjID isXmitHealthy s with
      h | ⟨hh, oe, er, hf, hlt⟩ | ⟨oe, er, hf, hlt⟩
    · exact absurd h hne
    · left
      have := firstSameData_replaced env alm _ oe er hf
      exact ⟨hh, (alm.ctToe, oe), this.1, rfl, this.2, hlt⟩
    · right
      have := firstSameData_replaced env alm _ oe er hf
      exact ⟨(alm.ctToe, oe), this.1, rfl, this.2, hlt⟩

/-- Witness of C36: three calls with the epochs 1, 2, 3 leave the span of the empty store
at `(0, 0)`, while the replacement among the calls with the epochs 3, 1, 3, 2 moves
`finalTime`. -/
theorem addOrbAlm_insert_keeps_span_witness :
    (callsOutOfOrder.map (fun c => c.alm.ctToe)).Nodup ∧
    ((addOrbAlmCalls sameParams callsOutOfOrder (emptyStore 0 0)).initialTime = 0 ∧
      (addOrbAlmCalls sameParams callsOutOfOrder (emptyStore 0 0)).finalTime = 0) ∧
    (addOrbAlmCalls sameParams callsMixed (emptyStore 0 0)).finalTime = 25 :=
  ⟨by decide, (addOrbAlm_insert_keeps_span sameParams).2.1 callsOutOfOrder 0 0 (by decide),
    by decide⟩

/-! ## The dump by transmitting satellite -/

theorem dumpInner_perm (oem tempMap : OrbAlmMap) :
    (oem.foldl (fun tempMap it3 => multimapInsert it3.1 it3.2 tempMap) tempMap).Perm
      (tempMap ++ oem) := by
  induction oem generalizing tempMap with
  | nil => simp
  | cons e rest ih =>
    rw [List.foldl_cons]
    refine (ih _).trans ?_
    refine ((multimapInsert_perm e.1 e.2 tempMap).append_right rest).trans ?_
    exact List.perm_middle.symm

theorem dumpOuter_perm (uam : SubjectAlmMap) (tempMap : OrbAlmMap) :
    (uam.foldl (fun tempMap it2 =>
      it2.2.foldl (fun tempMap it3 => multimapInsert it3.1 it3.2 tempMap) tempMap) tempMap).Perm
      (tempMap ++ (uam.map (fun it2 => it2.2)).flatten) := by
  induction uam generalizing tempMap with
  | nil => simp
  | cons it2 rest ih =>
    rw [List.foldl_cons]
    refine (ih _).trans ?_
    rw [List.map_cons, List.flatten_cons, ← List.append_assoc]
    exact (dumpInner_perm it2.2 tempMap).append_right _

theorem dumpTempMap_perm (uam : SubjectAlmMap) :
    (dumpTempMap uam).Perm ((uam.map (fun it2 => it2.2)).flatten) := by
  have h := dumpOuter_perm uam []
  rwa [List.nil_append] at h

/-- The map `tempMap2` while it is filled: the records are those handed in, the keys
ascend, and every key is the `beginValid` of its record. -/
theorem dumpSecond_invariant (tempMap tempMap2 : OrbAlmMap)
    (hord : keysAscending tempMap2) (hkey : ∀ e ∈ tempMap2, e.1 = e.2.beginValid) :
    ((tempMap.foldl (fun tempMap2 cit => multimapInsert cit.2.beginValid cit.2 tempMap2)
        tempMap2).map Prod.snd).Perm (tempMap2.map Prod.snd ++ tempMap.map Prod.snd) ∧
    keysAscending
      (tempMap.foldl (fun tempMap2 cit => multimapInsert cit.2.beginValid cit.2 tempMap2)
        tempMap2) ∧
    ∀ e ∈ tempMap.foldl (fun tempMap2 cit => multimapInsert cit.2.beginValid cit.2 tempMap2)
        tempMap2, e.1 = e.2.beginValid := by
  induction tempMap generalizing tempMap2 with
  | nil => exact ⟨by simp, hord, hkey⟩
  | cons cit rest ih =>
    rw [List.foldl_cons]
    have hperm := multimapInsert_perm cit.2.beginValid cit.2 tempMap2
    have h := ih (multimapInsert cit.2.beginValid cit.2 tempMap2)
      (multimapInsert_keysAscending _ _ _ hord)
      (fun e he => by
        rcases List.mem_cons.1 (hperm.subset he) with h | h
        · rw [h]
        · exact hkey e h)
    refine ⟨h.1.trans ?_, h.2.1, h.2.2⟩
    rw [List.map_cons]
    refine ((hperm.map Prod.snd).append_right _).trans ?_
    rw [List.map_cons]
    exact List.perm_middle.symm

theorem dumpTempMap2_sorted (tempMap : OrbAlmMap) :
    ((dumpTempMap2 tempMap).map Prod.snd).Perm (tempMap.map Prod.snd) ∧
    ((dumpTempMap2 tempMap).map Prod.snd).Pairwise (fun a b => a.beginValid ≤ b.beginValid) := by
  have h := dumpSecond_invariant tempMap [] List.Pairwise.nil
    (fun e he => absurd he (List.not_mem_nil _))
  refine ⟨by simpa using h.1, ?_⟩
  rw [List.pairwise_map]
  refine List.Pairwise.imp_of_mem ?_ h.2.1
  intro a b ha hb hab
  rw [← h.2.2 a ha, ← h.2.2 b hb]
  exact hab

/-- The records that `dumpXmitAlm` writes for one transmitter: all the records of its
sub-maps, in the order of their `beginValid`. -/
theorem dumpRecords_sorted (uam : SubjectAlmMap) :
    ((dumpTempMap2 (dumpTempMap uam)).map Prod.snd).Perm
      ((uam.map (fun it2 => it2.2.map Prod.snd)).flatten) ∧
    ((dumpTempMap2 (dumpTempMap uam)).map Prod.snd).Pairwise
      (fun a b => a.beginValid ≤ b.beginValid) ∧
    ((dumpTempMap2 (dumpTempMap uam)).map Prod.snd).length = totalEntries uam := by
  have h2 := dumpTempMap2_sorted (dumpTempMap uam)
  have h1 : ((dumpTempMap uam).map Prod.snd).Perm
      ((uam.map (fun it2 => it2.2.map Prod.snd)).flatten) := by
    have := (dumpTempMap_perm uam).map Prod.snd
    rwa [List.map_flatten, List.map_map] at this
  have hperm := h2.1.trans h1
  refine ⟨hperm, h2.2, ?_⟩
  rw [hperm.length_eq, List.length_flatten, List.map_map, totalEntries]
  congr 1
  apply List.map_congr_left
  intro i _
  simp

theorem dumpXmitAlm_find (detail : Int) (hdetail : 1 ≤ detail) (s : OrbAlmStore)
    (xmitID : SatID) :
    mapFind xmitID (dumpXmitAlm detail s) =
      (mapFind xmitID s.xmitAlmMap).map
        (fun uam => (dumpTempMap2 (dumpTempMap uam)).map Prod.snd) := by
  have h0 : detail ≠ 0 := by omega
  rw [dumpXmitAlm, if_neg h0, if_pos hdetail]
  exact mapFind_map_values (fun uam => (dumpTempMap2 (dumpTempMap uam)).map Prod.snd)
    xmitID s.xmitAlmMap

/-- Counterexample to C31: for the transmitter whose sub-map holds `2 ^ 32` records the
dump writes `2 ^ 32` records while `sizeXmitAlm` is 0. -/
theorem dump_length_not_sizeXmitAlm :
    ∃ out, mapFind 2 (dumpXmitAlm 1 (storeBoth (2 ^ 32))) = some out ∧
      out.length = 2 ^ 32 ∧ sizeXmitAlm (storeBoth (2 ^ 32)) 2 = 0 ∧
      out.length ≠ sizeXmitAlm (storeBoth (2 ^ 32)) 2 := by
  have hfind : ∀ n, mapFind 2 (storeBoth n).xmitAlmMap = some [(1, mapOfEpochs n)] := by
    intro n
    simp [storeBoth, mapFind]
  have htot : ∀ n, totalEntries [(1, mapOfEpochs n)] = n := by
    intro n
    simp [totalEntries, mapOfEpochs_length]
  have hlen : ((dumpTempMap2 (dumpTempMap [(1, mapOfEpochs (2 ^ 32))])).map Prod.snd).length =
      2 ^ 32 := by
    rw [(dumpRecords_sorted _).2.2, htot]
  have hsize : sizeXmitAlm (storeBoth (2 ^ 32)) 2 = 0 := by
    rw [sizeXmitAlm_of_find _ 2 _ (hfind _), htot]
    exact Nat.mod_self _
  refine ⟨(dumpTempMap2 (dumpTempMap [(1, mapOfEpochs (2 ^ 32))])).map Prod.snd, ?_, hlen,
    hsize, ?_⟩
  · rw [dumpXmitAlm_find 1 (by decide), hfind, Option.map_some']
  · rw [hlen, hsize]
    decide

/-- C31, amended: for `detail >= 1`, the dump lists the transmitters of the transmit index,
and the records it writes for a transmitter are a permutation of all the records stored
under that transmitter over all of its subjects, in non-decreasing order of `beginValid`;
their number reduced modulo `2 ^ 32` is `sizeXmitAlm` of that transmitter, and is
`sizeXmitAlm` itself when the transmitter holds fewer than `2 ^ 32` records. -/
theorem dumpXmitAlm_transmit_order (s : OrbAlmStore) (detail : Int) (hdetail : 1 ≤ detail)
    (xmitID : SatID) (uam : SubjectAlmMap) (hfind : mapFind xmitID s.xmitAlmMap = some uam) :
    (dumpXmitAlm detail s).map Prod.fst = s.xmitAlmMap.map Prod.fst ∧
    ∃ out, mapFind xmitID (dumpXmitAlm detail s) = some out ∧
      out.Perm ((uam.map (fun it2 => it2.2.map Prod.snd)).flatten) ∧
      out.Pairwise (fun a b => a.beginValid ≤ b.beginValid) ∧
      out.length % 2 ^ 32 = sizeXmitAlm s xmitID ∧
      (totalEntries uam < 2 ^ 32 → out.length = sizeXmitAlm s xmitID) := by
  have h := dumpRecords_sorted uam
  have hsize : sizeXmitAlm s xmitID = totalEntries uam % 2 ^ 32 :=
    sizeXmitAlm_of_find s xmitID uam hfind
  refine ⟨?_, (dumpTempMap2 (dumpTempMap uam)).map Prod.snd, ?_, h.1, h.2.1, ?_, ?_⟩
  · have h0 : detail ≠ 0 := by omega
    rw [dumpXmitAlm, if_neg h0, if_pos hdetail, List.map_map]
    rfl
  · rw [dumpXmitAlm_find detail hdetail, hfind, Option.map_some']
  · rw [h.2.2, hsize]
  · intro hlt
    rw [h.2.2, hsize, Nat.mod_eq_of_lt hlt]

/-- Witness of C31, amended: transmitter 2 sent the epochs 1 and 3 for subject 1 and the
epoch 2 for subject 4; the dump writes the three records in the order of their
`beginValid` 10, 20, 30, which is the epoch order 3, 2, 1. -/
theorem dumpXmitAlm_transmit_order_witness :
    (1 : Int) ≤ 1 ∧
    mapFind 2 storeTwoSubjects.xmitAlmMap =
      some [(1, [(1, ⟨1, 30, true, 0⟩), (3, ⟨3, 10, true, 0⟩)]), (4, [(2, ⟨2, 20, true, 1⟩)])] ∧
    ((dumpXmitAlm 1 storeTwoSubjects).map Prod.fst = storeTwoSubjects.xmitAlmMap.map Prod.fst ∧
      ∃ out, mapFind 2 (dumpXmitAlm 1 storeTwoSubjects) = some out ∧
        out.Perm (([((1 : SatID), [((1 : CommonTime), (⟨1, 30, true, 0⟩ : OrbAlm)),
            (3, ⟨3, 10, true, 0⟩)]), (4, [(2, ⟨2, 20, true, 1⟩)])].map
          (fun it2 => it2.2.map Prod.snd)).flatten) ∧
        out.Pairwise (fun a b => a.beginValid ≤ b.beginValid) ∧
        out.length % 2 ^ 32 = sizeXmitAlm storeTwoSubjects 2 ∧
        (totalEntries [((1 : SatID), [((1 : CommonTime), (⟨1, 30, true, 0⟩ : OrbAlm)),
            (3, ⟨3, 10, true, 0⟩)]), (4, [(2, ⟨2, 20, true, 1⟩)])] < 2 ^ 32 →
          out.length = sizeXmitAlm storeTwoSubjects 2)) ∧
    mapFind 2 (dumpXmitAlm 1 storeTwoSubjects) =
      some [⟨3, 10, true, 0⟩, ⟨2, 20, true, 1⟩, ⟨1, 30, true, 0⟩] ∧
    sizeXmitAlm storeTwoSubjects 2 = 3 :=
  ⟨by decide, rfl, dumpXmitAlm_transmit_order storeTwoSubjects 1 (by decide) 2 _ rfl,
    by decide, by decide⟩

/-! ## The subject index within the transmit index -/

theorem getD_of_forall (P : OrbAlmMap → Prop) (hnil : P []) (k : SatID) (m : SubjectAlmMap)
    (hm : ∀ i ∈ m, P i.2) : P ((mapFind k m).getD []) := by
  cases hf : mapFind k m with
  | none => exact hnil
  | some oem => exact hm _ (mapFind_some_mem k oem m hf)

theorem getD_getD_of_everySubMap (P : OrbAlmMap → Prop) (hnil : P []) (s : OrbAlmStore)
    (h : EverySubMap P s) (x k : SatID) :
    P ((mapFind k ((mapFind x s.xmitAlmMap).getD [])).getD []) := by
  cases hf : mapFind x s.xmitAlmMap with
  | none => exact hnil
  | some uam =>
    exact getD_of_forall P hnil k uam (h.2 _ (mapFind_some_mem x uam _ hf))

/-- After `addOrbAlmToOrbAlmMap` the map holds an entry of the key and the data of the new
record. -/
theorem addOrbAlmToOrbAlmMap_holds_new (env : Collaborators) (heq : IsSameDataEquivalence env)
    (alm : OrbAlm) (oem : OrbAlmMap) (span : CommonTime × CommonTime) :
    ∃ e' ∈ (addOrbAlmToOrbAlmMap env alm oem span).2.1,
      e'.1 = alm.ctToe ∧ env.isSameData alm e'.2 = true := by
  obtain ⟨e, he, hs, _⟩ := addOrbAlmToOrbAlmMap_representative env heq alm oem span
  exact ⟨(alm.ctToe, e), he, rfl, heq.2.1 e alm hs⟩

/-- After `addOrbAlmToOrbAlmMap` the map holds, for each entry it held before, an entry of
the same key and data. -/
theorem addOrbAlmToOrbAlmMap_holds_old (env : Collaborators) (heq : IsSameDataEquivalence env)
    (alm : OrbAlm) (oem : OrbAlmMap) (span : CommonTime × CommonTime)
    (e0 : CommonTime × OrbAlm) (he0 : e0 ∈ oem) :
    ∃ e' ∈ (addOrbAlmToOrbAlmMap env alm oem span).2.1,
      e'.1 = e0.1 ∧ env.isSameData e0.2 e'.2 = true := by
  rcases addOrbAlmToOrbAlmMap_survives env alm oem span e0 he0 with h | ⟨hk, hs, _⟩
  · exact ⟨e0, h, rfl, heq.1 e0.2⟩
  · obtain ⟨e', he', hk', hs'⟩ := addOrbAlmToOrbAlmMap_holds_new env heq alm oem span
    exact ⟨e', he', by rw [hk', hk], heq.2.2 e0.2 alm e'.2 (heq.2.1 alm e0.2 hs) hs'⟩

theorem addOrbAlm_subjectWithinXmit (env : Collaborators) (heq : IsSameDataEquivalence env)
    (alm : OrbAlm) (xmitID subjID : SatID) (isXmitHealthy : Bool) (s : OrbAlmStore)
    (hinv : subjectWithinXmit env s) :
    subjectWithinXmit env (addOrbAlm env alm xmitID subjID isXmitHealthy s).2 := by
  have hold : ∀ k, ∀ e ∈ (mapFind k s.subjectAlmMap).getD [],
      ∃ x, ∃ e' ∈ (mapFind k ((mapFind x
          (addOrbAlm env alm xmitID subjID isXmitHealthy s).2.xmitAlmMap).getD [])).getD [],
        e'.1 = e.1 ∧ env.isSameData e.2 e'.2 = true := by
    intro k e he
    obtain ⟨x, e0, he0, hk0, hs0⟩ := hinv k e he
    refine ⟨x, ?_⟩
    rw [addOrbAlm_xmitSubMap env alm xmitID subjID isXmitHealthy s x k (0, 0)]
    by_cases hc : xmitID = x ∧ subjID = k
    · rw [if_pos hc]
      obtain ⟨e', he', hk', hs'⟩ := addOrbAlmToOrbAlmMap_holds_old env heq alm _ (0, 0) e0 he0
      exact ⟨e', he', by rw [hk', hk0], heq.2.2 e.2 e0.2 e'.2 hs0 hs'⟩
    · rw [if_neg hc]
      exact ⟨e0, he0, hk0, hs0⟩
  intro k e he
  rw [addOrbAlm_subjectSubMap env alm xmitID subjID isXmitHealthy s k (0, 0)] at he
  by_cases hc : isXmitHealthy = true ∧ subjID = k
  · rw [if_pos hc] at he
    rcases addOrbAlmToOrbAlmMap_mem env alm _ (0, 0) e he with h | h
    · refine ⟨xmitID, ?_⟩
      rw [addOrbAlm_xmitSubMap env alm xmitID subjID isXmitHealthy s xmitID k (0, 0),
        if_pos ⟨rfl, hc.2⟩]
      obtain ⟨e', he', hk', hs'⟩ := addOrbAlmToOrbAlmMap_holds_new env heq alm
        ((mapFind k ((mapFind xmitID s.xmitAlmMap).getD [])).getD []) (0, 0)
      exact ⟨e', he', by rw [hk', h], by rw [h]; exact hs'⟩
    · exact hold k e h
  · rw [if_neg hc] at he
    exact hold k e he

theorem edit_subjectSubMap (tmin tmax : CommonTime) (s : OrbAlmStore) (k : SatID) :
    (mapFind k (edit tmin tmax s).subjectAlmMap).getD [] =
      editOrbAlmMap tmin tmax ((mapFind k s.subjectAlmMap).getD []) := by
  have h : mapFind k (edit tmin tmax s).subjectAlmMap =
      (mapFind k s.subjectAlmMap).map (editOrbAlmMap tmin tmax) :=
    mapFind_map_values (editOrbAlmMap tmin tmax) k s.subjectAlmMap
  rw [h]
  cases mapFind k s.subjectAlmMap with
  | none => rfl
  | some oem => rfl

theorem edit_xmitSubMap (tmin tmax : CommonTime) (s : OrbAlmStore) (x k : SatID) :
    (mapFind k ((mapFind x (edit tmin tmax s).xmitAlmMap).getD [])).getD [] =
      editOrbAlmMap tmin tmax ((mapFind k ((mapFind x s.xmitAlmMap).getD [])).getD []) := by
  have h : mapFind x (edit tmin tmax s).xmitAlmMap =
      (mapFind x s.xmitAlmMap).map
        (fun uam => uam.map (fun it2 => (it2.1, editOrbAlmMap tmin tmax it2.2))) :=
    mapFind_map_values
      (fun uam : SubjectAlmMap =>
        uam.map (fun it2 : SatID × OrbAlmMap => (it2.1, editOrbAlmMap tmin tmax it2.2)))
      x s.xmitAlmMap
  rw [h]
  cases mapFind x s.xmitAlmMap with
  | none => rfl
  | some uam =>
    have h2 : mapFind k (uam.map (fun it2 => (it2.1, editOrbAlmMap tmin tmax it2.2))) =
        (mapFind k uam).map (editOrbAlmMap tmin tmax) :=
      mapFind_map_values (editOrbAlmMap tmin tmax) k uam
    simp only [Option.map_some', Option.getD_some]
    rw [h2]
    cases mapFind k uam with
    | none => rfl
    | some oem => rfl

theorem edit_subjectWithinXmit (env : Collaborators) (tmin tmax : CommonTime)
    (s : OrbAlmStore) (hord : EverySubMap keysAscending s) (hinv : subjectWithinXmit env s) :
    subjectWithinXmit env (edit tmin tmax s) := by
  intro k e he
  rw [edit_subjectSubMap, editOrbAlmMap_eq_keepWithin tmin tmax _
    (getD_of_forall keysAscending List.Pairwise.nil k _ hord.1)] at he
  have he2 := List.mem_filter.1 he
  obtain ⟨x, e', he', hk', hs'⟩ := hinv k e he2.1
  refine ⟨x, e', ?_, hk', hs'⟩
  rw [edit_xmitSubMap, editOrbAlmMap_eq_keepWithin tmin tmax _
    (getD_getD_of_everySubMap keysAscending List.Pairwise.nil s hord x k)]
  refine List.mem_filter.2 ⟨he', ?_⟩
  rw [hk']
  exact he2.2

theorem reachable_subjectWithinXmit (env : Collaborators) (heq : IsSameDataEquivalence env)
    (s : OrbAlmStore) (hr : Reachable env s) : subjectWithinXmit env s := by
  induction hr with
  | init initialTime finalTime =>
    intro k e he
    exact absurd he (List.not_mem_nil _)
  | addOrbAlm s alm xmitID subjID isXmitHealthy _ ih =>
    exact addOrbAlm_subjectWithinXmit env heq alm xmitID subjID isXmitHealthy s ih
  | edit s tmin tmax hr ih =>
    exact edit_subjectWithinXmit env tmin tmax s
      (reachable_everySubMap env keysAscending List.Pairwise.nil
        (addOrbAlmToOrbAlmMap_keysAscending env)
        (fun _ _ hs hm => List.Pairwise.sublist hs hm) s hr) ih
  | clear s _ _ =>
    intro k e he
    exact absurd he (List.not_mem_nil _)

/-- A list whose elements are matched to elements of a second list, no two of them to the
same one, is not longer than the second list. -/
theorem length_le_of_matching {α β : Type} [DecidableEq β] (R : α → β → Prop) (L : List α) :
    ∀ U : List β, L.Pairwise (fun a b => ∀ u, R a u → ¬ R b u) →
      (∀ a ∈ L, ∃ u ∈ U, R a u) → L.length ≤ U.length := by
  induction L with
  | nil => intro U _ _; exact Nat.zero_le _
  | cons a rest ih =>
    intro U hpair hmatch
    obtain ⟨u, hu, hau⟩ := hmatch a (List.mem_cons_self _ _)
    have hrest := ih (U.erase u) (List.Pairwise.of_cons hpair) (by
      intro b hb
      obtain ⟨u', hu', hbu'⟩ := hmatch b (List.mem_cons_of_mem _ hb)
      have hne : u' ≠ u := by
        intro h
        rw [h] at hbu'
        exact List.rel_of_pairwise_cons hpair hb u hau hbu'
      exact ⟨u', (List.mem_erase_of_ne hne).2 hu', hbu'⟩)
    have hlen := List.length_erase_of_mem hu
    have hpos : 0 < U.length := List.length_pos_of_mem hu
    rw [List.length_cons]
    omega

theorem mem_xmitEntriesOf (s : OrbAlmStore) (x k : SatID) (e : CommonTime × OrbAlm)
    (he : e ∈ (mapFind k ((mapFind x s.xmitAlmMap).getD [])).getD []) :
    e ∈ xmitEntriesOf k s.xmitAlmMap := by
  cases hf : mapFind x s.xmitAlmMap with
  | none =>
    rw [hf] at he
    exact absurd he (List.not_mem_nil _)
  | some uam =>
    rw [hf] at he
    exact List.mem_flatten.2 ⟨(mapFind k uam).getD [],
      List.mem_map.2 ⟨(x, uam), mapFind_some_mem x uam _ hf, rfl⟩, he⟩

/-- In a reachable store the sub-map of a subject is not longer than the list of the
entries that the transmit index holds for that subject. -/
theorem reachable_subject_count (env : Collaborators) (heq : IsSameDataEquivalence env)
    (s : OrbAlmStore) (hr : Reachable env s) (k : SatID) :
    ((mapFind k s.subjectAlmMap).getD []).length ≤ (xmitEntriesOf k s.xmitAlmMap).length := by
  have hno : noSameDataTwice env ((mapFind k s.subjectAlmMap).getD []) :=
    noSameDataTwice_getD env k s.subjectAlmMap (reachable_noSameDataTwice env heq s hr).1
  have hin := reachable_subjectWithinXmit env heq s hr
  refine length_le_of_matching
    (fun a u : CommonTime × OrbAlm => u.1 = a.1 ∧ env.isSameData a.2 u.2 = true) _ _ ?_ ?_
  · refine List.Pairwise.imp ?_ hno
    intro a b hab u hau hbu
    have hkey : a.1 = b.1 := by rw [← hau.1, ← hbu.1]
    have hsame : env.isSameData a.2 b.2 = true :=
      heq.2.2 a.2 u.2 b.2 hau.2 (heq.2.1 b.2 u.2 hbu.2)
    have := (hab hkey).1
    rw [hsame] at this
    exact Bool.noConfusion this
  · intro a ha
    obtain ⟨x, e', he', hk', hs'⟩ := hin k a ha
    exact ⟨e', mem_xmitEntriesOf s x k e' he', hk', hs'⟩

theorem mapSet_keysStrictlyAscending {V : Type} (k : SatID) (v : V) (m : List (SatID × V))
    (h : keysStrictlyAscending m) : keysStrictlyAscending (mapSet k v m) := by
  induction m with
  | nil => exact List.pairwise_singleton _ _
  | cons e rest ih =>
    have hrest := List.Pairwise.of_cons h
    have hhead : ∀ {x : SatID × V}, x ∈ rest → e.1 < x.1 :=
      fun hx => List.rel_of_pairwise_cons h hx
    by_cases h1 : k < e.1
    · rw [mapSet, if_pos h1]
      refine List.Pairwise.cons ?_ h
      intro x hx
      rcases List.mem_cons.1 hx with hx | hx
      · rw [hx]; exact h1
      · exact Nat.lt_trans h1 (hhead hx)
    · by_cases h2 : k = e.1
      · rw [mapSet, if_neg h1, if_pos h2]
        refine List.Pairwise.cons ?_ hrest
        intro x hx
        show k < x.1
        rw [h2]
        exact hhead hx
      · rw [mapSet, if_neg h1, if_neg h2]
        refine List.Pairwise.cons ?_ (ih hrest)
        intro x hx
        rcases mem_mapSet k v rest x hx with hx | hx
        · rw [hx]
          exact Nat.lt_of_le_of_ne (Nat.le_of_not_lt h1) (Ne.symm h2)
        · exact hhead hx

theorem reachable_subjectKeys (env : Collaborators) (s : OrbAlmStore) (hr : Reachable env s) :
    keysStrictlyAscending s.subjectAlmMap := by
  induction hr with
  | init initialTime finalTime => exact List.Pairwise.nil
  | addOrbAlm s alm xmitID subjID isXmitHealthy _ ih =>
    show keysStrictlyAscending (addOrbAlmSubject env alm subjID isXmitHealthy s).2.subjectAlmMap
    cases isXmitHealthy with
    | false => exact ih
    | true => exact mapSet_keysStrictlyAscending _ _ _ ih
  | edit s tmin tmax _ ih =>
    show keysStrictlyAscending
      (s.subjectAlmMap.map (fun i => (i.1, editOrbAlmMap tmin tmax i.2)))
    unfold keysStrictlyAscending
    rw [List.pairwise_map]
    exact ih
  | clear s _ _ => exact List.Pairwise.nil

theorem sum_ite_le (K : List SatID) (hK : K.Nodup) (k0 : SatID) (c : Nat) :
    (K.map (fun k => if k = k0 then c else 0)).sum ≤ c := by
  induction K with
  | nil => exact Nat.zero_le _
  | cons k rest ih =>
    rw [List.map_cons, List.sum_cons]
    by_cases hk : k = k0
    · have hzero : (rest.map (fun k => if k = k0 then c else 0)).sum = 0 := by
        have hall : ∀ x ∈ rest.map (fun k => if k = k0 then c else 0), x = 0 := by
          intro x hx
          obtain ⟨k', hk', rfl⟩ := List.mem_map.1 hx
          have hne : k' ≠ k0 := by
            intro h
            rw [← hk] at h
            exact (List.nodup_cons.1 hK).1 (h ▸ hk')
          rw [if_neg hne]
        exact List.sum_eq_zero hall
      rw [if_pos hk, hzero]
      exact Nat.le_refl _
    · rw [if_neg hk, Nat.zero_add]
      exact ih (List.nodup_cons.1 hK).2

theorem sum_find_le (K : List SatID) (hK : K.Nodup) (m : SubjectAlmMap) :
    (K.map (fun k => ((mapFind k m).getD []).length)).sum ≤ totalEntries m := by
  induction m with
  | nil =>
    have hall : ∀ x ∈ K.map (fun k => ((mapFind k ([] : SubjectAlmMap)).getD []).length),
        x = 0 := by
      intro x hx
      obtain ⟨k', _, rfl⟩ := List.mem_map.1 hx
      rfl
    rw [List.sum_eq_zero hall]
    exact Nat.zero_le _
  | cons e rest ih =>
    have hle : ∀ k ∈ K, ((mapFind k (e :: rest)).getD []).length ≤
        (if k = e.1 then e.2.length else 0) + ((mapFind k rest).getD []).length := by
      intro k _
      by_cases h1 : k < e.1
      · rw [mapFind, if_pos h1]
        exact Nat.zero_le _
      · by_cases h2 : k = e.1
        · rw [mapFind, if_neg h1, if_pos h2, if_pos h2]
          exact Nat.le_add_right _ _
        · rw [mapFind, if_neg h1, if_neg h2, if_neg h2, Nat.zero_add]
    refine (List.sum_le_sum hle).trans ?_
    rw [List.sum_map_add]
    have h1 := sum_ite_le K hK e.1 e.2.length
    have h2 : totalEntries (e :: rest) = e.2.length + totalEntries rest := by
      simp [totalEntries]
    rw [h2]
    omega

theorem sum_xmitEntriesOf_le (K : List SatID) (hK : K.Nodup) (m : XmitAlmMap) :
    (K.map (fun k => (xmitEntriesOf k m).length)).sum ≤ totalXmitEntries m := by
  induction m with
  | nil =>
    have hall : ∀ x ∈ K.map (fun k => (xmitEntriesOf k ([] : XmitAlmMap)).length), x = 0 := by
      intro x hx
      obtain ⟨k', _, rfl⟩ := List.mem_map.1 hx
      rfl
    rw [List.sum_eq_zero hall]
    exact Nat.zero_le _
  | cons i rest ih =>
    have heq : ∀ k ∈ K, (xmitEntriesOf k (i :: rest)).length ≤
        ((mapFind k i.2).getD []).length + (xmitEntriesOf k rest).length := by
      intro k _
      simp [xmitEntriesOf]
    refine (List.sum_le_sum heq).trans ?_
    rw [List.sum_map_add]
    have h1 := sum_find_le K hK i.2
    have h2 : totalXmitEntries (i :: rest) = totalEntries i.2 + totalXmitEntries rest := by
      simp [totalXmitEntries]
    rw [h2]
    omega

/-- In a reachable store the subject index holds no more records than the transmit
index. -/
theorem reachable_total_count (env : Collaborators) (heq : IsSameDataEquivalence env)
    (s : OrbAlmStore) (hr : Reachable env s) :
    totalEntries s.subjectAlmMap ≤ totalXmitEntries s.xmitAlmMap := by
  have hkeys := reachable_subjectKeys env s hr
  have hnodup : (s.subjectAlmMap.map Prod.fst).Nodup := by
    unfold List.Nodup
    rw [List.pairwise_map]
    exact List.Pairwise.imp (fun h => Nat.ne_of_lt h) hkeys
  have hle : ∀ i ∈ s.subjectAlmMap,
      i.2.length ≤ (xmitEntriesOf i.1 s.xmitAlmMap).length := by
    intro i hi
    have h := reachable_subject_count env heq s hr i.1
    rw [mapFind_of_mem s.subjectAlmMap hkeys i hi] at h
    exact h
  have h1 := sum_xmitEntriesOf_le (s.subjectAlmMap.map Prod.fst) hnodup s.xmitAlmMap
  rw [List.map_map] at h1
  exact (List.sum_le_sum hle).trans h1

theorem mapOfEpochs_succ (n : Nat) :
    mapOfEpochs (n + 1) = mapOfEpochs n ++ [(Int.ofNat n, OrbAlm.mk (Int.ofNat n) 0 true 0)] := by
  simp [mapOfEpochs, List.range_succ]

theorem mapOfEpochs_keys (n : Nat) : ∀ e ∈ mapOfEpochs n, e.1 < Int.ofNat n := by
  intro e he
  obtain ⟨i, hi, rfl⟩ := List.mem_map.1 he
  exact Int.ofNat_lt.2 (List.mem_range.1 hi)

theorem multimapInsert_append (k : CommonTime) (v : OrbAlm) (m : OrbAlmMap)
    (h : ∀ e ∈ m, e.1 ≤ k) : multimapInsert k v m = m ++ [(k, v)] := by
  induction m with
  | nil => rfl
  | cons e rest ih =>
    rw [multimapInsert, if_pos (h e (List.mem_cons_self _ _)),
      ih (fun x hx => h x (List.mem_cons_of_mem _ hx))]
    rfl

theorem callsOneHealthy_succ (n : Nat) :
    callsOneHealthy (n + 1) =
      callsOneHealthy n ++ [AddCall.mk (OrbAlm.mk (Int.ofNat n) 0 true 0) 2 1 (decide (n = 0))] := by
  simp [callsOneHealthy, List.range_succ]

/-- The store that the calls of `callsOneHealthy` build from the empty store. -/
theorem addOrbAlmCalls_callsOneHealthy (n : Nat) :
    addOrbAlmCalls sameParams (callsOneHealthy (n + 1)) (emptyStore 0 0) =
      storeOneHealthy (n + 1) := by
  induction n with
  | zero => rfl
  | succ n ih =>
    have hstep : addOrbAlmCalls sameParams (callsOneHealthy (n + 1 + 1)) (emptyStore 0 0) =
        (addOrbAlm sameParams (OrbAlm.mk (Int.ofNat (n + 1)) 0 true 0) 2 1 false
          (addOrbAlmCalls sameParams (callsOneHealthy (n + 1)) (emptyStore 0 0))).2 := by
      rw [callsOneHealthy_succ (n + 1)]
      simp only [addOrbAlmCalls, List.foldl_append, List.foldl_cons, List.foldl_nil]
      have hd : decide (n + 1 = 0) = false := by simp
      rw [hd]
    rw [hstep, ih]
    have hnone : firstSameData sameParams (OrbAlm.mk (Int.ofNat (n + 1)) 0 true 0)
        (mapOfEpochs (n + 1)) = none := by
      apply firstSameData_eq_none
      intro e he hc
      have := mapOfEpochs_keys (n + 1) e he
      rw [hc.1] at this
      exact lt_irrefl _ this
    have hins : multimapInsert (Int.ofNat (n + 1)) (OrbAlm.mk (Int.ofNat (n + 1)) 0 true 0)
        (mapOfEpochs (n + 1)) = mapOfEpochs (n + 1 + 1) := by
      rw [mapOfEpochs_succ (n + 1)]
      exact multimapInsert_append _ _ _ (fun e he => le_of_lt (mapOfEpochs_keys (n + 1) e he))
    have hfind2 : mapFind 2 (storeOneHealthy (n + 1)).xmitAlmMap =
        some [(1, mapOfEpochs (n + 1))] := by
      simp [storeOneHealthy, mapFind]
    have hfind1 : mapFind 1 [((1 : SatID), mapOfEpochs (n + 1))] = some (mapOfEpochs (n + 1)) := by
      simp [mapFind]
    show (addOrbAlmXmit sameParams (OrbAlm.mk (Int.ofNat (n + 1)) 0 true 0) 2 1
      (addOrbAlmSubject sameParams (OrbAlm.mk (Int.ofNat (n + 1)) 0 true 0) 1 false
        (storeOneHealthy (n + 1))).2).2 = _
    have hsub : (addOrbAlmSubject sameParams (OrbAlm.mk (Int.ofNat (n + 1)) 0 true 0) 1 false
        (storeOneHealthy (n + 1))).2 = storeOneHealthy (n + 1) := rfl
    rw [hsub]
    simp only [addOrbAlmXmit, hfind2, Option.getD_some, hfind1, addOrbAlmToOrbAlmMap, hnone, hins]
    simp [storeOneHealthy, mapSet]

theorem size_storeOneHealthy (n : Nat) :
    size 1 (storeOneHealthy n) = 1 ∧ size 2 (storeOneHealthy n) = n % 2 ^ 32 := by
  refine ⟨?_, ?_⟩
  · rw [size_one]
    simp [storeOneHealthy, totalEntries, mapOfEpochs_length, unsignedRange]
  · rw [size_two]
    simp [storeOneHealthy, totalXmitEntries, totalEntries, mapOfEpochs_length, unsignedRange]

/-- Counterexample to C35: after `2 ^ 32` calls with different epochs, the first of them
from a healthy transmitter, the subject index holds one record and the transmit index
`2 ^ 32`; `size(1)` is 1 and `size(2)` is 0. -/
theorem size_subject_above_xmit :
    IsSameDataEquivalence sameParams ∧
    Reachable sameParams
      (addOrbAlmCalls sameParams (callsOneHealthy (2 ^ 32)) (emptyStore 0 0)) ∧
    size 1 (addOrbAlmCalls sameParams (callsOneHealthy (2 ^ 32)) (emptyStore 0 0)) = 1 ∧
    size 2 (addOrbAlmCalls sameParams (callsOneHealthy (2 ^ 32)) (emptyStore 0 0)) = 0 ∧
    ¬ size 1 (addOrbAlmCalls sameParams (callsOneHealthy (2 ^ 32)) (emptyStore 0 0)) ≤
      size 2 (addOrbAlmCalls sameParams (callsOneHealthy (2 ^ 32)) (emptyStore 0 0)) := by
  have hstore : ∀ n, 0 < n →
      addOrbAlmCalls sameParams (callsOneHealthy n) (emptyStore 0 0) = storeOneHealthy n := by
    intro n hn
    obtain ⟨m, rfl⟩ : ∃ m, n = m + 1 := ⟨n - 1, by omega⟩
    exact addOrbAlmCalls_callsOneHealthy m
  have h1 : size 1 (addOrbAlmCalls sameParams (callsOneHealthy (2 ^ 32)) (emptyStore 0 0)) =
      1 := by
    rw [hstore _ (Nat.two_pow_pos 32)]
    exact (size_storeOneHealthy _).1
  have h2 : size 2 (addOrbAlmCalls sameParams (callsOneHealthy (2 ^ 32)) (emptyStore 0 0)) =
      0 := by
    rw [hstore _ (Nat.two_pow_pos 32), (size_storeOneHealthy _).2]
    exact Nat.mod_self _
  refine ⟨sameParams_equivalence,
    reachable_addOrbAlmCalls sameParams _ _ (Reachable.init 0 0), h1, h2, ?_⟩
  rw [h1, h2]
  decide

/-- C35, amended: with `isSameData` an equivalence relation, in every store reachable from
the empty store by `addOrbAlm`, `edit` and `clear` the subject index holds no more records
than the transmit index, so that `size(1) <= size(2)` when the transmit index holds fewer
than `2 ^ 32` records; the sub-map of each subject has no more records than the transmit
index holds for that subject over all transmitters; and after one call from an unhealthy
transmitter on an empty store the counts are 0 and 1. -/
theorem reachable_subject_within_xmit (env : Collaborators) (heq : IsSameDataEquivalence env)
    (s : OrbAlmStore) (hr : Reachable env s) :
    totalEntries s.subjectAlmMap ≤ totalXmitEntries s.xmitAlmMap ∧
    (totalXmitEntries s.xmitAlmMap < 2 ^ 32 → size 1 s ≤ size 2 s) ∧
    (∀ subjID, ((mapFind subjID s.subjectAlmMap).getD []).length ≤
      (xmitEntriesOf subjID s.xmitAlmMap).length) ∧
    (∀ (alm : OrbAlm) (xmitID subjID : SatID),
      Reachable env (addOrbAlm env alm xmitID subjID false (emptyStore 0 0)).2 ∧
      size 1 (addOrbAlm env alm xmitID subjID false (emptyStore 0 0)).2 = 0 ∧
      size 2 (addOrbAlm env alm xmitID subjID false (emptyStore 0 0)).2 = 1) := by
  have htotal := reachable_total_count env heq s hr
  refine ⟨htotal, ?_, reachable_subject_count env heq s hr, ?_⟩
  · intro hlt
    rw [size_one, size_two]
    have hu : unsignedRange = 2 ^ 32 := rfl
    rw [hu, Nat.mod_eq_of_lt hlt, Nat.mod_eq_of_lt (Nat.lt_of_le_of_lt htotal hlt)]
    exact htotal
  · intro alm xmitID subjID
    refine ⟨Reachable.addOrbAlm _ alm xmitID subjID false (Reachable.init 0 0), ?_, ?_⟩
    · rw [size_one]
      rfl
    · rw [size_two]
      simp [addOrbAlm, addOrbAlmSubject, addOrbAlmXmit, addOrbAlmToOrbAlmMap, firstSameData,
        multimapInsert, mapFind, mapSet, emptyStore, totalXmitEntries, totalEntries,
        unsignedRange]

/-- Witness of C35, amended: after calls with the epochs 3, 1, 3, 2, the last of them from
an unhealthy transmitter, the subject index holds two records and the transmit index
three. -/
theorem reachable_subject_within_xmit_witness :
    IsSameDataEquivalence sameParams ∧
    Reachable sameParams (addOrbAlmCalls sameParams callsMixed (emptyStore 0 0)) ∧
    (totalEntries (addOrbAlmCalls sameParams callsMixed (emptyStore 0 0)).subjectAlmMap ≤
        totalXmitEntries (addOrbAlmCalls sameParams callsMixed (emptyStore 0 0)).xmitAlmMap ∧
      (totalXmitEntries (addOrbAlmCalls sameParams callsMixed (emptyStore 0 0)).xmitAlmMap
          < 2 ^ 32 →
        size 1 (addOrbAlmCalls sameParams callsMixed (emptyStore 0 0)) ≤
          size 2 (addOrbAlmCalls sameParams callsMixed (emptyStore 0 0))) ∧
      (∀ subjID,
        ((mapFind subjID
          (addOrbAlmCalls sameParams callsMixed (emptyStore 0 0)).subjectAlmMap).getD []).length ≤
        (xmitEntriesOf subjID
          (addOrbAlmCalls sameParams callsMixed (emptyStore 0 0)).xmitAlmMap).length) ∧
      (∀ (alm : OrbAlm) (xmitID subjID : SatID),
        Reachable sameParams (addOrbAlm sameParams alm xmitID subjID false (emptyStore 0 0)).2 ∧
        size 1 (addOrbAlm sameParams alm xmitID subjID false (emptyStore 0 0)).2 = 0 ∧
        size 2 (addOrbAlm sameParams alm xmitID subjID false (emptyStore 0 0)).2 = 1)) ∧
    size 1 (addOrbAlmCalls sameParams callsMixed (emptyStore 0 0)) = 2 ∧
    size 2 (addOrbAlmCalls sameParams callsMixed (emptyStore 0 0)) = 3 :=
  ⟨sameParams_equivalence,
   reachable_addOrbAlmCalls sameParams callsMixed _ (Reachable.init 0 0),
   reachable_subject_within_xmit sameParams sameParams_equivalence _
     (reachable_addOrbAlmCalls sameParams callsMixed _ (Reachable.init 0 0)),
   by decide, by decide⟩

/-! # Properties of the string functions -/

/-! ## `translate` -/

theorem findCharFrom_eq (c : Char) (l : List Char) (pos : Nat) :
    findCharFrom c l pos = if c ∈ l then some (pos + l.indexOf c) else none := by
  induction l generalizing pos with
  | nil => simp [findCharFrom]
  | cons x rest ih =>
    by_cases hx : x = c
    · subst hx
      simp [findCharFrom, List.indexOf_cons]
    · have hne : ¬ c = x := fun h => hx h.symm
      have hb : (x == c) = false := by simpa using hx
      rw [findCharFrom, if_neg hx, ih, List.indexOf_cons, hb]
      by_cases hm : c ∈ rest
      · simp [hm, Nat.add_assoc, Nat.add_comm 1]
      · simp [hm, hne]

theorem translate_step (from' to' : List Char) (result : List Char) (it : Char) :
    (match findChar from' it with
      | none => result ++ [it]
      | some pos => if h : pos < to'.length then result ++ [to'[pos]] else result) =
    result ++ translateChar from' to' it := by
  rw [findChar, findCharFrom_eq, translateChar]
  by_cases hm : it ∈ from'
  · simp only [hm, if_true, Nat.zero_add]
    by_cases hlt : from'.indexOf it < to'.length
    · simp [hlt]
    · simp [hlt]
  · simp [hm]

theorem translate_foldl (from' to' : List Char) (str result : List Char) :
    str.foldl (fun result it =>
      match findChar from' it with
      | none => result ++ [it]
      | some pos => if h : pos < to'.length then result ++ [to'[pos]] else result) result =
    result ++ (str.map (translateChar from' to')).flatten := by
  induction str generalizing result with
  | nil => simp
  | cons c rest ih =>
    rw [List.foldl_cons, translate_step, ih]
    simp [List.append_assoc]

theorem translateChar_self (from' : List Char) (c : Char) :
    translateChar from' from' c = [c] := by
  rw [translateChar]
  by_cases hm : c ∈ from'
  · have hlt : from'.indexOf c < from'.length := List.indexOf_lt_length.2 hm
    simp [hm, hlt, List.getElem_indexOf]
  · simp [hm]

theorem translateChar_length (from' to' : List Char) (c : Char) :
    (translateChar from' to' c).length ≤ 1 := by
  rw [translateChar]
  split
  · split <;> simp
  · simp

theorem translateChar_flatten_length (from' to' str : List Char) :
    ((str.map (translateChar from' to')).flatten).length ≤ str.length := by
  induction str with
  | nil => simp
  | cons c rest ih =>
    simp only [List.map_cons, List.flatten_cons, List.length_append, List.length_cons]
    have := translateChar_length from' to' c
    omega

theorem translateChar_flatten_self (from' str : List Char) :
    (str.map (translateChar from' from')).flatten = str := by
  induction str with
  | nil => rfl
  | cons c rest ih =>
    simp only [List.map_cons, List.flatten_cons, translateChar_self, ih]
    rfl

/-- C25: `translate(str, from, to)` is the concatenation, in the order of `str`, of the
images of its characters: a character that is not in `from` gives itself, a character
whose first position in `from` is `p` gives `to[p]` when `p < |to|` and nothing
otherwise.  Hence the result is not longer than `str`, and `translate(str, from, from)`
is `str`. -/
theorem translate_by_position (str from' to' : List Char) :
    translate str from' to' = (str.map (translateChar from' to')).flatten ∧
    (∀ c, c ∉ from' → translateChar from' to' c = [c]) ∧
    (∀ c, c ∈ from' → ∀ h : from'.indexOf c < to'.length,
      translateChar from' to' c = [to'[from'.indexOf c]]) ∧
    (∀ c, c ∈ from' → ¬ from'.indexOf c < to'.length → translateChar from' to' c = []) ∧
    (translate str from' to').length ≤ str.length ∧
    translate str from' from' = str := by
  have hspec : ∀ t : List Char, translate str from' t =
      (str.map (translateChar from' t)).flatten := by
    intro t
    rw [translate, translate_foldl]
    rfl
  refine ⟨hspec to', ?_, ?_, ?_, ?_, ?_⟩
  · intro c hc
    simp [translateChar, hc]
  · intro c hc h
    simp [translateChar, hc, h]
  · intro c hc h
    simp [translateChar, hc, h]
  · rw [hspec]
    exact translateChar_flatten_length from' to' str
  · rw [hspec]
    exact translateChar_flatten_self from' str

/-- The function `translate` on a concrete input: `a` becomes `x`, `b` has no counterpart
and is removed, `c` is kept. -/
theorem translate_example :
    translate "abcab".toList "ab".toList "x".toList = "xcx".toList ∧
    translate "abcab".toList "ab".toList "ab".toList = "abcab".toList := by
  decide

/-! ## `trim` -/

theorem toSizeType_natCast (k : Nat) (h : k < 2 ^ 64) : toSizeType (k : Int) = k := by
  unfold toSizeType
  have h1 : ((k : Int) % 2 ^ 64) = (k : Int) := by
    apply Int.emod_eq_of_lt
    · omega
    · have : ((2 : Int) ^ 64) = ((2 ^ 64 : Nat) : Int) := by norm_num
      rw [this]
      exact_mod_cast h
  rw [h1]
  exact Int.toNat_natCast k

theorem toInt_of_lt (n : Nat) (h : n < 2 ^ 31) : toInt n = (n : Int) := by
  unfold toInt
  have h1 : n % 2 ^ 32 = n := Nat.mod_eq_of_lt (by omega)
  rw [h1, if_pos h]

theorem wrapInt_of_range (i : Int) (hlo : -2 ^ 31 ≤ i) (hhi : i < 2 ^ 31) : wrapInt i = i := by
  unfold wrapInt
  omega

/-- For a string of `2 ^ 31` characters `int(str.size()) - 1` wraps around to the index of
its last character, and for one of `2 ^ 31 + 1` characters it is negative. -/
theorem wrapInt_at_int_range :
    wrapInt (toInt (2 ^ 31) - 1) = 2 ^ 31 - 1 ∧ wrapInt (toInt (2 ^ 31 + 1) - 1) = -2 ^ 31 := by
  decide

theorem trimFirstLoop_eq (isSpace : Char → Bool) (str : List Char)
    (hlen : str.length < 2 ^ 31) (fuel k : Nat) (hk : k ≤ str.length)
    (hfuel : ((str.drop k).takeWhile isSpace).length ≤ fuel) :
    trimFirstLoop isSpace str ((str.length : Int) - 1) fuel (k : Int) =
      ((k + ((str.drop k).takeWhile isSpace).length : Nat) : Int) := by
  induction fuel generalizing k with
  | zero =>
    have h0 : ((str.drop k).takeWhile isSpace).length = 0 := by omega
    rw [trimFirstLoop, h0]
    rfl
  | succ fuel ih =>
    rw [trimFirstLoop]
    by_cases hke : k = str.length
    · have hcond : ¬ ((k : Int) ≤ (str.length : Int) - 1) := by omega
      rw [if_neg (fun h => hcond h.1)]
      have : str.drop k = [] := by rw [hke]; exact List.drop_length str
      rw [this]
      rfl
    · have hlt : k < str.length := by omega
      have hdrop : str.drop k = str[k] :: str.drop (k + 1) := List.drop_eq_getElem_cons hlt
      have hget : str.getD (toSizeType (k : Int)) ' ' = str[k] := by
        rw [toSizeType_natCast k (by omega), List.getD_eq_getElem _ _ hlt]
      have hle : (k : Int) ≤ (str.length : Int) - 1 := by omega
      rw [hget, hdrop]
      by_cases hsp : isSpace str[k] = true
      · rw [if_pos ⟨hle, hsp⟩, List.takeWhile_cons_of_pos hsp]
        have hfuel2 : ((str.drop (k + 1)).takeWhile isSpace).length ≤ fuel := by
          rw [hdrop, List.takeWhile_cons_of_pos hsp] at hfuel
          simpa using hfuel
        have := ih (k + 1) (by omega) hfuel2
        rw [wrapInt_of_range ((k : Int) + 1) (by omega) (by omega),
          show ((k : Int) + 1) = ((k + 1 : Nat) : Int) by push_cast; rfl, this]
        simp only [List.length_cons]
        congr 1
        omega
      · rw [if_neg (fun h => hsp h.2), List.takeWhile_cons_of_neg hsp]
        rfl

theorem trimLastLoop_eq (isSpace : Char → Bool) (str : List Char)
    (hlen : str.length < 2 ^ 31) (fuel f m : Nat) (hf : f ≤ m) (hm : m ≤ str.length)
    (hfuel : m - f ≤ fuel) :
    trimLastLoop isSpace str (f : Int) fuel ((m : Int) - 1) =
      ((f + (((str.take m).drop f).rdropWhile isSpace).length : Nat) : Int) - 1 := by
  induction fuel generalizing m with
  | zero =>
    have hmf : m = f := by omega
    subst hmf
    have : (str.take m).drop m = [] := by
      apply List.drop_eq_nil_of_le
      simp
    rw [trimLastLoop, this]
    simp
  | succ fuel ih =>
    rw [trimLastLoop]
    by_cases hmf : m = f
    · subst hmf
      have hcond : ¬ ((m : Int) - 1 ≥ (m : Int)) := by omega
      rw [if_neg (fun h => hcond h.1)]
      have : (str.take m).drop m = [] := by
        apply List.drop_eq_nil_of_le
        simp
      rw [this]
      simp
    · obtain ⟨m', rfl⟩ : ∃ m', m = m' + 1 := ⟨m - 1, by omega⟩
      have hlt : m' < str.length := by omega
      have hidx : ((m' + 1 : Nat) : Int) - 1 = (m' : Int) := by push_cast; omega
      have hget : str.getD (toSizeType (m' : Int)) ' ' = str[m'] := by
        rw [toSizeType_natCast m' (by omega), List.getD_eq_getElem _ _ hlt]
      have htake : (str.take (m' + 1)).drop f = (str.take m').drop f ++ [str[m']] := by
        rw [List.take_succ, List.getElem?_eq_getElem hlt]
        simp only [Option.toList_some]
        rw [List.drop_append_of_le_length]
        rw [List.length_take]
        omega
      have hge : (m' : Int) ≥ (f : Int) := by omega
      rw [hidx, hget, htake]
      by_cases hsp : isSpace str[m'] = true
      · rw [if_pos ⟨hge, hsp⟩, List.rdropWhile_concat_pos _ _ _ hsp,
          wrapInt_of_range ((m' : Int) - 1) (by omega) (by omega)]
        exact ih m' (by omega) (by omega) (by omega)
      · rw [if_neg (fun h => hsp h.2), List.rdropWhile_concat_neg _ _ _ hsp]
        have hl : ((str.take m').drop f ++ [str[m']]).length = m' + 1 - f := by
          rw [← htake, List.length_drop, List.length_take]
          omega
        rw [hl]
        omega

theorem drop_length_takeWhile (p : Char → Bool) (l : List Char) :
    l.drop (l.takeWhile p).length = l.dropWhile p := by
  induction l with
  | nil => rfl
  | cons c rest ih =>
    by_cases h : p c = true
    · rw [List.takeWhile_cons_of_pos h, List.dropWhile_cons_of_pos h]
      simpa using ih
    · rw [List.takeWhile_cons_of_neg h, List.dropWhile_cons_of_neg h]
      rfl

/-- For a string of fewer than `2 ^ 31` characters `trim` drops the leading whitespace
and then the trailing whitespace. -/
theorem trim_eq (isSpace : Char → Bool) (str : List Char) (hlen : str.length < 2 ^ 31) :
    trim isSpace str = (str.dropWhile isSpace).rdropWhile isSpace := by
  have hf := trimFirstLoop_eq isSpace str hlen (str.length + 1) 0 (Nat.zero_le _)
    (by
      have := (List.takeWhile_sublist isSpace (l := str)).length_le
      simp only [List.drop_zero]
      omega)
  simp only [List.drop_zero, Nat.zero_add] at hf
  have hfle : (str.takeWhile isSpace).length ≤ str.length :=
    (List.takeWhile_sublist isSpace).length_le
  have hl := trimLastLoop_eq isSpace str hlen (str.length + 1) (str.takeWhile isSpace).length
    str.length hfle (Nat.le_refl _) (by omega)
  rw [List.take_length, drop_length_takeWhile] at hl
  have hRle : ((str.dropWhile isSpace).rdropWhile isSpace).length ≤ str.length := by
    have h1 := (List.rdropWhile_prefix isSpace (str.dropWhile isSpace)).length_le
    have h2 := (List.dropWhile_sublist isSpace (l := str)).length_le
    omega
  unfold trim
  simp only []
  rw [toInt_of_lt str.length hlen,
    wrapInt_of_range ((str.length : Int) - 1) (by omega) (by omega)]
  have h0 : ((0 : Nat) : Int) = 0 := rfl
  rw [← h0, hf, hl]
  have hsub : wrapInt (wrapInt ((((str.takeWhile isSpace).length +
      ((str.dropWhile isSpace).rdropWhile isSpace).length : Nat) : Int) - 1 -
      ((str.takeWhile isSpace).length : Int)) + 1) =
      ((((str.dropWhile isSpace).rdropWhile isSpace).length : Nat) : Int) := by
    have e1 : ((((str.takeWhile isSpace).length +
        ((str.dropWhile isSpace).rdropWhile isSpace).length : Nat) : Int) - 1 -
        ((str.takeWhile isSpace).length : Int)) =
        ((((str.dropWhile isSpace).rdropWhile isSpace).length : Nat) : Int) - 1 := by
      push_cast
      omega
    rw [e1, wrapInt_of_range
      (((((str.dropWhile isSpace).rdropWhile isSpace).length : Nat) : Int) - 1)
      (by omega) (by omega), wrapInt_of_range _ (by omega) (by omega)]
    omega
  rw [hsub, toSizeType_natCast _ (by omega), toSizeType_natCast _ (by omega), substr,
    drop_length_takeWhile]
  exact ((List.prefix_iff_eq_take).1 (List.rdropWhile_prefix isSpace _)).symm

/-- When `int(str.size())` is not positive no loop of `trim` runs and the length handed
to the constructor is the conversion of a negative `int`: the whole string is returned. -/
theorem trim_of_int_not_positive (isSpace : Char → Bool) (n : Nat) (str : List Char)
    (hn : str.length = n) (hneg : toInt n ≤ 0) (hmin : -2 ^ 31 < toInt n)
    (hbig : n ≤ toSizeType (toInt n)) :
    trim isSpace str = str := by
  unfold trim
  simp only []
  rw [hn, wrapInt_of_range (toInt n - 1) (by omega) (by omega)]
  have h1 : trimFirstLoop isSpace str (toInt n - 1) (n + 1) 0 = 0 := by
    rw [trimFirstLoop, if_neg]
    intro h
    have := h.1
    omega
  rw [h1]
  have h2 : trimLastLoop isSpace str 0 (n + 1) (toInt n - 1) = toInt n - 1 := by
    rw [trimLastLoop, if_neg]
    intro h
    have := h.1
    omega
  rw [h2]
  have h3 : wrapInt (wrapInt (toInt n - 1 - 0) + 1) = toInt n := by
    rw [wrapInt_of_range (toInt n - 1 - 0) (by omega) (by omega),
      wrapInt_of_range _ (by omega) (by omega)]
    omega
  have h4 : toSizeType 0 = 0 := rfl
  rw [h3, h4, substr, List.drop_zero]
  exact List.take_of_length_le (by rw [hn]; exact hbig)

/-- C24, at the failing input: for the string of `2 ^ 31 + 1` blanks `int(str.size())` is
negative, and `trim` returns the string itself, which is all whitespace and not empty. -/
theorem trim_keeps_long_blank_string :
    trim exampleSpace (List.replicate (2 ^ 31 + 1) ' ') = List.replicate (2 ^ 31 + 1) ' ' ∧
    (∀ c ∈ List.replicate (2 ^ 31 + 1) ' ', exampleSpace c = true) ∧
    trim exampleSpace (List.replicate (2 ^ 31 + 1) ' ') ≠ [] := by
  have h : trim exampleSpace (List.replicate (2 ^ 31 + 1) ' ') =
      List.replicate (2 ^ 31 + 1) ' ' :=
    trim_of_int_not_positive exampleSpace (2 ^ 31 + 1) _ (List.length_replicate _ _)
      (by decide) (by decide) (by decide)
  refine ⟨h, ?_, ?_⟩
  · intro c hc
    rw [List.eq_of_mem_replicate hc]
    decide
  · rw [h]
    intro hnil
    have hl := congrArg List.length hnil
    rw [List.length_replicate, List.length_nil] at hl
    exact absurd hl (by decide)

theorem rdropWhile_append_rtakeWhile (p : Char → Bool) (l : List Char) :
    l.rdropWhile p ++ l.rtakeWhile p = l := by
  rw [List.rdropWhile, List.rtakeWhile, ← List.reverse_append, List.takeWhile_append_dropWhile,
    List.reverse_reverse]

theorem head_of_append_not (p : Char → Bool) (R D t : List Char) (hR : R ≠ [])
    (ht : R ++ t = D)
    (hhead : ∀ x, D.head? = some x → p x = false) : p (R.head hR) = false := by
  cases R with
  | nil => exact absurd rfl hR
  | cons r R' =>
    rw [← ht] at hhead
    exact hhead r rfl

/-- What `trim` does below the range of `int`: for a string `s` of fewer than `2 ^ 31`
characters, `s` is `a`, then `trim(s)`, then `b`, where every character of `a` and of `b`
is whitespace; `trim(s)` is empty or begins and ends with a character that is not
whitespace; and `trim(s)` is empty when every character of `s` is whitespace. -/
theorem trim_removes_outer_whitespace (isSpace : Char → Bool) (s : List Char)
    (hlen : s.length < 2 ^ 31) :
    (∃ a b, s = a ++ trim isSpace s ++ b ∧ (∀ c ∈ a, isSpace c = true) ∧
      (∀ c ∈ b, isSpace c = true)) ∧
    (trim isSpace s = [] ∨ ∃ h : trim isSpace s ≠ [],
      isSpace ((trim isSpace s).head h) = false ∧
      isSpace ((trim isSpace s).getLast h) = false) ∧
    ((∀ c ∈ s, isSpace c = true) → trim isSpace s = []) := by
  rw [trim_eq isSpace s hlen]
  refine ⟨⟨s.takeWhile isSpace, (s.dropWhile isSpace).rtakeWhile isSpace, ?_, ?_, ?_⟩, ?_, ?_⟩
  · rw [List.append_assoc, rdropWhile_append_rtakeWhile, List.takeWhile_append_dropWhile]
  · intro c hc
    exact List.mem_takeWhile_imp hc
  · intro c hc
    rw [List.rtakeWhile, List.mem_reverse] at hc
    exact List.mem_takeWhile_imp hc
  · by_cases hR : (s.dropWhile isSpace).rdropWhile isSpace = []
    · exact Or.inl hR
    · refine Or.inr ⟨hR, ?_, ?_⟩
      · obtain ⟨t, ht⟩ := List.rdropWhile_prefix isSpace (s.dropWhile isSpace)
        refine head_of_append_not isSpace _ _ t hR ht ?_
        intro x hx
        have := List.head?_dropWhile_not isSpace s
        rw [hx] at this
        exact this
      · have := List.rdropWhile_last_not isSpace (s.dropWhile isSpace) hR
        simpa using this
  · intro hall
    have : s.dropWhile isSpace = [] := List.dropWhile_eq_nil_iff.2 hall
    rw [this]
    exact List.rdropWhile_nil isSpace

/-- An instance of it: `trim` of a blank, `a`, a blank, `b`, a tab is `a`, a blank,
`b`; `trim` of two blanks is empty. -/
theorem trim_removes_outer_whitespace_witness :
    ((∃ a b, " a b\t".toList = a ++ trim exampleSpace " a b\t".toList ++ b ∧
        (∀ c ∈ a, exampleSpace c = true) ∧ (∀ c ∈ b, exampleSpace c = true)) ∧
      (trim exampleSpace " a b\t".toList = [] ∨ ∃ h : trim exampleSpace " a b\t".toList ≠ [],
        exampleSpace ((trim exampleSpace " a b\t".toList).head h) = false ∧
        exampleSpace ((trim exampleSpace " a b\t".toList).getLast h) = false) ∧
      ((∀ c ∈ " a b\t".toList, exampleSpace c = true) →
        trim exampleSpace " a b\t".toList = [])) ∧
    trim exampleSpace " a b\t".toList = "a b".toList ∧
    trim exampleSpace "  ".toList = [] :=
  ⟨trim_removes_outer_whitespace exampleSpace " a b\t".toList (by decide),
   by decide, by decide⟩

/-! ## `replace` -/

theorem replaceOccurrences_skip (from' to' : List Char) (l : List Char) (k : Nat) :
    replaceOccurrences from' to' l k = replaceOccurrences from' to' (l.drop k) 0 := by
  induction l generalizing k with
  | nil => simp [replaceOccurrences]
  | cons c rest ih =>
    cases k with
    | zero => rfl
    | succ k =>
      rw [replaceOccurrences, ih k]
      rfl

theorem replaceOccurrences_match (from' to' : List Char) (hfrom : from' ≠ []) (l : List Char)
    (hp : from'.isPrefixOf l = true) :
    replaceOccurrences from' to' l 0 =
      to' ++ replaceOccurrences from' to' (l.drop from'.length) 0 := by
  cases l with
  | nil =>
    cases from' with
    | nil => exact absurd rfl hfrom
    | cons a t => simp [List.isPrefixOf] at hp
  | cons c rest =>
    have hpos : 0 < from'.length := List.length_pos.2 hfrom
    rw [replaceOccurrences, if_pos hp, replaceOccurrences_skip]
    congr 2
    obtain ⟨n, hn⟩ : ∃ n, from'.length = n + 1 := ⟨from'.length - 1, by omega⟩
    rw [hn]
    rfl

theorem replaceOccurrences_no_match (from' to' : List Char) (c : Char) (rest : List Char)
    (hp : ¬ from'.isPrefixOf (c :: rest) = true) :
    replaceOccurrences from' to' (c :: rest) 0 = c :: replaceOccurrences from' to' rest 0 := by
  rw [replaceOccurrences, if_neg hp]

theorem findSubFrom_none (from' to' : List Char) (l : List Char)
    (pos : Nat) (h : findSubFrom from' l pos = none) :
    replaceOccurrences from' to' l 0 = l := by
  induction l generalizing pos with
  | nil => rfl
  | cons c rest ih =>
    rw [findSubFrom] at h
    by_cases hp : from'.isPrefixOf (c :: rest) = true
    · rw [if_pos hp] at h
      cases h
    · rw [if_neg hp] at h
      rw [replaceOccurrences_no_match from' to' c rest hp, ih (pos + 1) h]

theorem findSubFrom_some (from' to' : List Char) (l : List Char) (pos found : Nat)
    (h : findSubFrom from' l pos = some found) :
    ∃ i, found = pos + i ∧ from'.isPrefixOf (l.drop i) = true ∧
      i + from'.length ≤ l.length ∧
      replaceOccurrences from' to' l 0 =
        l.take i ++ replaceOccurrences from' to' (l.drop i) 0 := by
  induction l generalizing pos with
  | nil =>
    rw [findSubFrom] at h
    by_cases hf : from' = []
    · rw [if_pos hf] at h
      exact ⟨0, by simpa using (Option.some.inj h).symm, by simp [hf], by simp [hf], rfl⟩
    · rw [if_neg hf] at h
      cases h
  | cons c rest ih =>
    rw [findSubFrom] at h
    by_cases hp : from'.isPrefixOf (c :: rest) = true
    · rw [if_pos hp] at h
      refine ⟨0, by simpa using (Option.some.inj h).symm, hp, ?_, rfl⟩
      have := (List.isPrefixOf_iff_prefix.1 hp).length_le
      simpa using this
    · rw [if_neg hp] at h
      obtain ⟨i, hi, hpi, hlen, hrep⟩ := ih (pos + 1) h
      refine ⟨i + 1, by omega, hpi, by simp only [List.length_cons]; omega, ?_⟩
      rw [replaceOccurrences_no_match from' to' c rest hp, hrep]
      rfl

theorem replaceLoop_eq (str from' to' : List Char) (hfrom : from' ≠ []) (fuel : Nat)
    (result : List Char) (start : Nat) (hstart : start ≤ str.length)
    (hfuel : str.length - start < fuel) :
    replaceLoop str from' to' fuel result start =
      .ok (result ++ replaceOccurrences from' to' (str.drop start) 0) := by
  induction fuel generalizing result start with
  | zero => omega
  | succ fuel ih =>
    have hpos : 0 < from'.length := List.length_pos.2 hfrom
    have hfind : findSub str from' start = findSubFrom from' (str.drop start) start := by
      rw [findSub, if_pos hstart]
    have hnot : ¬ start > str.length := by omega
    rw [replaceLoop, hfind]
    cases hf : findSubFrom from' (str.drop start) start with
    | none =>
      simp only [appendSub, if_neg hnot, substr]
      rw [findSubFrom_none from' to' _ start hf]
      have : (str.drop start).take (str.length - start) = str.drop start := by
        apply List.take_of_length_le
        simp
      rw [this]
    | some found =>
      obtain ⟨i, hi, hpi, hlen, hrep⟩ := findSubFrom_some from' to' _ start found hf
      rw [List.length_drop] at hlen
      simp only [appendSub, if_neg hnot, substr]
      rw [ih _ (found + from'.length) (by omega) (by omega), hrep,
        replaceOccurrences_match from' to' hfrom _ hpi]
      have hd : str.drop (found + from'.length) =
          ((str.drop start).drop i).drop from'.length := by
        rw [List.drop_drop, List.drop_drop]
        congr 1
        omega
      have hsub : found - start = i := by omega
      rw [hd, hsub]
      simp [List.append_assoc]

theorem replace_eq (str from' to' : List Char) (start : Nat) (hfrom : from' ≠ [])
    (hstart : start ≤ str.length) :
    replace str from' to' start =
      .ok (str.take start ++ replaceOccurrences from' to' (str.drop start) 0) := by
  have hpos : 0 < from'.length := List.length_pos.2 hfrom
  have h0 : ¬ (0 > str.length) := by omega
  simp only [replace, replaceInPlace, not_not.2 hpos, if_false, appendSub, if_neg h0,
    substr, List.drop_zero, List.nil_append]
  exact replaceLoop_eq str from' to' hfrom _ _ start hstart (by omega)

theorem replaceOccurrences_absent (from' to' : List Char) (l : List Char)
    (h : ∀ i, ¬ from' <+: l.drop i) : replaceOccurrences from' to' l 0 = l := by
  induction l with
  | nil => rfl
  | cons c rest ih =>
    have hp : ¬ from'.isPrefixOf (c :: rest) = true := by
      rw [List.isPrefixOf_iff_prefix]
      exact h 0
    rw [replaceOccurrences_no_match from' to' c rest hp, ih (fun i => h (i + 1))]

theorem replaceOccurrences_self (from' : List Char) (hfrom : from' ≠ []) (n : Nat)
    (l : List Char) (hl : l.length ≤ n) : replaceOccurrences from' from' l 0 = l := by
  induction n generalizing l with
  | zero =>
    have : l = [] := List.length_eq_zero.1 (by omega)
    rw [this]
    rfl
  | succ n ih =>
    cases l with
    | nil => rfl
    | cons c rest =>
      have hpos : 0 < from'.length := List.length_pos.2 hfrom
      by_cases hp : from'.isPrefixOf (c :: rest) = true
      · rw [replaceOccurrences_match from' from' hfrom _ hp,
          ih _ (by
            rw [List.length_drop]
            simp only [List.length_cons] at hl ⊢
            omega)]
        have hpre := List.prefix_iff_eq_take.1 (List.isPrefixOf_iff_prefix.1 hp)
        have := List.take_append_drop from'.length (c :: rest)
        rw [← hpre] at this
        exact this
      · rw [replaceOccurrences_no_match from' from' c rest hp,
          ih rest (by simp only [List.length_cons] at hl; omega)]

/-- C26: for a non-empty `from` and `start <= |str|`, `replace(str, from, to, start)`
returns (within the rounds given to its loop, and without throwing) the first `start`
characters of `str` followed by the rest of `str` in which every occurrence of `from`,
found from left to right without overlap, is replaced by `to`; when `from` does not occur
at or after `start` the result is `str`; and `replace(str, from, from, start)` is
`str`. -/
theorem replace_all_occurrences (str from' to' : List Char) (start : Nat)
    (hfrom : from' ≠ []) (hstart : start ≤ str.length) :
    replace str from' to' start =
      .ok (str.take start ++ replaceOccurrences from' to' (str.drop start) 0) ∧
    ((∀ i, start ≤ i → ¬ from' <+: str.drop i) → replace str from' to' start = .ok str) ∧
    replace str from' from' start = .ok str := by
  refine ⟨replace_eq str from' to' start hfrom hstart, ?_, ?_⟩
  · intro habs
    rw [replace_eq str from' to' start hfrom hstart, replaceOccurrences_absent,
      List.take_append_drop]
    intro i
    rw [List.drop_drop]
    exact habs (start + i) (by omega)
  · rw [replace_eq str from' from' start hfrom hstart,
      replaceOccurrences_self from' hfrom _ _ (Nat.le_refl _), List.take_append_drop]

/-- Witness of C26: in `aXXbXc` from position 1 on, each `X` becomes `YZ`; replacing `XX`
leaves the single `X` alone; a start past the end throws. -/
theorem replace_all_occurrences_witness :
    (replace "aXXbXc".toList "X".toList "YZ".toList 1 =
        .ok ("aXXbXc".toList.take 1 ++
          replaceOccurrences "X".toList "YZ".toList ("aXXbXc".toList.drop 1) 0) ∧
      ((∀ i, 1 ≤ i → ¬ "X".toList <+: "aXXbXc".toList.drop i) →
        replace "aXXbXc".toList "X".toList "YZ".toList 1 = .ok "aXXbXc".toList) ∧
      replace "aXXbXc".toList "X".toList "X".toList 1 = .ok "aXXbXc".toList) ∧
    replace "aXXbXc".toList "X".toList "YZ".toList 1 = .ok "aYZYZbYZc".toList ∧
    replace "aXXbXc".toList "XX".toList "-".toList 0 = .ok "a-bXc".toList ∧
    replace "XaX".toList "X".toList "XX".toList 1 = .ok "XaXX".toList ∧
    replace "abc".toList "X".toList "Y".toList 4 = .error StringFailure.outOfRange ∧
    replace "abc".toList [] "Y".toList 0 = .error StringFailure.assertion :=
  ⟨replace_all_occurrences "aXXbXc".toList "X".toList "YZ".toList 1 (by decide) (by decide),
   rfl, rfl, rfl, rfl, rfl⟩

/-! ## `split` -/

theorem maximalRuns_nil (theDelimiters : List Char) : maximalRuns theDelimiters [] = [] := by
  simp [maximalRuns, List.splitOnP_nil]

theorem maximalRuns_delim (theDelimiters : List Char) (d : Char) (l : List Char)
    (hd : d ∈ theDelimiters) : maximalRuns theDelimiters (d :: l) = maximalRuns theDelimiters l := by
  have h := List.splitOnP_first (fun c => decide (c ∈ theDelimiters)) []
    (by simp) d (by simpa using hd) l
  rw [List.nil_append] at h
  rw [maximalRuns, h, List.filter_cons_of_neg (by simp)]
  rfl

theorem maximalRuns_run (theDelimiters : List Char) (run : List Char) (hne : run ≠ [])
    (hrun : ∀ c ∈ run, c ∉ theDelimiters) :
    maximalRuns theDelimiters run = [run] := by
  rw [maximalRuns, List.splitOnP_eq_single (fun c => decide (c ∈ theDelimiters)) run
    (by simpa using hrun)]
  cases run with
  | nil => exact absurd rfl hne
  | cons c r => rfl

theorem maximalRuns_run_delim (theDelimiters : List Char) (run : List Char) (hne : run ≠ [])
    (hrun : ∀ c ∈ run, c ∉ theDelimiters) (d : Char) (hd : d ∈ theDelimiters)
    (l : List Char) :
    maximalRuns theDelimiters (run ++ d :: l) = run :: maximalRuns theDelimiters l := by
  have h := List.splitOnP_first (fun c => decide (c ∈ theDelimiters)) run
    (by simpa using hrun) d (by simpa using hd) l
  rw [maximalRuns, h]
  cases run with
  | nil => exact absurd rfl hne
  | cons c r => rfl

theorem maximalRuns_dropWhile (theDelimiters : List Char) (l : List Char) :
    maximalRuns theDelimiters (l.dropWhile (fun c => decide (c ∈ theDelimiters))) =
      maximalRuns theDelimiters l := by
  induction l with
  | nil => rfl
  | cons c rest ih =>
    by_cases hc : c ∈ theDelimiters
    · rw [List.dropWhile_cons_of_pos (by simpa using hc), ih,
        maximalRuns_delim theDelimiters c rest hc]
    · rw [List.dropWhile_cons_of_neg (by simpa using hc)]

theorem firstNotOfFrom_eq (theDelimiters : List Char) (l : List Char) (pos : Nat) :
    firstNotOfFrom theDelimiters l pos =
      if l.dropWhile (fun c => decide (c ∈ theDelimiters)) = [] then none
      else some (pos + (l.takeWhile (fun c => decide (c ∈ theDelimiters))).length) := by
  induction l generalizing pos with
  | nil => rfl
  | cons c rest ih =>
    by_cases hc : c ∈ theDelimiters
    · rw [firstNotOfFrom, if_pos hc, ih, List.dropWhile_cons_of_pos (by simpa using hc),
        List.takeWhile_cons_of_pos (by simpa using hc)]
      simp only [List.length_cons]
      split <;> simp [Nat.add_assoc, Nat.add_comm 1]
    · rw [firstNotOfFrom, if_neg hc, List.dropWhile_cons_of_neg (by simpa using hc),
        List.takeWhile_cons_of_neg (by simpa using hc)]
      simp

theorem firstOfFrom_eq (theDelimiters : List Char) (l : List Char) (pos : Nat) :
    firstOfFrom theDelimiters l pos =
      if l.dropWhile (fun c => !decide (c ∈ theDelimiters)) = [] then none
      else some (pos + (l.takeWhile (fun c => !decide (c ∈ theDelimiters))).length) := by
  induction l generalizing pos with
  | nil => rfl
  | cons c rest ih =>
    by_cases hc : c ∈ theDelimiters
    · rw [firstOfFrom, if_pos hc, List.dropWhile_cons_of_neg (by simpa using hc),
        List.takeWhile_cons_of_neg (by simpa using hc)]
      simp
    · rw [firstOfFrom, if_neg hc, ih, List.dropWhile_cons_of_pos (by simpa using hc),
        List.takeWhile_cons_of_pos (by simpa using hc)]
      simp only [List.length_cons]
      split <;> simp [Nat.add_assoc, Nat.add_comm 1]

theorem splitLoop_done (isSpace : Char → Bool) (aStr theDelimiters : List Char)
    (trimWhitespace ignoreEmpty : Bool) (fuel : Nat) (toReturn : List (List Char)) :
    splitLoop isSpace aStr theDelimiters trimWhitespace ignoreEmpty fuel none none toReturn =
      .ok toReturn := by
  cases fuel <;> simp [splitLoop]

theorem splitLoop_step (isSpace : Char → Bool) (aStr theDelimiters : List Char)
    (ignoreEmpty : Bool) (fuel l : Nat) (pos : Option Nat) (toReturn : List (List Char))
    (token : List Char) (hsub : substrBetween aStr (some l) pos = .ok token)
    (hne : token ≠ []) :
    splitLoop isSpace aStr theDelimiters false ignoreEmpty (fuel + 1) (some l) pos toReturn =
      splitLoop isSpace aStr theDelimiters false ignoreEmpty fuel
        (find_first_not_of aStr theDelimiters pos)
        (find_first_of aStr theDelimiters (find_first_not_of aStr theDelimiters pos))
        (toReturn ++ [token]) := by
  have hemp : token.isEmpty = false := by
    cases token with
    | nil => exact absurd rfl hne
    | cons c r => rfl
  rw [splitLoop]
  simp [hsub, hemp]

theorem take_length_takeWhile (p : Char → Bool) (l : List Char) :
    l.take (l.takeWhile p).length = l.takeWhile p := by
  induction l with
  | nil => rfl
  | cons c rest ih =>
    by_cases h : p c = true
    · rw [List.takeWhile_cons_of_pos h]
      simpa using ih
    · rw [List.takeWhile_cons_of_neg h]
      rfl

theorem splitLoop_eq (isSpace : Char → Bool) (aStr theDelimiters : List Char)
    (ignoreEmpty : Bool) (fuel : Nat) :
    ∀ (l0 : Nat) (toReturn : List (List Char)), l0 < aStr.length →
      (∀ c, (aStr.drop l0).head? = some c → c ∉ theDelimiters) →
      aStr.length - l0 ≤ fuel →
      splitLoop isSpace aStr theDelimiters false ignoreEmpty fuel (some l0)
          (find_first_of aStr theDelimiters (some l0)) toReturn =
        .ok (toReturn ++ maximalRuns theDelimiters (aStr.drop l0)) := by
  induction fuel with
  | zero => intro l0 toReturn hl0 _ hfuel; omega
  | succ fuel ih =>
    intro l0 toReturn hl0 hhead hfuel
    have hsplit := List.takeWhile_append_dropWhile (fun c => !decide (c ∈ theDelimiters))
      (aStr.drop l0)
    have hrunmem : ∀ c ∈ (aStr.drop l0).takeWhile (fun c => !decide (c ∈ theDelimiters)),
        c ∉ theDelimiters := by
      intro c hc
      simpa using List.mem_takeWhile_imp hc
    have hrunne : (aStr.drop l0).takeWhile (fun c => !decide (c ∈ theDelimiters)) ≠ [] := by
      cases hL : aStr.drop l0 with
      | nil =>
        have := congrArg List.length hL
        simp at this
        omega
      | cons c rest =>
        have hc : c ∉ theDelimiters := hhead c (by rw [hL]; rfl)
        rw [List.takeWhile_cons_of_pos (by simpa using hc)]
        exact List.cons_ne_nil _ _
    have hpos : find_first_of aStr theDelimiters (some l0) =
        if (aStr.drop l0).dropWhile (fun c => !decide (c ∈ theDelimiters)) = [] then none
        else some (l0 +
          ((aStr.drop l0).takeWhile (fun c => !decide (c ∈ theDelimiters))).length) := by
      simp only [find_first_of]
      exact firstOfFrom_eq theDelimiters (aStr.drop l0) l0
    generalize hrun : (aStr.drop l0).takeWhile (fun c => !decide (c ∈ theDelimiters)) = run
      at hsplit hrunmem hrunne hpos
    generalize hafter : (aStr.drop l0).dropWhile (fun c => !decide (c ∈ theDelimiters)) = after
      at hsplit hpos
    cases after with
    | nil =>
      rw [hpos, if_pos rfl]
      have hsub : substrBetween aStr (some l0) none = .ok (aStr.drop l0) := by
        simp only [substrBetween]
        rw [if_neg (by omega)]
      rw [splitLoop_step isSpace aStr theDelimiters ignoreEmpty fuel l0 none toReturn
        (aStr.drop l0) hsub (by rw [← hsplit, List.append_nil]; exact hrunne)]
      simp only [find_first_not_of, find_first_of]
      rw [splitLoop_done]
      rw [← hsplit, List.append_nil, maximalRuns_run theDelimiters run hrunne hrunmem]
    | cons d rest =>
      have hd : d ∈ theDelimiters := by
        have h := List.head?_dropWhile_not (fun c => !decide (c ∈ theDelimiters)) (aStr.drop l0)
        rw [hafter] at h
        simpa using h
      rw [hpos, if_neg (List.cons_ne_nil _ _)]
      have htake : substr aStr l0 run.length = run := by
        rw [substr, ← hrun]
        exact take_length_takeWhile _ _
      have hsub : substrBetween aStr (some l0) (some (l0 + run.length)) = .ok run := by
        simp only [substrBetween]
        rw [if_neg (by omega), if_neg (by omega), Nat.add_sub_cancel_left, htake]
      rw [splitLoop_step isSpace aStr theDelimiters ignoreEmpty fuel l0 (some (l0 + run.length))
        toReturn run hsub hrunne]
      have hdrop : aStr.drop (l0 + run.length) = d :: rest := by
        rw [← List.drop_drop, ← hrun, drop_length_takeWhile, hafter]
      have hnext : find_first_not_of aStr theDelimiters (some (l0 + run.length)) =
          if (d :: rest).dropWhile (fun c => decide (c ∈ theDelimiters)) = [] then none
          else some (l0 + run.length +
            ((d :: rest).takeWhile (fun c => decide (c ∈ theDelimiters))).length) := by
        simp only [find_first_not_of]
        rw [hdrop]
        exact firstNotOfFrom_eq theDelimiters (d :: rest) (l0 + run.length)
      have hruns : maximalRuns theDelimiters (aStr.drop l0) =
          run :: maximalRuns theDelimiters
            ((d :: rest).dropWhile (fun c => decide (c ∈ theDelimiters))) := by
        rw [← hsplit, maximalRuns_run_delim theDelimiters run hrunne hrunmem d hd rest,
          maximalRuns_dropWhile, maximalRuns_delim theDelimiters d rest hd]
      rw [hnext, hruns]
      by_cases hrest : (d :: rest).dropWhile (fun c => decide (c ∈ theDelimiters)) = []
      · rw [if_pos hrest, hrest, maximalRuns_nil]
        simp only [find_first_of]
        rw [splitLoop_done]
      · rw [if_neg hrest]
        have hlen : 1 ≤ ((d :: rest).takeWhile (fun c => decide (c ∈ theDelimiters))).length := by
          rw [List.takeWhile_cons_of_pos (by simpa using hd)]
          simp
        have hdrop1 : aStr.drop (l0 + run.length +
            ((d :: rest).takeWhile (fun c => decide (c ∈ theDelimiters))).length) =
            (d :: rest).dropWhile (fun c => decide (c ∈ theDelimiters)) := by
          rw [← List.drop_drop, hdrop, drop_length_takeWhile]
        have hl1 : l0 + run.length +
            ((d :: rest).takeWhile (fun c => decide (c ∈ theDelimiters))).length <
            aStr.length := by
          by_contra hge
          apply hrest
          rw [← hdrop1]
          exact List.drop_eq_nil_of_le (by omega)
        rw [ih _ (toReturn ++ [run]) hl1 _ (by omega), hdrop1]
        · simp
        · intro c hc
          rw [hdrop1] at hc
          have h := List.head?_dropWhile_not (fun c => decide (c ∈ theDelimiters)) (d :: rest)
          rw [hc] at h
          simpa using h

theorem split_eq (isSpace : Char → Bool) (aStr theDelimiters : List Char) (ignoreEmpty : Bool) :
    split isSpace aStr theDelimiters false ignoreEmpty = .ok (maximalRuns theDelimiters aStr) := by
  have hfirst : find_first_not_of aStr theDelimiters (some 0) =
      if aStr.dropWhile (fun c => decide (c ∈ theDelimiters)) = [] then none
      else some ((aStr.takeWhile (fun c => decide (c ∈ theDelimiters))).length) := by
    simp only [find_first_not_of, List.drop_zero]
    rw [firstNotOfFrom_eq]
    simp
  simp only [split]
  rw [hfirst]
  by_cases hrest : aStr.dropWhile (fun c => decide (c ∈ theDelimiters)) = []
  · rw [if_pos hrest]
    simp only [find_first_of]
    rw [splitLoop_done, ← maximalRuns_dropWhile, hrest, maximalRuns_nil]
  · rw [if_neg hrest]
    have hdrop := drop_length_takeWhile (fun c => decide (c ∈ theDelimiters)) aStr
    have hl0 : (aStr.takeWhile (fun c => decide (c ∈ theDelimiters))).length < aStr.length := by
      by_contra hge
      apply hrest
      rw [← hdrop]
      exact List.drop_eq_nil_of_le (by omega)
    rw [splitLoop_eq isSpace aStr theDelimiters ignoreEmpty (aStr.length + 1) _ [] hl0 _
      (by omega), hdrop, maximalRuns_dropWhile, List.nil_append]
    intro c hc
    rw [hdrop] at hc
    have h := List.head?_dropWhile_not (fun c => decide (c ∈ theDelimiters)) aStr
    rw [hc] at h
    simpa using h

theorem maximalRuns_no_delimiter (theDelimiters : List Char) (n : Nat) :
    ∀ l : List Char, l.length ≤ n →
      ∀ t ∈ maximalRuns theDelimiters l, ∀ c ∈ t, c ∉ theDelimiters := by
  induction n with
  | zero =>
    intro l hl t ht
    have : l = [] := List.length_eq_zero.mp (by omega)
    rw [this, maximalRuns_nil] at ht
    exact absurd ht (List.not_mem_nil _)
  | succ n ih =>
    intro l hl t ht
    cases l with
    | nil =>
      rw [maximalRuns_nil] at ht
      exact absurd ht (List.not_mem_nil _)
    | cons a rest =>
      by_cases ha : a ∈ theDelimiters
      · rw [maximalRuns_delim theDelimiters a rest ha] at ht
        exact ih rest (by simpa using hl) t ht
      · have hsplit := List.takeWhile_append_dropWhile (fun c => !decide (c ∈ theDelimiters))
          (a :: rest)
        have hrunmem : ∀ c ∈ (a :: rest).takeWhile (fun c => !decide (c ∈ theDelimiters)),
            c ∉ theDelimiters := by
          intro c hc
          simpa using List.mem_takeWhile_imp hc
        have hrunne : (a :: rest).takeWhile (fun c => !decide (c ∈ theDelimiters)) ≠ [] := by
          rw [List.takeWhile_cons_of_pos (by simpa using ha)]
          exact List.cons_ne_nil _ _
        have hd := List.head?_dropWhile_not (fun c => !decide (c ∈ theDelimiters)) (a :: rest)
        generalize hrun : (a :: rest).takeWhile (fun c => !decide (c ∈ theDelimiters)) = run
          at hsplit hrunmem hrunne
        generalize hafter : (a :: rest).dropWhile (fun c => !decide (c ∈ theDelimiters)) = after
          at hsplit hd
        cases after with
        | nil =>
          rw [← hsplit, List.append_nil, maximalRuns_run theDelimiters run hrunne hrunmem] at ht
          rw [List.mem_singleton.mp ht]
          exact hrunmem
        | cons d after =>
          have hdm : d ∈ theDelimiters := by simpa using hd
          rw [← hsplit, maximalRuns_run_delim theDelimiters run hrunne hrunmem d hdm after] at ht
          rcases List.mem_cons.mp ht with h | h
          · rw [h]
            exact hrunmem
          · refine ih after ?_ t h
            have hlen := congrArg List.length hsplit
            have hpos : 0 < run.length := List.length_pos.mpr hrunne
            simp only [List.length_append, List.length_cons] at hlen hl
            omega

theorem maximalRuns_not_empty (theDelimiters : List Char) (l : List Char) :
    ∀ t ∈ maximalRuns theDelimiters l, t ≠ [] := by
  intro t ht h
  rw [maximalRuns, List.mem_filter] at ht
  rw [h] at ht
  simp at ht

/-- C27: with `trimWhitespace = false`, `split` returns (its loop never runs out of rounds)
exactly the maximal runs of non-delimiter characters of `aStr`, in order; no returned token
is empty or holds a delimiter, and `ignoreEmpty` makes no difference. -/
theorem split_maximal_runs (isSpace : Char → Bool) (aStr theDelimiters : List Char)
    (ignoreEmpty : Bool) :
    split isSpace aStr theDelimiters false ignoreEmpty = .ok (maximalRuns theDelimiters aStr) ∧
    (∀ tokens, split isSpace aStr theDelimiters false ignoreEmpty = .ok tokens →
      ∀ t ∈ tokens, t ≠ [] ∧ ∀ c ∈ t, c ∉ theDelimiters) ∧
    split isSpace aStr theDelimiters false true =
      split isSpace aStr theDelimiters false false := by
  refine ⟨split_eq isSpace aStr theDelimiters ignoreEmpty, ?_, ?_⟩
  · intro tokens htokens t ht
    rw [split_eq] at htokens
    cases htokens
    exact ⟨maximalRuns_not_empty theDelimiters aStr t ht,
      maximalRuns_no_delimiter theDelimiters aStr.length aStr (Nat.le_refl _) t ht⟩
  · rw [split_eq, split_eq]

theorem split_example :
    split exampleSpace "  ab, cd,,e ".toList ", ".toList false true =
      .ok ["ab".toList, "cd".toList, "e".toList] := by
  rfl

/-! ## `cat` -/

theorem cat_foldl (delim : List Char) (xs : List (List Char)) (result : List Char)
    (hne : result ≠ []) :
    xs.foldl (fun result it =>
      let result := if !result.isEmpty then result ++ delim else result
      result ++ it) result = result ++ (xs.map (fun x => delim ++ x)).flatten := by
  induction xs generalizing result with
  | nil => simp
  | cons x rest ih =>
    have hemp : result.isEmpty = false := by
      cases result with
      | nil => exact absurd rfl hne
      | cons c r => rfl
    rw [List.foldl_cons]
    simp only [hemp, Bool.not_false, if_true]
    rw [ih (result ++ delim ++ x) (by simp [hne])]
    simp [List.append_assoc]

theorem intercalate_cons (delim : List Char) (x : List Char) (xs : List (List Char)) :
    List.intercalate delim (x :: xs) = x ++ (xs.map (fun y => delim ++ y)).flatten := by
  induction xs generalizing x with
  | nil => simp [List.intercalate]
  | cons y rest ih =>
    have h := ih y
    simp only [List.intercalate, List.intersperse, List.flatten_cons, List.map_cons] at h ⊢
    rw [h, List.append_assoc]

theorem cat_eq (delim : List Char) (xs : List (List Char)) :
    cat delim xs = List.intercalate delim (xs.dropWhile List.isEmpty) := by
  induction xs with
  | nil => rfl
  | cons x rest ih =>
    cases x with
    | nil =>
      rw [List.dropWhile_cons_of_pos (by rfl), ← ih]
      rfl
    | cons c r =>
      rw [List.dropWhile_cons_of_neg (by simp), intercalate_cons]
      exact cat_foldl delim rest (c :: r) (List.cons_ne_nil _ _)

/-- C38: `cat(delim, begin, end)` is the join, with `delim` between consecutive elements,
of the sequence without its leading empty strings; it is the join of the whole sequence
when the first element is not empty; and `cat(",", ["", "a"])` is `"a"`. -/
theorem cat_join_without_leading_empty (delim : List Char) (xs : List (List Char)) :
    cat delim xs = List.intercalate delim (xs.dropWhile List.isEmpty) ∧
    (∀ x rest, xs = x :: rest → x ≠ [] → cat delim xs = List.intercalate delim xs) ∧
    cat ",".toList ["".toList, "a".toList] = "a".toList := by
  refine ⟨cat_eq delim xs, ?_, rfl⟩
  intro x rest hxs hx
  rw [cat_eq, hxs]
  cases x with
  | nil => exact absurd rfl hx
  | cons c r => rw [List.dropWhile_cons_of_neg (by simp)]

theorem cat_example :
    cat ", ".toList ["".toList, "".toList, "a".toList, "".toList, "b".toList] =
      "a, , b".toList := by
  rfl

/-! ## `trimLeft`, `trimRight` and the in-place functions -/

theorem trimLeftLoop_eq (isSpace : Char → Bool) (l : List Char) (it : Nat) :
    trimLeftLoop isSpace l it = it + (l.takeWhile isSpace).length := by
  induction l generalizing it with
  | nil => rfl
  | cons c rest ih =>
    by_cases h : isSpace c = true
    · rw [trimLeftLoop, if_pos h, ih, List.takeWhile_cons_of_pos h, List.length_cons]
      omega
    · rw [trimLeftLoop, if_neg h, List.takeWhile_cons_of_neg h]
      rfl

theorem trimLeft_eq (isSpace : Char → Bool) (str : List Char) :
    trimLeft isSpace str = str.dropWhile isSpace := by
  simp only [trimLeft, trimLeftLoop_eq, Nat.zero_add]
  exact drop_length_takeWhile isSpace str

theorem trimLeftInPlace_eq (isSpace : Char → Bool) (str : List Char) :
    trimLeftInPlace isSpace str = str.dropWhile isSpace := by
  simp only [trimLeftInPlace, trimLeftLoop_eq, Nat.zero_add, List.take_zero, List.nil_append]
  exact drop_length_takeWhile isSpace str

theorem trimRightLoop_eq_trimLastLoop (isSpace : Char → Bool) (str : List Char) (fuel : Nat)
    (pos : Int) :
    trimRightLoop isSpace str fuel pos = trimLastLoop isSpace str 0 fuel pos := by
  induction fuel generalizing pos with
  | zero => rfl
  | succ fuel ih =>
    rw [trimRightLoop, trimLastLoop, ih]

/-- The value of `pos + 1` after the loop of `trimRight`, for a string of fewer than
`2 ^ 31` characters. -/
theorem trimRightLoop_eq (isSpace : Char → Bool) (str : List Char)
    (hlen : str.length < 2 ^ 31) :
    wrapInt (trimRightLoop isSpace str (str.length + 1) (wrapInt (toInt str.length - 1)) + 1) =
      (((str.rdropWhile isSpace).length : Nat) : Int) := by
  have hl := trimLastLoop_eq isSpace str hlen (str.length + 1) 0 str.length (Nat.zero_le _)
    (Nat.le_refl _) (by omega)
  rw [List.take_length, List.drop_zero, Nat.zero_add] at hl
  have h0 : ((0 : Nat) : Int) = 0 := rfl
  rw [h0] at hl
  have hle := (List.rdropWhile_prefix isSpace str).length_le
  rw [trimRightLoop_eq_trimLastLoop, toInt_of_lt str.length hlen,
    wrapInt_of_range ((str.length : Int) - 1) (by omega) (by omega), hl,
    wrapInt_of_range _ (by omega) (by omega)]
  omega

theorem rdropWhile_length_le (isSpace : Char → Bool) (l : List Char) :
    (l.rdropWhile isSpace).length ≤ l.length :=
  (List.rdropWhile_prefix isSpace l).length_le

theorem trimRight_eq (isSpace : Char → Bool) (str : List Char) (hlen : str.length < 2 ^ 31) :
    trimRight isSpace str = str.rdropWhile isSpace := by
  have hle := rdropWhile_length_le isSpace str
  simp only [trimRight]
  rw [trimRightLoop_eq isSpace str hlen, toSizeType_natCast _ (by omega), substr,
    List.drop_zero]
  exact ((List.prefix_iff_eq_take).1 (List.rdropWhile_prefix isSpace _)).symm

theorem trimRightInPlace_eq (isSpace : Char → Bool) (str : List Char)
    (hlen : str.length < 2 ^ 31) :
    trimRightInPlace isSpace str = .ok (str.rdropWhile isSpace) := by
  have hle := rdropWhile_length_le isSpace str
  simp only [trimRightInPlace]
  rw [trimRightLoop_eq isSpace str hlen, toSizeType_natCast _ (by omega), resize, if_pos hle]
  exact congrArg _ ((List.prefix_iff_eq_take).1 (List.rdropWhile_prefix isSpace _)).symm

theorem trimInPlace_eq (isSpace : Char → Bool) (str : List Char)
    (hlen : str.length < 2 ^ 31) :
    trimInPlace isSpace str = .ok ((str.dropWhile isSpace).rdropWhile isSpace) := by
  have hf := trimFirstLoop_eq isSpace str hlen (str.length + 1) 0 (Nat.zero_le _)
    (by
      have := (List.takeWhile_sublist isSpace (l := str)).length_le
      simp only [List.drop_zero]
      omega)
  simp only [List.drop_zero, Nat.zero_add] at hf
  have hfle : (str.takeWhile isSpace).length ≤ str.length :=
    (List.takeWhile_sublist isSpace).length_le
  have hl := trimLastLoop_eq isSpace str hlen (str.length + 1) (str.takeWhile isSpace).length
    str.length hfle (Nat.le_refl _) (by omega)
  rw [List.take_length, drop_length_takeWhile] at hl
  have hsum : (str.takeWhile isSpace).length +
      ((str.dropWhile isSpace).rdropWhile isSpace).length ≤ str.length := by
    have h1 := rdropWhile_length_le isSpace (str.dropWhile isSpace)
    have h2 := congrArg List.length (List.takeWhile_append_dropWhile isSpace str)
    rw [List.length_append] at h2
    omega
  unfold trimInPlace
  simp only []
  rw [toInt_of_lt str.length hlen,
    wrapInt_of_range ((str.length : Int) - 1) (by omega) (by omega)]
  have h0 : ((0 : Nat) : Int) = 0 := rfl
  rw [← h0, hf, hl]
  have hlast : wrapInt ((((str.takeWhile isSpace).length +
      ((str.dropWhile isSpace).rdropWhile isSpace).length : Nat) : Int) - 1 + 1) =
      ((((str.takeWhile isSpace).length +
        ((str.dropWhile isSpace).rdropWhile isSpace).length : Nat)) : Int) := by
    rw [wrapInt_of_range _ (by omega) (by omega)]
    omega
  rw [hlast, toSizeType_natCast _ (by omega), toSizeType_natCast _ (by omega), resize,
    if_pos hsum]
  simp only [erase]
  rw [if_neg (by omega), List.take_zero, List.nil_append, Nat.zero_add, List.drop_take,
    Nat.add_sub_cancel_left, drop_length_takeWhile]
  exact congrArg _ ((List.prefix_iff_eq_take).1 (List.rdropWhile_prefix isSpace _)).symm

theorem rdropWhile_cons (p : Char → Bool) (c : Char) (rest : List Char) :
    (c :: rest).rdropWhile p =
      if rest.rdropWhile p = [] then (if p c = true then [] else [c])
      else c :: rest.rdropWhile p := by
  induction rest using List.reverseRecOn with
  | nil =>
    rw [List.rdropWhile_nil, if_pos rfl, List.rdropWhile_singleton]
  | append_singleton r d ih =>
    rw [← List.cons_append]
    by_cases hd : p d = true
    · rw [List.rdropWhile_concat_pos _ _ _ hd, List.rdropWhile_concat_pos _ _ _ hd, ih]
    · rw [List.rdropWhile_concat_neg _ _ _ hd, List.rdropWhile_concat_neg _ _ _ hd,
        if_neg (by simp)]
      rfl

theorem dropWhile_rdropWhile_comm (p : Char → Bool) (l : List Char) :
    (l.dropWhile p).rdropWhile p = (l.rdropWhile p).dropWhile p := by
  induction l with
  | nil => simp
  | cons c rest ih =>
    rw [rdropWhile_cons p c rest]
    by_cases hc : p c = true
    · rw [List.dropWhile_cons_of_pos hc, ih, if_pos hc]
      by_cases hr : rest.rdropWhile p = []
      · rw [if_pos hr, hr]
      · rw [if_neg hr, List.dropWhile_cons_of_pos hc]
    · rw [List.dropWhile_cons_of_neg hc, if_neg hc, rdropWhile_cons p c rest, if_neg hc]
      by_cases hr : rest.rdropWhile p = []
      · rw [if_pos hr, List.dropWhile_cons_of_neg hc]
      · rw [if_neg hr, List.dropWhile_cons_of_neg hc]

theorem dropWhile_replicate_of_pos (p : Char → Bool) (c : Char) (hc : p c = true) (n : Nat) :
    (List.replicate n c).dropWhile p = [] := by
  induction n with
  | zero => rfl
  | succ n ih => rw [List.replicate_succ, List.dropWhile_cons_of_pos hc, ih]

/-- When `int(str.size())` is not positive no loop of `trimInPlace` runs and `resize` is
handed the conversion of a negative `int`. -/
theorem trimInPlace_of_int_not_positive (isSpace : Char → Bool) (n : Nat) (str : List Char)
    (hn : str.length = n) (hneg : toInt n ≤ 0) (hmin : -2 ^ 31 < toInt n)
    (hbig : maxSize < toSizeType (toInt n)) (hmax : n ≤ maxSize) :
    trimInPlace isSpace str = .error StringFailure.lengthError := by
  unfold trimInPlace
  simp only []
  rw [hn, wrapInt_of_range (toInt n - 1) (by omega) (by omega)]
  have h1 : trimFirstLoop isSpace str (toInt n - 1) (n + 1) 0 = 0 := by
    rw [trimFirstLoop, if_neg]
    intro h
    have := h.1
    omega
  rw [h1]
  have h2 : trimLastLoop isSpace str 0 (n + 1) (toInt n - 1) = toInt n - 1 := by
    rw [trimLastLoop, if_neg]
    intro h
    have := h.1
    omega
  rw [h2]
  have h3 : wrapInt (toInt n - 1 + 1) = toInt n := by
    rw [wrapInt_of_range _ (by omega) (by omega)]
    omega
  rw [h3, resize, if_neg (by rw [hn]; omega), if_pos hbig]

/-- When `int(str.size())` is not positive the loop of `trimRight` does not run: `trimRight`
returns the whole string and `trimRightInPlace` hands the conversion of a negative `int` to
`resize`. -/
theorem trimRight_of_int_not_positive (isSpace : Char → Bool) (n : Nat) (str : List Char)
    (hn : str.length = n) (hneg : toInt n ≤ 0) (hmin : -2 ^ 31 < toInt n)
    (hbig : maxSize < toSizeType (toInt n)) (hmax : n ≤ maxSize) :
    trimRight isSpace str = str ∧
    trimRightInPlace isSpace str = .error StringFailure.lengthError := by
  have h1 : trimRightLoop isSpace str (n + 1) (toInt n - 1) = toInt n - 1 := by
    rw [trimRightLoop, if_neg]
    intro h
    have := h.1
    omega
  have h0 : wrapInt (toInt n - 1) = toInt n - 1 :=
    wrapInt_of_range (toInt n - 1) (by omega) (by omega)
  have h3 : wrapInt (toInt n - 1 + 1) = toInt n := by
    rw [wrapInt_of_range _ (by omega) (by omega)]
    omega
  refine ⟨?_, ?_⟩
  · unfold trimRight
    simp only []
    rw [hn, h0, h1, h3, substr, List.drop_zero]
    exact List.take_of_length_le (by rw [hn]; omega)
  · unfold trimRightInPlace
    simp only []
    rw [hn, h0, h1, h3, resize, if_neg (by rw [hn]; omega), if_pos hbig]

/-- C32, at the failing input: for the string of `2 ^ 31 + 1` blanks `trim` and `trimRight`
return the string itself, while `trimInPlace` and `trimRightInPlace` end in the
`std::length_error` of `resize`, and `trimRight(trimLeft(s))` is empty, unlike `trim(s)`. -/
theorem inPlace_differs_on_long_blank_string :
    trim exampleSpace (List.replicate (2 ^ 31 + 1) ' ') = List.replicate (2 ^ 31 + 1) ' ' ∧
    trimInPlace exampleSpace (List.replicate (2 ^ 31 + 1) ' ') =
      .error StringFailure.lengthError ∧
    trimRight exampleSpace (List.replicate (2 ^ 31 + 1) ' ') =
      List.replicate (2 ^ 31 + 1) ' ' ∧
    trimRightInPlace exampleSpace (List.replicate (2 ^ 31 + 1) ' ') =
      .error StringFailure.lengthError ∧
    trimRight exampleSpace (trimLeft exampleSpace (List.replicate (2 ^ 31 + 1) ' ')) = [] ∧
    trim exampleSpace (List.replicate (2 ^ 31 + 1) ' ') ≠
      trimRight exampleSpace (trimLeft exampleSpace (List.replicate (2 ^ 31 + 1) ' ')) := by
  have h : trim exampleSpace (List.replicate (2 ^ 31 + 1) ' ') =
      List.replicate (2 ^ 31 + 1) ' ' :=
    trim_of_int_not_positive exampleSpace (2 ^ 31 + 1) _ (List.length_replicate _ _)
      (by decide) (by decide) (by decide)
  have hr := trimRight_of_int_not_positive exampleSpace (2 ^ 31 + 1)
    (List.replicate (2 ^ 31 + 1) ' ') (List.length_replicate _ _) (by decide) (by decide)
    (by decide) (by decide)
  have hl : trimRight exampleSpace (trimLeft exampleSpace (List.replicate (2 ^ 31 + 1) ' ')) =
      [] := by
    rw [trimLeft_eq, dropWhile_replicate_of_pos exampleSpace ' ' (by decide)]
    rfl
  refine ⟨h, ?_, hr.1, hr.2, hl, ?_⟩
  · exact trimInPlace_of_int_not_positive exampleSpace (2 ^ 31 + 1) _
      (List.length_replicate _ _) (by decide) (by decide) (by decide) (by decide)
  · rw [h, hl]
    intro h0
    have := congrArg List.length h0
    rw [List.length_replicate] at this
    exact absurd this (by decide)

/-- The in-place functions below the range of `int`: `trimLeftInPlace` leaves in every
string what `trimLeft` returns; for a string `s` of fewer than `2 ^ 31` characters
`trimInPlace` leaves `trim(s)` and `trimRightInPlace` leaves `trimRight(s)`, neither
throwing, and `trim(s)` is `trimLeft(trimRight(s))` and also `trimRight(trimLeft(s))`. -/
theorem inPlace_trims_agree (isSpace : Char → Bool) (s : List Char)
    (hlen : s.length < 2 ^ 31) :
    (∀ str : List Char, trimLeftInPlace isSpace str = trimLeft isSpace str) ∧
    trimInPlace isSpace s = .ok (trim isSpace s) ∧
    trimRightInPlace isSpace s = .ok (trimRight isSpace s) ∧
    trim isSpace s = trimLeft isSpace (trimRight isSpace s) ∧
    trim isSpace s = trimRight isSpace (trimLeft isSpace s) := by
  have hd : (s.dropWhile isSpace).length < 2 ^ 31 :=
    Nat.lt_of_le_of_lt (List.dropWhile_sublist isSpace).length_le hlen
  refine ⟨fun str => ?_, ?_, ?_, ?_, ?_⟩
  · rw [trimLeftInPlace_eq, trimLeft_eq]
  · rw [trimInPlace_eq isSpace s hlen, trim_eq isSpace s hlen]
  · rw [trimRightInPlace_eq isSpace s hlen, trimRight_eq isSpace s hlen]
  · rw [trim_eq isSpace s hlen, trimRight_eq isSpace s hlen, trimLeft_eq,
      dropWhile_rdropWhile_comm]
  · rw [trim_eq isSpace s hlen, trimLeft_eq, trimRight_eq isSpace _ hd]

/-- An instance of it: on a blank, `a`, a blank, `b`, a tab the in-place functions
leave `a b`, `a b` with the tab and the string without its tab. -/
theorem inPlace_trims_agree_witness :
    " a b\t".toList.length < 2 ^ 31 ∧
    ((∀ str : List Char, trimLeftInPlace exampleSpace str = trimLeft exampleSpace str) ∧
      trimInPlace exampleSpace " a b\t".toList = .ok (trim exampleSpace " a b\t".toList) ∧
      trimRightInPlace exampleSpace " a b\t".toList =
        .ok (trimRight exampleSpace " a b\t".toList) ∧
      trim exampleSpace " a b\t".toList =
        trimLeft exampleSpace (trimRight exampleSpace " a b\t".toList) ∧
      trim exampleSpace " a b\t".toList =
        trimRight exampleSpace (trimLeft exampleSpace " a b\t".toList)) ∧
    trimInPlace exampleSpace " a b\t".toList = .ok "a b".toList ∧
    trimLeftInPlace exampleSpace " a b\t".toList = "a b\t".toList ∧
    trimRightInPlace exampleSpace " a b\t".toList = .ok " a b".toList :=
  ⟨by decide, inPlace_trims_agree exampleSpace " a b\t".toList (by decide), rfl, by decide,
    rfl⟩

end gpstk
